import Mathlib

/-!
# esp32-ble-hid-natebox: gesture synthesis and command scanning

A shallow embedding of `main/hid_actions.c` and of the request handlers of
`main/network_server.c`.

* C `float` and `double` values are modelled by `FP`: NaN, the two infinities and the
  finite values `(-1)^neg * m * 2^e`.  Every arithmetic operation computes the exact
  result and rounds it once, to nearest with ties to even, into the format of its C type
  (`binary32` for `float`, `binary64` for `double`).
  The C standard leaves the conversion of a NaN or of an out-of-range value to an integer
  type undefined; what the target yields there is a parameter (`Target.undefCast`).  The
  library functions `sqrtf`, `cosf` and `sinf` are parameters as well.
* A `const char *` into a NUL-terminated buffer is modelled by the list of characters (the
  bytes of the buffer) from the pointer up to the terminator, so `p + 1` is `p.drop 1` and,
  for two pointers into the same buffer, `p < q` is `q.length < p.length`.
* The C library functions `strstr`, `strchr`, `isspace` and `strtod` are modelled after
  ISO C, in the C locale.
* The calls into the HID profile and `vTaskDelay` are recorded, in order, in a trace.
-/

namespace NateBox

/-! ## IEEE 754 values -/

/-- A binary floating-point format: `prec` bits of significand, the exponent `emin` of the
least significant bit of the subnormals, and the exponent `emax` of the least significant bit
of the largest finite values. -/
structure Fmt where
  prec : Nat
  emin : Int
  emax : Int
  deriving DecidableEq

/-- The C type `float`. -/
def binary32 : Fmt := ⟨24, -149, 104⟩

/-- The C type `double`. -/
def binary64 : Fmt := ⟨53, -1074, 971⟩

/-- A floating-point datum: NaN, an infinity, or the finite value `(-1)^neg * m * 2^e`. -/
inductive FP where
  | nan : FP
  | inf (neg : Bool) : FP
  | fin (neg : Bool) (m : Nat) (e : Int) : FP
  deriving DecidableEq

namespace FP

/-- The number of binary digits of `n`, computed with `fuel` halvings available. -/
def bitsAux : Nat → Nat → Nat
  | 0, _ => 0
  | fuel + 1, n => if n = 0 then 0 else bitsAux fuel (n / 2) + 1

/-- The number of binary digits of `n` (`0` for `0`). -/
def bits (n : Nat) : Nat := bitsAux n n

/-- The value `floor (log2 (p / q))` for positive `p` and `q`. -/
def ilog2 (p q : Nat) : Int :=
  let l : Int := (bits p : Int) - (bits q : Int)
  if q * 2 ^ l.toNat ≤ p * 2 ^ (-l).toNat then l else l - 1

/-- The integer nearest to `p / q`, the even one of the two when `p / q` lies half way. -/
def divRoundEven (p q : Nat) : Nat :=
  let n := p / q
  let r := p % q
  if q < 2 * r ∨ (2 * r = q ∧ n % 2 = 1) then n + 1 else n

/-- The exponent of the last significand bit kept when `p / q` is rounded into `f`. -/
def targetExp (f : Fmt) (p q : Nat) : Int :=
  max (ilog2 p q - ((f.prec : Int) - 1)) f.emin

/-- The datum of format `f` nearest to `(-1)^neg * p / q` (ties to even); values that
round beyond the largest finite number become infinite. -/
def round (f : Fmt) (neg : Bool) (p q : Nat) : FP :=
  let t := targetExp f p q
  let m := divRoundEven (p * 2 ^ (-t).toNat) (q * 2 ^ t.toNat)
  if f.emax < t ∨ (t = f.emax ∧ 2 ^ f.prec ≤ m) then inf neg
  else if 2 ^ f.prec ≤ m then fin neg (2 ^ (f.prec - 1)) (t + 1)
  else fin neg m t

/-- The exact value `(-1)^neg * m * 2^e` rounded into `f`. -/
def roundDyadic (f : Fmt) (neg : Bool) (m : Nat) (e : Int) : FP :=
  round f neg (m * 2 ^ e.toNat) (2 ^ (-e).toNat)

/-- The signed integer `k` such that the finite datum equals `k * 2^e0`, for `e0 ≤ e`. -/
def scaled (neg : Bool) (m : Nat) (e e0 : Int) : Int :=
  let k : Int := (m * 2 ^ (e - e0).toNat : Nat)
  if neg then -k else k

/-- The C comparison `a < b`. -/
def lt : FP → FP → Bool
  | nan, _ => false
  | _, nan => false
  | inf true, inf true => false
  | inf true, _ => true
  | _, inf true => false
  | inf false, _ => false
  | fin _ _ _, inf false => true
  | fin n1 m1 e1, fin n2 m2 e2 =>
    decide (scaled n1 m1 e1 (min e1 e2) < scaled n2 m2 e2 (min e1 e2))

/-- The C comparison `a > b`. -/
def gt (a b : FP) : Bool := lt b a

/-- The C unary minus. -/
def neg : FP → FP
  | nan => nan
  | inf n => inf (!n)
  | fin n m e => fin (!n) m e

/-- The C product `a * b` in format `f`. -/
def mul (f : Fmt) : FP → FP → FP
  | nan, _ => nan
  | _, nan => nan
  | inf n1, inf n2 => inf (xor n1 n2)
  | inf n1, fin n2 m2 _ => if m2 = 0 then nan else inf (xor n1 n2)
  | fin n1 m1 _, inf n2 => if m1 = 0 then nan else inf (xor n1 n2)
  | fin n1 m1 e1, fin n2 m2 e2 => roundDyadic f (xor n1 n2) (m1 * m2) (e1 + e2)

/-- The C sum `a + b` in format `f`. -/
def add (f : Fmt) : FP → FP → FP
  | nan, _ => nan
  | _, nan => nan
  | inf n1, inf n2 => if n1 = n2 then inf n1 else nan
  | inf n1, fin _ _ _ => inf n1
  | fin _ _ _, inf n2 => inf n2
  | fin n1 m1 e1, fin n2 m2 e2 =>
    let e0 := min e1 e2
    let s := scaled n1 m1 e1 e0 + scaled n2 m2 e2 e0
    if s = 0 then fin (n1 && n2) 0 e0 else roundDyadic f (decide (s < 0)) s.natAbs e0

/-- The C difference `a - b` in format `f`. -/
def sub (f : Fmt) (a b : FP) : FP := add f a (neg b)

/-- The C quotient `a / b` in format `f`. -/
def div (f : Fmt) : FP → FP → FP
  | nan, _ => nan
  | _, nan => nan
  | inf _, inf _ => nan
  | inf n1, fin n2 _ _ => inf (xor n1 n2)
  | fin n1 _ e1, inf n2 => fin (xor n1 n2) 0 e1
  | fin n1 m1 e1, fin n2 m2 e2 =>
    if m2 = 0 then (if m1 = 0 then nan else inf (xor n1 n2))
    else round f (xor n1 n2) (m1 * 2 ^ (e1 - e2).toNat) (m2 * 2 ^ (e2 - e1).toNat)

/-- The conversion of an unsigned integer to format `f`. -/
def ofNat (f : Fmt) (n : Nat) : FP := round f false n 1

/-- The conversion of a datum to format `f` (the C cast `(float)v` of a `double`). -/
def cast (f : Fmt) : FP → FP
  | nan => nan
  | inf n => inf n
  | fin n m e => roundDyadic f n m e

/-- The C conversion to `int32_t`: the value truncated toward zero.  The C standard leaves
the conversion undefined for NaN and for values whose integral part does not fit; `undef`
is what the target produces there. -/
def toInt32 (undef : Int) : FP → Int
  | nan => undef
  | inf _ => undef
  | fin n m e =>
    let k : Int := ((m * 2 ^ e.toNat) / 2 ^ (-e).toNat : Nat)
    let v := if n then -k else k
    if -2147483648 ≤ v ∧ v ≤ 2147483647 then v else undef

/-- The C conversion to `uint32_t`: the value truncated toward zero, `undef` where the C
standard leaves the conversion undefined. -/
def toUInt32 (undef : Nat) : FP → Nat
  | nan => undef
  | inf _ => undef
  | fin n m e =>
    let k : Nat := (m * 2 ^ e.toNat) / 2 ^ (-e).toNat
    if k = 0 then 0 else if n = false ∧ k ≤ 4294967295 then k else undef

/-- The C library function `fmaxf`: the larger argument, a NaN argument being ignored. -/
def fmaxf : FP → FP → FP
  | nan, b => b
  | a, nan => a
  | a, b => if lt a b then b else a

/-- The exact rational value of a finite datum (`0` for NaN and the infinities). -/
def toRat : FP → ℚ
  | fin n m e => (if n then -1 else 1) * (m : ℚ) * (2 : ℚ) ^ e
  | _ => 0

/-- The datum is a NaN. -/
def isNaN : FP → Bool
  | nan => true
  | _ => false

/-- The datum belongs to format `f`. -/
def InFmt (f : Fmt) : FP → Prop
  | fin _ m e => m < 2 ^ f.prec ∧ f.emin ≤ e ∧ e ≤ f.emax
  | _ => True

end FP

/-! ## `main/hid_actions.c` -/

/-- What the build target supplies to `hid_actions.c`: the result `undefCast` of a
float-to-integer conversion that the C standard leaves undefined, the single-precision
library functions, and the consumer usage codes of `hid_dev.h`. -/
structure Target where
  undefCast : Int
  undefCastU : Nat
  sqrtf : FP → FP
  cosf : FP → FP
  sinf : FP → FP
  HID_CONSUMER_VOLUME_UP : Nat
  HID_CONSUMER_VOLUME_DOWN : Nat
  HID_CONSUMER_AC_HOME : Nat
  HID_CONSUMER_AC_BACK : Nat
  HID_CONSUMER_POWER : Nat

/-- One observable step of a handler: a contact report (`esp_hidd_send_touch_value`), a
consumer-key report (`esp_hidd_send_consumer_value`) or a wait (`vTaskDelay`, recorded by
the number of milliseconds handed to `pdMS_TO_TICKS`). -/
inductive Ev where
  | touch (conn_id : Nat) (touch_down : Bool) (x y : Nat) : Ev
  | consumer (conn_id : Nat) (usage : Nat) (pressed : Bool) : Ev
  | delay (ms : Nat) : Ev
  deriving DecidableEq

/-- The event is a contact report. -/
def Ev.isTouch : Ev → Bool
  | Ev.touch _ _ _ _ => true
  | _ => false

def HID_ABS_MIN_COORD : Int := 0
def HID_ABS_MAX_COORD : Int := 32767
def HID_TOUCH_INTERVAL_MS : Nat := 16
def HID_TAP_HOLD_MS : Nat := 50
def HID_LONG_PRESS_MIN_MS : Nat := 20
def HID_CONSUMER_HOLD_MS : Nat := 80

/-- The literal `0.0f`. -/
def f0 : FP := FP.fin false 0 0
/-- The literal `1.0f`. -/
def f1 : FP := FP.fin false 1 0
/-- The literal `0.5f`. -/
def fHalf : FP := FP.fin false 1 (-1)
/-- The literal `3.1415926f`. -/
def HID_PI : FP := FP.round binary32 false 31415926 10000000

def hid_clamp_coord (coord : Int) : Int :=
  if coord < HID_ABS_MIN_COORD then HID_ABS_MIN_COORD
  else if coord > HID_ABS_MAX_COORD then HID_ABS_MAX_COORD
  else coord

/-- The value of `scaled` in `hid_map_normalized`, where `undefCast` is what the target's
conversion to `int32_t` gives when the C standard leaves it undefined. -/
def map_scaled (undefCast : Int) (value : FP) : Int :=
  let value := if FP.lt value f0 then f0 else if FP.gt value f1 then f1 else value
  FP.toInt32 undefCast
    (FP.add binary32 (FP.mul binary32 value (FP.ofNat binary32 HID_ABS_MAX_COORD.toNat)) fHalf)

def hid_map_normalized (undefCast : Int) (value : FP) : Nat :=
  let scaled : Int := map_scaled undefCast value
  ((hid_clamp_coord scaled) % 65536).toNat

def hid_touch_update (T : Target) (conn_id : Nat) (touch_down : Bool) (norm_x norm_y : FP) :
    List Ev :=
  let mapped_x := hid_map_normalized T.undefCast norm_x
  let mapped_y := hid_map_normalized T.undefCast norm_y
  [Ev.touch conn_id touch_down mapped_x mapped_y]

def hid_touch_tap (T : Target) (conn_id : Nat) (norm_x norm_y : FP) : List Ev :=
  hid_touch_update T conn_id true norm_x norm_y
    ++ [Ev.delay HID_TAP_HOLD_MS]
    ++ hid_touch_update T conn_id false norm_x norm_y

def hid_touch_long_press (T : Target) (conn_id : Nat) (norm_x norm_y : FP) (press_ms : Nat) :
    List Ev :=
  let press_ms := if press_ms < HID_LONG_PRESS_MIN_MS then HID_LONG_PRESS_MIN_MS else press_ms
  hid_touch_update T conn_id true norm_x norm_y
    ++ [Ev.delay press_ms]
    ++ hid_touch_update T conn_id false norm_x norm_y

/-- The number of loop iterations `steps` that `hid_touch_swipe` derives from the requested
duration. -/
def swipe_steps (duration_ms : Nat) : Nat :=
  let duration_ms := if duration_ms = 0 then 600 else duration_ms
  let duration_ms :=
    if duration_ms < HID_TOUCH_INTERVAL_MS * 4 then HID_TOUCH_INTERVAL_MS * 4 else duration_ms
  let interval_ms := HID_TOUCH_INTERVAL_MS
  let steps := duration_ms / interval_ms
  if steps < 5 then 5 else steps

/-- The body of the `for` loop of `hid_touch_swipe` at loop index `i`. -/
def swipe_step (T : Target) (conn_id : Nat) (start_x start_y dx dy perp_x perp_y arc_offset : FP)
    (steps i : Nat) : List Ev :=
  let t := FP.div binary32 (FP.ofNat binary32 i) (FP.ofNat binary32 steps)
  let eased := FP.sub binary32 fHalf (FP.mul binary32 fHalf (T.cosf (FP.mul binary32 t HID_PI)))
  let along_x := FP.add binary32 start_x (FP.mul binary32 dx eased)
  let along_y := FP.add binary32 start_y (FP.mul binary32 dy eased)
  let arc := T.sinf (FP.mul binary32 eased HID_PI)
  let current_x := FP.add binary32 along_x (FP.mul binary32 (FP.mul binary32 perp_x arc) arc_offset)
  let current_y := FP.add binary32 along_y (FP.mul binary32 (FP.mul binary32 perp_y arc) arc_offset)
  [Ev.delay HID_TOUCH_INTERVAL_MS] ++ hid_touch_update T conn_id true current_x current_y

def hid_touch_swipe (T : Target) (conn_id : Nat) (start_x start_y end_x end_y : FP)
    (duration_ms : Nat) : List Ev :=
  let steps := swipe_steps duration_ms
  let dx := FP.sub binary32 end_x start_x
  let dy := FP.sub binary32 end_y start_y
  let path_len := T.sqrtf (FP.add binary32 (FP.mul binary32 dx dx) (FP.mul binary32 dy dy))
  let perp_x := FP.neg dy
  let perp_y := dx
  let perp_len :=
    T.sqrtf (FP.add binary32 (FP.mul binary32 perp_x perp_x) (FP.mul binary32 perp_y perp_y))
  let far := FP.gt perp_len (FP.round binary32 false 1 10000)
  let perp_x := if far then FP.div binary32 perp_x perp_len else f0
  let perp_y := if far then FP.div binary32 perp_y perp_len else FP.round binary32 false 1 10
  let arc_offset :=
    FP.fmaxf (FP.round binary32 false 2 100) (FP.mul binary32 path_len (FP.fin false 1 (-2)))
  hid_touch_update T conn_id true start_x start_y
    ++ ((List.range steps).map (fun k =>
          swipe_step T conn_id start_x start_y dx dy perp_x perp_y arc_offset steps (k + 1))).flatten
    ++ hid_touch_update T conn_id false end_x end_y

def hid_consumer_click (conn_id : Nat) (usage : Nat) : List Ev :=
  [Ev.consumer conn_id usage true, Ev.delay HID_CONSUMER_HOLD_MS, Ev.consumer conn_id usage false]

/-- The `for` loop of `hid_touch_multi_tap`, from index `i`, with `n` iterations left. -/
def multi_tap_loop (T : Target) (conn_id : Nat) (xs ys : Nat → FP) : Nat → Nat → List Ev
  | 0, _ => []
  | n + 1, i =>
    hid_touch_tap T conn_id (xs i) (ys i) ++ [Ev.delay 100]
      ++ multi_tap_loop T conn_id xs ys n (i + 1)

/-- The arrays are pointers: `none` is the null pointer, `some a` an array with `a i` at
index `i`. -/
def hid_touch_multi_tap (T : Target) (conn_id : Nat) (count : Nat)
    (xs ys : Option (Nat → FP)) : List Ev :=
  match xs, ys with
  | some xs, some ys =>
    if count = 0 then []
    else
      let count := if count > 5 then 5 else count
      multi_tap_loop T conn_id xs ys count 0
  | _, _ => []

/-- The `for` loop of `hid_touch_multi_long_press`, from index `i`, with `n` iterations
left. -/
def multi_long_press_loop (T : Target) (conn_id : Nat) (xs ys : Nat → FP) (press_ms : Nat) :
    Nat → Nat → List Ev
  | 0, _ => []
  | n + 1, i =>
    hid_touch_long_press T conn_id (xs i) (ys i) press_ms ++ [Ev.delay 150]
      ++ multi_long_press_loop T conn_id xs ys press_ms n (i + 1)

def hid_touch_multi_long_press (T : Target) (conn_id : Nat) (count : Nat)
    (xs ys : Option (Nat → FP)) (press_ms : Nat) : List Ev :=
  match xs, ys with
  | some xs, some ys =>
    if count = 0 then []
    else
      let count := if count > 5 then 5 else count
      multi_long_press_loop T conn_id xs ys press_ms count 0
  | _, _ => []

def hid_press_volume_up (T : Target) (conn_id : Nat) : List Ev :=
  hid_consumer_click conn_id T.HID_CONSUMER_VOLUME_UP

def hid_press_volume_down (T : Target) (conn_id : Nat) : List Ev :=
  hid_consumer_click conn_id T.HID_CONSUMER_VOLUME_DOWN

def hid_press_home (T : Target) (conn_id : Nat) : List Ev :=
  hid_consumer_click conn_id T.HID_CONSUMER_AC_HOME

def hid_press_back (T : Target) (conn_id : Nat) : List Ev :=
  hid_consumer_click conn_id T.HID_CONSUMER_AC_BACK

def hid_press_power (T : Target) (conn_id : Nat) : List Ev :=
  hid_consumer_click conn_id T.HID_CONSUMER_POWER

/-! ## The C library: strings -/

/-- The C library function `isspace` in the C locale. -/
def isspace (c : Char) : Bool :=
  c = ' ' ∨ c = '\t' ∨ c = '\n' ∨ c = '\x0b' ∨ c = '\x0c' ∨ c = '\r'

/-- The C library function `isdigit`. -/
def isdigit (c : Char) : Bool := 48 ≤ c.toNat ∧ c.toNat ≤ 57

/-- The C library function `isxdigit`. -/
def isxdigit (c : Char) : Bool :=
  isdigit c ∨ (97 ≤ c.toNat ∧ c.toNat ≤ 102) ∨ (65 ≤ c.toNat ∧ c.toNat ≤ 70)

/-- The value of a decimal or hexadecimal digit. -/
def digitVal (c : Char) : Nat :=
  if isdigit c then c.toNat - 48 else if 97 ≤ c.toNat then c.toNat - 87 else c.toNat - 55

/-- The number written by the digits `ds` in base `base`. -/
def numVal (base : Nat) (ds : List Char) : Nat :=
  ds.foldl (fun acc c => acc * base + digitVal c) 0

/-- The C library function `strstr`: the pointer to the first occurrence of `needle`. -/
def strstr : List Char → List Char → Option (List Char)
  | [], needle => if needle = [] then some [] else none
  | c :: s, needle => if needle.isPrefixOf (c :: s) then some (c :: s) else strstr s needle

/-- The C library function `strchr` for a character other than the terminator: the pointer
to the first occurrence of `c`. -/
def strchr : List Char → Char → Option (List Char)
  | [], _ => none
  | a :: s, c => if a = c then some (a :: s) else strchr s c

/-- An optional sign: whether it is a minus, and the text after it. -/
def optSign : List Char → Bool × List Char
  | '-' :: r => (true, r)
  | '+' :: r => (false, r)
  | s => (false, s)

/-- The optional exponent part of a number: a marker character, an optional sign and at
least one decimal digit.  Gives the exponent and the text after it; when no complete
exponent part stands at `s`, the exponent is `0` and nothing is consumed. -/
def exponentPart (marker : Char → Bool) (s : List Char) : Int × List Char :=
  match s with
  | [] => (0, s)
  | c :: r =>
    if marker c then
      let sg := optSign r
      let ds := sg.2.takeWhile isdigit
      if ds = [] then (0, s)
      else ((if sg.1 then -(numVal 10 ds : Int) else (numVal 10 ds : Int)), sg.2.dropWhile isdigit)
    else (0, s)

/-- The digits before the radix character, the digits after it, and the text that follows. -/
def mantissaPart (digit : Char → Bool) (s : List Char) : List Char × List Char × List Char :=
  let ip := s.takeWhile digit
  match s.dropWhile digit with
  | '.' :: r => (ip, r.takeWhile digit, r.dropWhile digit)
  | r => (ip, [], r)

/-- A decimal floating constant at `s`, of sign `neg`: its `double` value and end pointer. -/
def decimalBody (neg : Bool) (s : List Char) : Option (FP × List Char) :=
  let mp := mantissaPart isdigit s
  if mp.1 = [] ∧ mp.2.1 = [] then none
  else
    let ex := exponentPart (fun c => c = 'e' ∨ c = 'E') mp.2.2
    let e10 : Int := ex.1 - (mp.2.1.length : Int)
    let d := numVal 10 (mp.1 ++ mp.2.1)
    some (FP.round binary64 neg (d * 10 ^ e10.toNat) (10 ^ (-e10).toNat), ex.2)

/-- A hexadecimal floating constant at `s`, of sign `neg`. -/
def hexBody (neg : Bool) (s : List Char) : Option (FP × List Char) :=
  match s with
  | '0' :: x :: r =>
    if x = 'x' ∨ x = 'X' then
      let mp := mantissaPart isxdigit r
      if mp.1 = [] ∧ mp.2.1 = [] then none
      else
        let ex := exponentPart (fun c => c = 'p' ∨ c = 'P') mp.2.2
        let e2 : Int := ex.1 - 4 * (mp.2.1.length : Int)
        some (FP.roundDyadic binary64 neg (numVal 16 (mp.1 ++ mp.2.1)) e2, ex.2)
    else none
  | _ => none

/-- The characters allowed between the parentheses of `nan(...)`. -/
def isNChar (c : Char) : Bool := c.isAlphanum ∨ c = '_'

/-- An infinity or a NaN at `s`, of sign `neg`, letter case ignored. -/
def specialBody (neg : Bool) (s : List Char) : Option (FP × List Char) :=
  if (s.take 8).map Char.toLower = "infinity".toList then some (FP.inf neg, s.drop 8)
  else if (s.take 3).map Char.toLower = "inf".toList then some (FP.inf neg, s.drop 3)
  else if (s.take 3).map Char.toLower = "nan".toList then
    match s.drop 3 with
    | '(' :: r =>
      match r.dropWhile isNChar with
      | ')' :: r2 => some (FP.nan, r2)
      | _ => some (FP.nan, s.drop 3)
    | r => some (FP.nan, r)
  else none

/-- The C library function `strtod` in the C locale (ISO C 7.22.1.3), with correct
rounding: leading white space, an optional sign, then the longest hexadecimal constant,
decimal constant, infinity or NaN.  `none` stands for "no conversion" (`endptr == nptr`);
otherwise the result is the converted value and `endptr`. -/
def strtod (nptr : List Char) : Option (FP × List Char) :=
  let sg := optSign (nptr.dropWhile isspace)
  match hexBody sg.1 sg.2 with
  | some r => some r
  | none =>
    match decimalBody sg.1 sg.2 with
    | some r => some r
    | none => specialBody sg.1 sg.2

/-! ## `main/network_server.c` -/

def UINT16_MAX : Nat := 65535

/-- The `const char *` to a field name or search word given as a string literal. -/
def lit (s : String) : List Char := s.toList

def parse_number_field (json field : List Char) : Option FP :=
  let pattern := ((('"' :: field) ++ ['"']).take 31)
  match strstr json pattern with
  | none => none
  | some pos =>
    let pos := pos.drop pattern.length
    match strchr pos ':' with
    | none => none
    | some pos =>
      let pos := pos.drop 1
      let pos := pos.dropWhile isspace
      match strtod pos with
      | none => none
      | some (value, _) => some value

def parse_float_field (json field : List Char) : Option FP :=
  match parse_number_field json field with
  | none => none
  | some v => some (FP.cast binary32 v)

def parse_uint32_field (T : Target) (json field : List Char) : Option Nat :=
  match parse_number_field json field with
  | none => none
  | some v =>
    let v := if FP.lt v (FP.fin false 0 0) then FP.fin false 0 0 else v
    some (FP.toUInt32 T.undefCastU (FP.add binary64 v (FP.fin false 1 (-1))))

/-- A request as a handler sees it: the bytes of its body (`content_len` is their number)
and whether allocating the buffer or receiving the bytes fails. -/
structure Req where
  content : List Char
  readFails : Bool

/-- The result of `read_body`: `none` when it reports an error; otherwise the buffer, which
is the null pointer (`none`) for an empty body and else holds the body followed by a
terminator, so that as a C string it ends at its first zero byte. -/
def read_body (req : Req) : Option (Option (List Char)) :=
  if req.content.length = 0 then some none
  else if req.readFails then none
  else some (some (req.content.takeWhile (fun c => c ≠ '\x00')))

/-- The response sent for a request. -/
inductive Resp where
  | ok : Resp
  | error (status : Nat) (message : String) : Resp
  deriving DecidableEq

def respond_json_ok : Resp := Resp.ok

def respond_error (status : Nat) (message : String) : Resp := Resp.error status message

/-- The response that `ensure_hid_ready` sends when it returns `false`; `none` when it
returns `true`. -/
def ensure_hid_ready (s_hid_conn_id : Nat) : Option Resp :=
  if s_hid_conn_id = UINT16_MAX then some (respond_error 503 "HID not connected") else none

def handle_touch_tap (T : Target) (s_hid_conn_id : Nat) (req : Req) : Resp × List Ev :=
  match ensure_hid_ready s_hid_conn_id with
  | some r => (r, [])
  | none =>
    match read_body req with
    | none => (respond_error 500 "Failed to read body", [])
    | some none => (respond_json_ok, hid_touch_tap T s_hid_conn_id fHalf fHalf)
    | some (some body) =>
      match parse_float_field body (lit "x"), parse_float_field body (lit "y") with
      | some x, some y => (respond_json_ok, hid_touch_tap T s_hid_conn_id x y)
      | _, _ => (respond_error 400 "Missing x/y", [])

def handle_touch_long_press (T : Target) (s_hid_conn_id : Nat) (req : Req) : Resp × List Ev :=
  match ensure_hid_ready s_hid_conn_id with
  | some r => (r, [])
  | none =>
    match read_body req with
    | none => (respond_error 500 "Failed to read body", [])
    | some none => (respond_error 400 "Missing body", [])
    | some (some body) =>
      match parse_float_field body (lit "x"), parse_float_field body (lit "y"),
          parse_uint32_field T body (lit "duration_ms") with
      | some x, some y, some duration =>
        (respond_json_ok, hid_touch_long_press T s_hid_conn_id x y duration)
      | _, _, _ => (respond_error 400 "Missing fields", [])

/-- The `while` loop shared by `handle_touch_multi_tap` and `handle_touch_multi_long_press`:
`room` is `5 - count`, `p` the scan pointer and `endLen` the length of the text from `end`
on.  The result lists the pairs stored in `coords`, in order. -/
def points_loop : Nat → List Char → Nat → List (FP × FP)
  | 0, _, _ => []
  | room + 1, p, endLen =>
    if endLen < p.length then
      match parse_number_field p (lit "x"), parse_number_field p (lit "y") with
      | some vx, some vy =>
        (FP.cast binary32 vx, FP.cast binary32 vy) ::
          (match strchr p '\x7d' with
           | none => []
           | some q => points_loop room (q.drop 1) endLen)
      | _, _ => []
    else []

/-- The point extraction block shared by `handle_touch_multi_tap` and
`handle_touch_multi_long_press`: the first `count` pairs of `coords`. -/
def extract_points (body : List Char) : List (FP × FP) :=
  match strstr body (lit "points") with
  | none => []
  | some ptr =>
    match strchr ptr '[', strchr ptr ']' with
    | some p, some e => if e.length < p.length then points_loop 5 (p.drop 1) e.length else []
    | _, _ => []

/-- The array `xs` filled from `coords`. -/
def xs_of (pts : List (FP × FP)) : Nat → FP := fun i => ((pts.get? i).getD (f0, f0)).1

/-- The array `ys` filled from `coords`. -/
def ys_of (pts : List (FP × FP)) : Nat → FP := fun i => ((pts.get? i).getD (f0, f0)).2

def handle_touch_multi_tap (T : Target) (s_hid_conn_id : Nat) (req : Req) : Resp × List Ev :=
  match ensure_hid_ready s_hid_conn_id with
  | some r => (r, [])
  | none =>
    match read_body req with
    | none => (respond_error 500 "Failed to read body", [])
    | some none => (respond_error 400 "Missing body", [])
    | some (some body) =>
      let pts := extract_points body
      let count := pts.length
      if count = 0 then (respond_error 400 "Invalid points", [])
      else
        let count := if count > 5 then 5 else count
        (respond_json_ok,
          hid_touch_multi_tap T s_hid_conn_id count (some (xs_of pts)) (some (ys_of pts)))

def handle_touch_multi_long_press (T : Target) (s_hid_conn_id : Nat) (req : Req) :
    Resp × List Ev :=
  match ensure_hid_ready s_hid_conn_id with
  | some r => (r, [])
  | none =>
    match read_body req with
    | none => (respond_error 500 "Failed to read body", [])
    | some none => (respond_error 400 "Missing body", [])
    | some (some body) =>
      let pts := extract_points body
      let count := pts.length
      let duration := (parse_uint32_field T body (lit "duration_ms")).getD 0
      if count = 0 then (respond_error 400 "Invalid points", [])
      else
        let count := if count > 5 then 5 else count
        (respond_json_ok,
          hid_touch_multi_long_press T s_hid_conn_id count (some (xs_of pts)) (some (ys_of pts))
            duration)

def handle_touch_swipe (T : Target) (s_hid_conn_id : Nat) (req : Req) : Resp × List Ev :=
  match ensure_hid_ready s_hid_conn_id with
  | some r => (r, [])
  | none =>
    match read_body req with
    | none => (respond_error 500 "Failed to read body", [])
    | some none => (respond_error 400 "Missing body", [])
    | some (some body) =>
      match parse_float_field body (lit "start_x"), parse_float_field body (lit "start_y"),
          parse_float_field body (lit "end_x"), parse_float_field body (lit "end_y") with
      | some sx, some sy, some ex, some ey =>
        let duration := (parse_uint32_field T body (lit "duration_ms")).getD 0
        (respond_json_ok, hid_touch_swipe T s_hid_conn_id sx sy ex ey duration)
      | _, _, _, _ => (respond_error 400 "Missing fields", [])

def handle_key_action (s_hid_conn_id : Nat) (action : Nat → List Ev) : Resp × List Ev :=
  match ensure_hid_ready s_hid_conn_id with
  | some r => (r, [])
  | none => (respond_json_ok, action s_hid_conn_id)

def handle_volume_up (T : Target) (s_hid_conn_id : Nat) : Resp × List Ev :=
  handle_key_action s_hid_conn_id (hid_press_volume_up T)

def handle_volume_down (T : Target) (s_hid_conn_id : Nat) : Resp × List Ev :=
  handle_key_action s_hid_conn_id (hid_press_volume_down T)

def handle_home (T : Target) (s_hid_conn_id : Nat) : Resp × List Ev :=
  handle_key_action s_hid_conn_id (hid_press_home T)

def handle_back (T : Target) (s_hid_conn_id : Nat) : Resp × List Ev :=
  handle_key_action s_hid_conn_id (hid_press_back T)

def handle_power (T : Target) (s_hid_conn_id : Nat) : Resp × List Ev :=
  handle_key_action s_hid_conn_id (hid_press_power T)

/-! ## The specification's formulas -/

/-- The argument of the mapper saturated to the unit interval, `min (max v 0) 1`, as an
exact rational number (`0` for NaN, which the formula does not cover). -/
def sat01 : FP → ℚ
  | FP.nan => 0
  | FP.inf neg => if neg then 0 else 1
  | FP.fin neg m e => min (max (FP.toRat (FP.fin neg m e)) 0) 1

/-- The mapper as the specification words it: the saturated value scaled by 32767 and
rounded to the nearest integer, ties going up, in exact arithmetic. -/
def map_spec (v : FP) : Int := ⌊sat01 v * 32767 + 1 / 2⌋

/-- The quoted field name that `parse_number_field` searches for. -/
def quoted (field : List Char) : List Char := ('"' :: field) ++ ['"']

/-- The text `pre ++ pat ++ rest` has its first occurrence of `pat` right after `pre`: every
occurrence starts at offset `pre.length` or later. -/
def FirstAt (pat pre rest : List Char) : Prop :=
  ∀ pre2 r2, pre ++ pat ++ rest = pre2 ++ r2 → pat <+: r2 → pre.length ≤ pre2.length

/-- A decimal or exponential numeric literal, by its parts: an optional sign (`some true`
is a minus), the digits before the point, whether there is a point, the digits after it,
and an optional exponent (its letter, its optional sign, its digits). -/
structure DecLit where
  sign : Option Bool
  ip : List Char
  dot : Bool
  fp : List Char
  exp : Option (Char × Option Bool × List Char)

/-- The characters of an optional sign. -/
def signText : Option Bool → List Char
  | none => []
  | some true => ['-']
  | some false => ['+']

/-- The characters of an optional exponent part. -/
def expText : Option (Char × Option Bool × List Char) → List Char
  | none => []
  | some (c, sg, ds) => c :: (signText sg ++ ds)

/-- The decimal exponent written by an optional exponent part (`0` when there is none). -/
def expVal : Option (Char × Option Bool × List Char) → Int
  | none => 0
  | some (_, sg, ds) => if sg = some true then -(numVal 10 ds : Int) else (numVal 10 ds : Int)

/-- The characters of the literal after its sign. -/
def DecLit.body (l : DecLit) : List Char :=
  l.ip ++ (if l.dot then '.' :: l.fp else []) ++ expText l.exp

/-- The characters of the literal. -/
def DecLit.text (l : DecLit) : List Char := signText l.sign ++ l.body

/-- The parts form a literal: digits where digits belong, at least one digit in the
significand, no fraction digits without a point, and an exponent, when present, made of
the letter `e` or `E` and at least one digit. -/
def DecLit.WF (l : DecLit) : Prop :=
  (∀ c ∈ l.ip, isdigit c = true) ∧ (∀ c ∈ l.fp, isdigit c = true)
  ∧ (l.dot = false → l.fp = []) ∧ (l.ip ≠ [] ∨ l.fp ≠ [])
  ∧ (∀ c sg ds, l.exp = some (c, sg, ds) →
      (c = 'e' ∨ c = 'E') ∧ ds ≠ [] ∧ ∀ d ∈ ds, isdigit d = true)

/-- The value of the literal as a `double`: the number `±D * 10^k` it denotes, where `D` is
written by its significand digits and `k` is its exponent less the number of fraction
digits, rounded to the nearest `double`. -/
def DecLit.value (l : DecLit) : FP :=
  let k : Int := expVal l.exp - (l.fp.length : Int)
  FP.round binary64 (l.sign = some true) (numVal 10 (l.ip ++ l.fp) * 10 ^ k.toNat)
    (10 ^ (-k).toNat)

/-- The number that the literal denotes, `±D * 10^k`. -/
def DecLit.exact (l : DecLit) : ℚ :=
  (if l.sign = some true then -1 else 1) * (numVal 10 (l.ip ++ l.fp) : ℚ)
    * (10 : ℚ) ^ (expVal l.exp - (l.fp.length : Int))

/-- The text after a literal does not continue it: it is empty or starts with a character
that is not a digit, a point, an exponent letter or the `x` of a hexadecimal prefix. -/
def stops : List Char → Bool
  | [] => true
  | c :: _ => !(isdigit c) && c != '.' && c != 'e' && c != 'E' && c != 'x' && c != 'X'

/-- The object `{"x":a,"y":b}` written with the literals `a` and `b`. -/
def point_object (o : DecLit × DecLit) : List Char :=
  lit "\x7b\"x\":" ++ (o.1.text ++ (lit ",\"y\":" ++ (o.2.text ++ lit "\x7d")))

/-- The objects after the first one, each preceded by a comma. -/
def more_objects : List (DecLit × DecLit) → List Char
  | [] => []
  | o :: os => ',' :: (point_object o ++ more_objects os)

/-- The objects `o1,...,on` separated by commas. -/
def objects_text : List (DecLit × DecLit) → List Char
  | [] => []
  | o :: os => point_object o ++ more_objects os

/-- The payload `{"points":[o1,...,on]}`. -/
def points_payload (os : List (DecLit × DecLit)) : List Char :=
  lit "\x7b\"points\":[" ++ (objects_text os ++ lit "]\x7d")

/-- The point that an object denotes: the values of its two literals, converted to
`float`. -/
def point_value (o : DecLit × DecLit) : FP × FP :=
  (FP.cast binary32 o.1.value, FP.cast binary32 o.2.value)


/-! ## A sample target

A concrete target, used to evaluate the handlers on concrete requests: conversions that C
leaves undefined saturate, the square root is correctly rounded, and the sine and the cosine
are Taylor polynomials evaluated exactly and rounded once. -/

/-- The integer square root of `n`, one bit at a time from bit `b - 1` down. -/
def isqrtAux (n : Nat) : Nat → Nat → Nat
  | 0, acc => acc
  | b + 1, acc => isqrtAux n b (if (acc + 2 ^ b) ^ 2 ≤ n then acc + 2 ^ b else acc)

/-- The integer square root of `n`. -/
def isqrt (n : Nat) : Nat := isqrtAux n (FP.bits n) 0

/-- A correctly rounded `sqrtf`. -/
def sample_sqrtf : FP → FP
  | FP.nan => FP.nan
  | FP.inf neg => if neg then FP.nan else FP.inf false
  | FP.fin neg m e =>
    if m = 0 then FP.fin neg 0 e
    else if neg then FP.nan
    else
      let M := if e % 2 = 0 then m else 2 * m
      let E := if e % 2 = 0 then e else e - 1
      let S := isqrt (M * 2 ^ 128)
      let p := 2 * S + (if S * S = M * 2 ^ 128 then 0 else 1)
      FP.roundDyadic binary32 false p (E / 2 - 65)

/-- The sum of the first `k` terms `(-1)^i * x^(2i+s) / (2i+s)!` of a Taylor series at
`x = a / 2^b`, multiplied by the common denominator `deg! * 2^(b * deg)`. -/
def taylorNum (a : Int) (b deg s : Nat) : Nat → Int
  | 0 => 0
  | k + 1 =>
    taylorNum a b deg s k
      + (-1) ^ k * a ^ (2 * k + s) * 2 ^ (b * (deg - (2 * k + s)))
        * ((deg.factorial / (2 * k + s).factorial : Nat) : Int)

/-- The Taylor polynomial of degree `deg` with the terms of parity `s`, at a finite datum,
rounded to `float`. -/
def taylorFP (deg s : Nat) : FP → FP
  | FP.fin neg m e =>
    let a : Int := if neg then -((m * 2 ^ e.toNat : Nat) : Int) else ((m * 2 ^ e.toNat : Nat) : Int)
    let b : Nat := (-e).toNat
    let num := taylorNum a b deg s (deg / 2 + 1)
    FP.round binary32 (decide (num < 0)) num.natAbs (deg.factorial * 2 ^ (b * deg))
  | _ => FP.nan

/-- A `sinf`: the Taylor polynomial of degree 41 of the sine, rounded to `float`; it is
within `10^-18` of the sine on `[-4, 4]`, which holds the arguments that a swipe between points
of the unit square hands to it. -/
def sample_sinf (x : FP) : FP := taylorFP 41 1 x

/-- A `cosf`: the Taylor polynomial of degree 40 of the cosine, rounded to `float`. -/
def sample_cosf (x : FP) : FP := taylorFP 40 0 x

/-- The sample target: undefined conversions saturate, and the consumer usage codes are those
of the HID usage tables. -/
def sampleTarget : Target where
  undefCast := 2147483647
  undefCastU := 4294967295
  sqrtf := sample_sqrtf
  cosf := sample_cosf
  sinf := sample_sinf
  HID_CONSUMER_VOLUME_UP := 233
  HID_CONSUMER_VOLUME_DOWN := 234
  HID_CONSUMER_AC_HOME := 547
  HID_CONSUMER_AC_BACK := 548
  HID_CONSUMER_POWER := 48



/-- The body of the `for` loop of `hid_touch_swipe` at loop index `i`, with the values that
the function computes before the loop from its arguments. -/
def swipe_iter (T : Target) (conn_id : Nat) (start_x start_y end_x end_y : FP)
    (duration_ms : Nat) (i : Nat) : List Ev :=
  let steps := swipe_steps duration_ms
  let dx := FP.sub binary32 end_x start_x
  let dy := FP.sub binary32 end_y start_y
  let path_len := T.sqrtf (FP.add binary32 (FP.mul binary32 dx dx) (FP.mul binary32 dy dy))
  let perp_x := FP.neg dy
  let perp_y := dx
  let perp_len :=
    T.sqrtf (FP.add binary32 (FP.mul binary32 perp_x perp_x) (FP.mul binary32 perp_y perp_y))
  let far := FP.gt perp_len (FP.round binary32 false 1 10000)
  let perp_x := if far then FP.div binary32 perp_x perp_len else f0
  let perp_y := if far then FP.div binary32 perp_y perp_len else FP.round binary32 false 1 10
  let arc_offset :=
    FP.fmaxf (FP.round binary32 false 2 100) (FP.mul binary32 path_len (FP.fin false 1 (-2)))
  swipe_step T conn_id start_x start_y dx dy perp_x perp_y arc_offset steps i


/-- The body of a request as the C string that the handlers scan: its bytes up to the
first zero byte. -/
def body_text (req : Req) : List Char := req.content.takeWhile (fun c => c ≠ '\x00')

/-- The text holds no number for the field, in the way `parse_number_field` reads a text:
the quoted field name does not occur; or no colon occurs after its first occurrence; or the
text after the first such colon does not start, white space skipped, with a number that
`strtod` accepts. -/
def NoNumber (json field : List Char) : Prop :=
  (¬ quoted field <:+: json) ∨
    ∃ pre rest, json = pre ++ quoted field ++ rest ∧ FirstAt (quoted field) pre rest ∧
      ((∀ c ∈ rest, c ≠ ':') ∨
        ∃ mid after, rest = mid ++ ':' :: after ∧ (∀ c ∈ mid, c ≠ ':') ∧ strtod after = none)

/-- The text holds no point, in the way the extraction block reads a text: the word
`points` does not occur; or, after its first occurrence, no `[` occurs, or no `]` occurs, or
a `]` occurs before the first `[`, or the first `[` is followed at once by `]`, or the text
after the first `[` holds no number for `x` or none for `y`. -/
def NoPoint (body : List Char) : Prop :=
  (¬ lit "points" <:+: body) ∨
    ∃ pre rest, body = pre ++ lit "points" ++ rest ∧ FirstAt (lit "points") pre rest ∧
      ((∀ c ∈ rest, c ≠ '[') ∨ (∀ c ∈ rest, c ≠ ']') ∨
        ∃ a list, rest = a ++ '[' :: list ∧ (∀ c ∈ a, c ≠ '[') ∧
          (']' ∈ a ∨ list.head? = some ']' ∨ NoNumber list (lit "x") ∨ NoNumber list (lit "y")))

/-! ## Theorems -/

/-! ### Traces of the gesture functions -/

theorem touch_update_eq (T : Target) (c : Nat) (d : Bool) (x y : FP) :
    hid_touch_update T c d x y =
      [Ev.touch c d (hid_map_normalized T.undefCast x) (hid_map_normalized T.undefCast y)] := rfl

theorem tap_eq (T : Target) (c : Nat) (x y : FP) :
    hid_touch_tap T c x y =
      [Ev.touch c true (hid_map_normalized T.undefCast x) (hid_map_normalized T.undefCast y),
       Ev.delay 50,
       Ev.touch c false (hid_map_normalized T.undefCast x) (hid_map_normalized T.undefCast y)] :=
  rfl

theorem long_press_eq (T : Target) (c : Nat) (x y : FP) (press_ms : Nat) :
    hid_touch_long_press T c x y press_ms =
      [Ev.touch c true (hid_map_normalized T.undefCast x) (hid_map_normalized T.undefCast y),
       Ev.delay (max press_ms 20),
       Ev.touch c false (hid_map_normalized T.undefCast x) (hid_map_normalized T.undefCast y)] := by
  have h : (if press_ms < HID_LONG_PRESS_MIN_MS then HID_LONG_PRESS_MIN_MS else press_ms)
      = max press_ms 20 := by
    unfold HID_LONG_PRESS_MIN_MS
    split <;> omega
  simp only [hid_touch_long_press, touch_update_eq, h]
  rfl

/-- C1: with the stored connection id equal to the sentinel `UINT16_MAX`, every gesture
handler and every key handler, for every request (body absent, unreadable, well-formed or
not), answers 503 "HID not connected" and produces an empty trace: no contact report, no
key report. -/
theorem C1_not_connected (T : Target) (req : Req) (action : Nat → List Ev) :
    handle_touch_tap T UINT16_MAX req = (Resp.error 503 "HID not connected", [])
    ∧ handle_touch_long_press T UINT16_MAX req = (Resp.error 503 "HID not connected", [])
    ∧ handle_touch_swipe T UINT16_MAX req = (Resp.error 503 "HID not connected", [])
    ∧ handle_touch_multi_tap T UINT16_MAX req = (Resp.error 503 "HID not connected", [])
    ∧ handle_touch_multi_long_press T UINT16_MAX req = (Resp.error 503 "HID not connected", [])
    ∧ handle_key_action UINT16_MAX action = (Resp.error 503 "HID not connected", [])
    ∧ handle_volume_up T UINT16_MAX = (Resp.error 503 "HID not connected", [])
    ∧ handle_volume_down T UINT16_MAX = (Resp.error 503 "HID not connected", [])
    ∧ handle_home T UINT16_MAX = (Resp.error 503 "HID not connected", [])
    ∧ handle_back T UINT16_MAX = (Resp.error 503 "HID not connected", [])
    ∧ handle_power T UINT16_MAX = (Resp.error 503 "HID not connected", []) := by
  refine ⟨rfl, rfl, rfl, rfl, rfl, rfl, rfl, rfl, rfl, rfl, rfl⟩

/-- C4: for every connection id, point and `press_ms`, the trace of `hid_touch_tap` is the
contact report `(true, map x, map y)`, one wait of 50 ms, and the contact report
`(false, map x, map y)`; the trace of `hid_touch_long_press` is the same with one wait of
`max press_ms 20` ms. -/
theorem C4_tap_and_long_press (T : Target) (conn_id : Nat) (x y : FP) (press_ms : Nat) :
    hid_touch_tap T conn_id x y =
        [Ev.touch conn_id true (hid_map_normalized T.undefCast x)
           (hid_map_normalized T.undefCast y),
         Ev.delay 50,
         Ev.touch conn_id false (hid_map_normalized T.undefCast x)
           (hid_map_normalized T.undefCast y)]
    ∧ hid_touch_long_press T conn_id x y press_ms =
        [Ev.touch conn_id true (hid_map_normalized T.undefCast x)
           (hid_map_normalized T.undefCast y),
         Ev.delay (max press_ms 20),
         Ev.touch conn_id false (hid_map_normalized T.undefCast x)
           (hid_map_normalized T.undefCast y)] :=
  ⟨tap_eq T conn_id x y, long_press_eq T conn_id x y press_ms⟩

/-- The contact report that iteration `i` of the swipe loop sends. -/
theorem swipe_step_touches (T : Target) (c : Nat) (sx sy dx dy px py ao : FP) (steps i : Nat) :
    ∃ x y, (swipe_step T c sx sy dx dy px py ao steps i).filter Ev.isTouch
      = [Ev.touch c true x y] := by
  exact ⟨_, _, rfl⟩

theorem swipe_loop_touches (T : Target) (c : Nat) (sx sy dx dy px py ao : FP) (steps : Nat)
    (l : List Nat) :
    ∃ mid : List Ev, mid.length = l.length ∧ (∀ e ∈ mid, ∃ x y, e = Ev.touch c true x y) ∧
      ((l.map (fun k => swipe_step T c sx sy dx dy px py ao steps (k + 1))).flatten).filter
        Ev.isTouch = mid := by
  induction l with
  | nil => exact ⟨[], rfl, by simp, rfl⟩
  | cons k l ih =>
    obtain ⟨mid, hlen, hall, hmid⟩ := ih
    obtain ⟨x, y, hxy⟩ := swipe_step_touches T c sx sy dx dy px py ao steps (k + 1)
    refine ⟨Ev.touch c true x y :: mid, by simp [hlen], ?_, ?_⟩
    · intro e he
      rcases List.mem_cons.mp he with h | h
      · exact ⟨x, y, h⟩
      · exact hall e h
    · simp only [List.map_cons, List.flatten_cons, List.filter_append, hxy, hmid]
      rfl

/-- The contact reports of a swipe: the press at the mapped start point, `swipe_steps d`
reports that are all presses, and the release at the mapped literal end point. -/
theorem swipe_touches (T : Target) (c : Nat) (sx sy ex ey : FP) (d : Nat) :
    ∃ mid : List Ev, mid.length = swipe_steps d ∧ (∀ e ∈ mid, ∃ x y, e = Ev.touch c true x y) ∧
      (hid_touch_swipe T c sx sy ex ey d).filter Ev.isTouch =
        Ev.touch c true (hid_map_normalized T.undefCast sx) (hid_map_normalized T.undefCast sy)
          :: mid ++
        [Ev.touch c false (hid_map_normalized T.undefCast ex)
          (hid_map_normalized T.undefCast ey)] := by
  unfold hid_touch_swipe
  simp only [touch_update_eq, List.filter_append]
  obtain ⟨mid, hlen, hall, hmid⟩ := swipe_loop_touches T c sx sy
    (FP.sub binary32 ex sx) (FP.sub binary32 ey sy)
    (if FP.gt (T.sqrtf (FP.add binary32
          (FP.mul binary32 (FP.neg (FP.sub binary32 ey sy)) (FP.neg (FP.sub binary32 ey sy)))
          (FP.mul binary32 (FP.sub binary32 ex sx) (FP.sub binary32 ex sx))))
        (FP.round binary32 false 1 10000) = true
      then FP.div binary32 (FP.neg (FP.sub binary32 ey sy)) (T.sqrtf (FP.add binary32
          (FP.mul binary32 (FP.neg (FP.sub binary32 ey sy)) (FP.neg (FP.sub binary32 ey sy)))
          (FP.mul binary32 (FP.sub binary32 ex sx) (FP.sub binary32 ex sx))))
      else f0)
    (if FP.gt (T.sqrtf (FP.add binary32
          (FP.mul binary32 (FP.neg (FP.sub binary32 ey sy)) (FP.neg (FP.sub binary32 ey sy)))
          (FP.mul binary32 (FP.sub binary32 ex sx) (FP.sub binary32 ex sx))))
        (FP.round binary32 false 1 10000) = true
      then FP.div binary32 (FP.sub binary32 ex sx) (T.sqrtf (FP.add binary32
          (FP.mul binary32 (FP.neg (FP.sub binary32 ey sy)) (FP.neg (FP.sub binary32 ey sy)))
          (FP.mul binary32 (FP.sub binary32 ex sx) (FP.sub binary32 ex sx))))
      else FP.round binary32 false 1 10)
    (FP.fmaxf (FP.round binary32 false 2 100)
      (FP.mul binary32 (T.sqrtf (FP.add binary32
          (FP.mul binary32 (FP.sub binary32 ex sx) (FP.sub binary32 ex sx))
          (FP.mul binary32 (FP.sub binary32 ey sy) (FP.sub binary32 ey sy))))
        (FP.fin false 1 (-2))))
    (swipe_steps d) (List.range (swipe_steps d))
  refine ⟨mid, by simpa using hlen, hall, ?_⟩
  rw [hmid]
  rfl

theorem swipe_steps_eq (d : Nat) :
    swipe_steps d = max 5 (max 64 (if d = 0 then 600 else d) / 16) := by
  simp only [swipe_steps, HID_TOUCH_INTERVAL_MS, max_def]
  split_ifs <;> omega

/-- C5: for every start point, end point and requested duration `d`, with
`steps = max 5 (D / 16)` and `D = max 64 (if d = 0 then 600 else d)`: the loop count of
`hid_touch_swipe` is `steps`, `steps` is at least 5, the swipe sends exactly `steps + 2`
contact reports, the first is the press at the mapped start point, the last is the release
at the mapped literal end point, every report before the last is a press, and `d = 0` gives
37 steps and 39 reports. -/
theorem C5_swipe_shape (T : Target) (conn_id : Nat) (start_x start_y end_x end_y : FP)
    (d : Nat) :
    swipe_steps d = max 5 (max 64 (if d = 0 then 600 else d) / 16)
    ∧ 5 ≤ swipe_steps d
    ∧ ((hid_touch_swipe T conn_id start_x start_y end_x end_y d).filter Ev.isTouch).length
        = swipe_steps d + 2
    ∧ ((hid_touch_swipe T conn_id start_x start_y end_x end_y d).filter Ev.isTouch).head?
        = some (Ev.touch conn_id true (hid_map_normalized T.undefCast start_x)
            (hid_map_normalized T.undefCast start_y))
    ∧ ((hid_touch_swipe T conn_id start_x start_y end_x end_y d).filter Ev.isTouch).getLast?
        = some (Ev.touch conn_id false (hid_map_normalized T.undefCast end_x)
            (hid_map_normalized T.undefCast end_y))
    ∧ (∀ e ∈ ((hid_touch_swipe T conn_id start_x start_y end_x end_y d).filter
          Ev.isTouch).dropLast, ∃ x y, e = Ev.touch conn_id true x y)
    ∧ swipe_steps 0 = 37
    ∧ ((hid_touch_swipe T conn_id start_x start_y end_x end_y 0).filter Ev.isTouch).length
        = 39 := by
  obtain ⟨mid, hlen, hall, hmid⟩ := swipe_touches T conn_id start_x start_y end_x end_y d
  obtain ⟨mid0, hlen0, _, hmid0⟩ := swipe_touches T conn_id start_x start_y end_x end_y 0
  have h37 : swipe_steps 0 = 37 := by decide
  refine ⟨swipe_steps_eq d, ?_, ?_, ?_, ?_, ?_, h37, ?_⟩
  · rw [swipe_steps_eq]; exact le_max_left _ _
  · rw [hmid]; simp [hlen]
  · rw [hmid]; rfl
  · rw [hmid, List.getLast?_eq_getLast _ (by simp), List.getLast_append_singleton]
  · rw [hmid, List.dropLast_concat]
    intro e he
    rcases List.mem_cons.mp he with h | h
    · exact ⟨_, _, h⟩
    · exact hall e h
  · rw [hmid0]; simp [hlen0, h37]

/-! ### Batches -/

theorem multi_tap_loop_touches (T : Target) (c : Nat) (xs ys : Nat → FP) (n i : Nat) :
    (multi_tap_loop T c xs ys n i).filter Ev.isTouch =
      ((List.range n).map (fun k =>
        (hid_touch_tap T c (xs (i + k)) (ys (i + k))).filter Ev.isTouch)).flatten := by
  induction n generalizing i with
  | zero => rfl
  | succ n ih =>
    rw [List.range_succ_eq_map, List.map_cons, List.flatten_cons, List.map_map]
    simp only [multi_tap_loop, List.filter_append, ih (i + 1)]
    have h : (List.filter Ev.isTouch [Ev.delay 100]) = [] := rfl
    rw [h, List.append_nil]
    congr 2
    apply List.map_congr_left
    intro k _
    simp only [Function.comp, Nat.succ_eq_add_one]
    rw [show i + 1 + k = i + (k + 1) by omega]

theorem multi_long_press_loop_touches (T : Target) (c : Nat) (xs ys : Nat → FP) (ms n i : Nat) :
    (multi_long_press_loop T c xs ys ms n i).filter Ev.isTouch =
      ((List.range n).map (fun k =>
        (hid_touch_long_press T c (xs (i + k)) (ys (i + k)) ms).filter Ev.isTouch)).flatten := by
  induction n generalizing i with
  | zero => rfl
  | succ n ih =>
    rw [List.range_succ_eq_map, List.map_cons, List.flatten_cons, List.map_map]
    simp only [multi_long_press_loop, List.filter_append, ih (i + 1)]
    have h : (List.filter Ev.isTouch [Ev.delay 150]) = [] := rfl
    rw [h, List.append_nil]
    congr 2
    apply List.map_congr_left
    intro k _
    simp only [Function.comp, Nat.succ_eq_add_one]
    rw [show i + 1 + k = i + (k + 1) by omega]

theorem multi_tap_touches (T : Target) (c n : Nat) (xs ys : Nat → FP) :
    (hid_touch_multi_tap T c n (some xs) (some ys)).filter Ev.isTouch =
      ((List.range (min n 5)).map (fun i =>
        (hid_touch_tap T c (xs i) (ys i)).filter Ev.isTouch)).flatten := by
  unfold hid_touch_multi_tap
  by_cases h0 : n = 0
  · subst h0; rfl
  · have h : (if n > 5 then 5 else n) = min n 5 := by
      split <;> omega
    simp only [h0, if_false, h, multi_tap_loop_touches, Nat.zero_add]

theorem multi_long_press_touches (T : Target) (c n : Nat) (xs ys : Nat → FP) (ms : Nat) :
    (hid_touch_multi_long_press T c n (some xs) (some ys) ms).filter Ev.isTouch =
      ((List.range (min n 5)).map (fun i =>
        (hid_touch_long_press T c (xs i) (ys i) ms).filter Ev.isTouch)).flatten := by
  unfold hid_touch_multi_long_press
  by_cases h0 : n = 0
  · subst h0; rfl
  · have h : (if n > 5 then 5 else n) = min n 5 := by
      split <;> omega
    simp only [h0, if_false, h, multi_long_press_loop_touches, Nat.zero_add]

theorem flatten_pairs_length {α : Type} (l : List Nat) (f : Nat → List α)
    (h : ∀ i, (f i).length = 2) : ((l.map f).flatten).length = 2 * l.length := by
  induction l with
  | nil => rfl
  | cons a l ih =>
    simp only [List.map_cons, List.flatten_cons, List.length_append, ih, h, List.length_cons]
    omega

theorem multi_tap_loop_eq (T : Target) (c : Nat) (xs ys : Nat → FP) (n i : Nat) :
    multi_tap_loop T c xs ys n i =
      ((List.range n).map (fun k =>
        hid_touch_tap T c (xs (i + k)) (ys (i + k)) ++ [Ev.delay 100])).flatten := by
  induction n generalizing i with
  | zero => rfl
  | succ n ih =>
    rw [List.range_succ_eq_map, List.map_cons, List.flatten_cons, List.map_map]
    simp only [multi_tap_loop, ih (i + 1), Nat.add_zero]
    congr 2
    apply List.map_congr_left
    intro k _
    simp only [Function.comp, Nat.succ_eq_add_one]
    rw [show i + 1 + k = i + (k + 1) by omega]

theorem multi_long_press_loop_eq (T : Target) (c : Nat) (xs ys : Nat → FP) (ms n i : Nat) :
    multi_long_press_loop T c xs ys ms n i =
      ((List.range n).map (fun k =>
        hid_touch_long_press T c (xs (i + k)) (ys (i + k)) ms ++ [Ev.delay 150])).flatten := by
  induction n generalizing i with
  | zero => rfl
  | succ n ih =>
    rw [List.range_succ_eq_map, List.map_cons, List.flatten_cons, List.map_map]
    simp only [multi_long_press_loop, ih (i + 1), Nat.add_zero]
    congr 2
    apply List.map_congr_left
    intro k _
    simp only [Function.comp, Nat.succ_eq_add_one]
    rw [show i + 1 + k = i + (k + 1) by omega]

theorem multi_tap_eq (T : Target) (c n : Nat) (xs ys : Nat → FP) :
    hid_touch_multi_tap T c n (some xs) (some ys) =
      ((List.range (min n 5)).map (fun i =>
        hid_touch_tap T c (xs i) (ys i) ++ [Ev.delay 100])).flatten := by
  unfold hid_touch_multi_tap
  by_cases h0 : n = 0
  · subst h0; rfl
  · have h : (if n > 5 then 5 else n) = min n 5 := by
      split <;> omega
    simp only [h0, if_false, h, multi_tap_loop_eq, Nat.zero_add]

theorem multi_long_press_eq (T : Target) (c n : Nat) (xs ys : Nat → FP) (ms : Nat) :
    hid_touch_multi_long_press T c n (some xs) (some ys) ms =
      ((List.range (min n 5)).map (fun i =>
        hid_touch_long_press T c (xs i) (ys i) ms ++ [Ev.delay 150])).flatten := by
  unfold hid_touch_multi_long_press
  by_cases h0 : n = 0
  · subst h0; rfl
  · have h : (if n > 5 then 5 else n) = min n 5 := by
      split <;> omega
    simp only [h0, if_false, h, multi_long_press_loop_eq, Nat.zero_add]

theorem flatten_map_congr_range {α : Type} (m : Nat) (f g : Nat → List α)
    (h : ∀ i, i < m → f i = g i) :
    ((List.range m).map f).flatten = ((List.range m).map g).flatten := by
  congr 1
  apply List.map_congr_left
  intro i hi
  exact h i (List.mem_range.mp hi)

/-- C6: for every count `n` and arrays `xs`, `ys`, the trace of `hid_touch_multi_tap` (of
`hid_touch_multi_long_press`, with one `press_ms` for all points) is the concatenation, in
index order, of the traces of the tap (of the long press with that `press_ms`) of each point
`0 .. min n 5 - 1`, each followed by the pause of 100 ms (150 ms).  The tap of a point is
the press at its mapped position, the hold of 50 ms, and the release at the same position;
the long press holds for `max press_ms 20` ms instead.  So the contact reports are the
concatenation of the press and release pairs, `2 * min n 5` in number; points of index 5 or
more are never used; and the trace is empty when `n = 0`. -/
theorem C6_multi_gestures (T : Target) (conn_id n : Nat) (xs ys : Nat → FP) (press_ms : Nat) :
    (hid_touch_multi_tap T conn_id n (some xs) (some ys)).filter Ev.isTouch =
        ((List.range (min n 5)).map (fun i =>
          (hid_touch_tap T conn_id (xs i) (ys i)).filter Ev.isTouch)).flatten
    ∧ ((hid_touch_multi_tap T conn_id n (some xs) (some ys)).filter Ev.isTouch).length
        = 2 * min n 5
    ∧ (hid_touch_multi_long_press T conn_id n (some xs) (some ys) press_ms).filter Ev.isTouch =
        ((List.range (min n 5)).map (fun i =>
          (hid_touch_long_press T conn_id (xs i) (ys i) press_ms).filter Ev.isTouch)).flatten
    ∧ ((hid_touch_multi_long_press T conn_id n (some xs) (some ys) press_ms).filter
          Ev.isTouch).length = 2 * min n 5
    ∧ (∀ i, (hid_touch_tap T conn_id (xs i) (ys i)).filter Ev.isTouch =
          [Ev.touch conn_id true (hid_map_normalized T.undefCast (xs i))
             (hid_map_normalized T.undefCast (ys i)),
           Ev.touch conn_id false (hid_map_normalized T.undefCast (xs i))
             (hid_map_normalized T.undefCast (ys i))]
        ∧ (hid_touch_long_press T conn_id (xs i) (ys i) press_ms).filter Ev.isTouch =
          [Ev.touch conn_id true (hid_map_normalized T.undefCast (xs i))
             (hid_map_normalized T.undefCast (ys i)),
           Ev.touch conn_id false (hid_map_normalized T.undefCast (xs i))
             (hid_map_normalized T.undefCast (ys i))])
    ∧ hid_touch_multi_tap T conn_id 0 (some xs) (some ys) = []
    ∧ hid_touch_multi_long_press T conn_id 0 (some xs) (some ys) press_ms = []
    ∧ hid_touch_multi_tap T conn_id n (some xs) (some ys) =
        ((List.range (min n 5)).map (fun i =>
          [Ev.touch conn_id true (hid_map_normalized T.undefCast (xs i))
             (hid_map_normalized T.undefCast (ys i)),
           Ev.delay 50,
           Ev.touch conn_id false (hid_map_normalized T.undefCast (xs i))
             (hid_map_normalized T.undefCast (ys i)),
           Ev.delay 100])).flatten
    ∧ hid_touch_multi_long_press T conn_id n (some xs) (some ys) press_ms =
        ((List.range (min n 5)).map (fun i =>
          [Ev.touch conn_id true (hid_map_normalized T.undefCast (xs i))
             (hid_map_normalized T.undefCast (ys i)),
           Ev.delay (max press_ms 20),
           Ev.touch conn_id false (hid_map_normalized T.undefCast (xs i))
             (hid_map_normalized T.undefCast (ys i)),
           Ev.delay 150])).flatten
    ∧ (∀ i, hid_touch_tap T conn_id (xs i) (ys i) =
          [Ev.touch conn_id true (hid_map_normalized T.undefCast (xs i))
             (hid_map_normalized T.undefCast (ys i)),
           Ev.delay 50,
           Ev.touch conn_id false (hid_map_normalized T.undefCast (xs i))
             (hid_map_normalized T.undefCast (ys i))]
        ∧ hid_touch_long_press T conn_id (xs i) (ys i) press_ms =
          [Ev.touch conn_id true (hid_map_normalized T.undefCast (xs i))
             (hid_map_normalized T.undefCast (ys i)),
           Ev.delay (max press_ms 20),
           Ev.touch conn_id false (hid_map_normalized T.undefCast (xs i))
             (hid_map_normalized T.undefCast (ys i))])
    ∧ (∀ xs2 ys2 : Nat → FP, (∀ i, i < 5 → xs2 i = xs i ∧ ys2 i = ys i) →
        hid_touch_multi_tap T conn_id n (some xs2) (some ys2)
          = hid_touch_multi_tap T conn_id n (some xs) (some ys)
        ∧ hid_touch_multi_long_press T conn_id n (some xs2) (some ys2) press_ms
          = hid_touch_multi_long_press T conn_id n (some xs) (some ys) press_ms)
    ∧ (∀ (count : Nat) (xo yo : Option (Nat → FP)), xo = none ∨ yo = none →
        hid_touch_multi_tap T conn_id count xo yo = []
        ∧ hid_touch_multi_long_press T conn_id count xo yo press_ms = []) := by
  refine ⟨multi_tap_touches T conn_id n xs ys, ?_,
    multi_long_press_touches T conn_id n xs ys press_ms, ?_,
    fun i => ⟨by rw [tap_eq]; rfl, by rw [long_press_eq]; rfl⟩, rfl, rfl, ?_, ?_,
    fun i => ⟨tap_eq T conn_id (xs i) (ys i),
      long_press_eq T conn_id (xs i) (ys i) press_ms⟩, ?_, ?_⟩
  · rw [multi_tap_touches, flatten_pairs_length _ _ (fun i => by rw [tap_eq]; rfl)]
    simp
  · rw [multi_long_press_touches,
      flatten_pairs_length _ _ (fun i => by rw [long_press_eq]; rfl)]
    simp
  · rw [multi_tap_eq]
    apply flatten_map_congr_range
    intro i _
    rw [tap_eq]
    rfl
  · rw [multi_long_press_eq]
    apply flatten_map_congr_range
    intro i _
    rw [long_press_eq]
    rfl
  · intro xs2 ys2 h
    rw [multi_tap_eq, multi_tap_eq, multi_long_press_eq, multi_long_press_eq]
    constructor
    · apply flatten_map_congr_range
      intro i hi
      have hi5 : i < 5 := lt_of_lt_of_le hi (min_le_right _ _)
      rw [(h i hi5).1, (h i hi5).2]
    · apply flatten_map_congr_range
      intro i hi
      have hi5 : i < 5 := lt_of_lt_of_le hi (min_le_right _ _)
      rw [(h i hi5).1, (h i hi5).2]
  · intro count xo yo h
    rcases h with h | h
    · subst h
      exact ⟨rfl, rfl⟩
    · subst h
      cases xo <;> exact ⟨rfl, rfl⟩

/-- C6, witness: seven points are given, all at (0.5, 0.5) in one pair of arrays and with
(1, 1) from index 5 on in the other; both multi-taps give the same trace, and a multi-tap
without the array `xs` gives none. -/
theorem C6_multi_gestures_witness :
    (∀ i, i < 5 → (fun j : Nat => if j < 5 then fHalf else f1) i = (fun _ : Nat => fHalf) i
        ∧ (fun _ : Nat => fHalf) i = (fun _ : Nat => fHalf) i)
    ∧ hid_touch_multi_tap sampleTarget 0 7 (some (fun j : Nat => if j < 5 then fHalf else f1))
          (some (fun _ : Nat => fHalf))
        = hid_touch_multi_tap sampleTarget 0 7 (some (fun _ : Nat => fHalf)) (some (fun _ : Nat => fHalf))
    ∧ ((none : Option (Nat → FP)) = none ∨ some (fun _ : Nat => fHalf) = none)
    ∧ hid_touch_multi_tap sampleTarget 0 7 none (some (fun _ : Nat => fHalf)) = [] :=
  ⟨fun _ hi => ⟨if_pos hi, rfl⟩,
    ((C6_multi_gestures sampleTarget 0 7 (fun _ : Nat => fHalf) (fun _ : Nat => fHalf)
      300).2.2.2.2.2.2.2.2.2.2.1 (fun j : Nat => if j < 5 then fHalf else f1) (fun _ : Nat => fHalf)
      (fun _ hi => ⟨if_pos hi, rfl⟩)).1,
    Or.inl rfl,
    ((C6_multi_gestures sampleTarget 0 7 (fun _ : Nat => fHalf) (fun _ : Nat => fHalf)
      300).2.2.2.2.2.2.2.2.2.2.2 7 none (some (fun _ : Nat => fHalf)) (Or.inl rfl)).1⟩

/-! ### Rounding -/

namespace FP

theorem bitsAux_zero (fuel : Nat) : bitsAux fuel 0 = 0 := by
  cases fuel <;> simp [bitsAux]

theorem lt_two_pow_bitsAux (fuel n : Nat) (h : n ≤ fuel) : n < 2 ^ bitsAux fuel n := by
  induction fuel generalizing n with
  | zero =>
    have : n = 0 := by omega
    subst this
    simp [bitsAux]
  | succ fuel ih =>
    by_cases hn : n = 0
    · subst hn; simp [bitsAux]
    · have h2 := ih (n / 2) (by omega)
      simp only [bitsAux, hn, if_false, pow_succ]
      omega

theorem two_pow_bitsAux_le (fuel n : Nat) (h : n ≤ fuel) (hn : n ≠ 0) :
    2 ^ (bitsAux fuel n - 1) ≤ n := by
  induction fuel generalizing n with
  | zero => omega
  | succ fuel ih =>
    simp only [bitsAux, hn, if_false, Nat.add_sub_cancel]
    by_cases h2 : n / 2 = 0
    · rw [h2, bitsAux_zero]
      simp
      omega
    · have h3 := ih (n / 2) (by omega) h2
      have h4 : bitsAux fuel (n / 2) ≠ 0 := by
        cases fuel with
        | zero => omega
        | succ k => simp [bitsAux, h2]
      obtain ⟨b, hb⟩ := Nat.exists_eq_succ_of_ne_zero h4
      rw [hb] at h3 ⊢
      simp only [Nat.succ_eq_add_one, Nat.add_sub_cancel, pow_succ] at h3 ⊢
      omega

theorem lt_two_pow_bits (n : Nat) : n < 2 ^ bits n := lt_two_pow_bitsAux n n le_rfl

theorem two_pow_bits_le (n : Nat) (hn : n ≠ 0) : 2 ^ (bits n - 1) ≤ n :=
  two_pow_bitsAux_le n n le_rfl hn

/-- A power of two with an integer exponent, as a quotient of two natural powers. -/
theorem zpow_split (l : Int) : (2 : ℚ) ^ l = (2 : ℚ) ^ l.toNat / (2 : ℚ) ^ (-l).toNat := by
  rcases le_or_lt 0 l with h | h
  · have h1 : (-l).toNat = 0 := by omega
    have h2 : l = (l.toNat : Int) := by omega
    rw [h1, pow_zero, div_one]
    conv_lhs => rw [h2]
    rw [zpow_natCast]
  · have h1 : l.toNat = 0 := by omega
    have h2 : l = -((-l).toNat : Int) := by omega
    rw [h1, pow_zero]
    conv_lhs => rw [h2]
    rw [zpow_neg, zpow_natCast, one_div]

theorem two_zpow_pos (l : Int) : (0 : ℚ) < (2 : ℚ) ^ l := zpow_pos (by norm_num) l

/-- The comparison made by `ilog2`, read over the rationals. -/
theorem cross_le_iff (p q : Nat) (hq : 0 < q) (l : Int) :
    q * 2 ^ l.toNat ≤ p * 2 ^ (-l).toNat ↔ (2 : ℚ) ^ l ≤ (p : ℚ) / q := by
  have hq' : (0 : ℚ) < q := by exact_mod_cast hq
  have hd : (0 : ℚ) < (2 : ℚ) ^ (-l).toNat := by positivity
  rw [zpow_split, div_le_div_iff₀ hd hq']
  constructor
  · intro h
    have : ((q * 2 ^ l.toNat : Nat) : ℚ) ≤ ((p * 2 ^ (-l).toNat : Nat) : ℚ) := by exact_mod_cast h
    push_cast at this
    linarith
  · intro h
    have : ((q * 2 ^ l.toNat : Nat) : ℚ) ≤ ((p * 2 ^ (-l).toNat : Nat) : ℚ) := by
      push_cast
      linarith
    exact_mod_cast this

theorem bits_pos (n : Nat) (hn : 0 < n) : 0 < bits n := by
  by_contra h
  have h0 : bits n = 0 := by omega
  have := lt_two_pow_bits n
  rw [h0] at this
  omega

theorem bits_lower (n : Nat) (hn : 0 < n) : (2 : ℚ) ^ ((bits n : Int) - 1) ≤ n := by
  have h1 := two_pow_bits_le n (by omega)
  have h2 := bits_pos n hn
  have h3 : ((bits n : Int) - 1) = ((bits n - 1 : Nat) : Int) := by omega
  rw [h3, zpow_natCast]
  exact_mod_cast h1

theorem bits_upper (n : Nat) : (n : ℚ) < (2 : ℚ) ^ (bits n : Int) := by
  rw [zpow_natCast]
  exact_mod_cast lt_two_pow_bits n

theorem ilog2_le (p q : Nat) (hp : 0 < p) (hq : 0 < q) : (2 : ℚ) ^ ilog2 p q ≤ (p : ℚ) / q := by
  have hq' : (0 : ℚ) < q := by exact_mod_cast hq
  unfold ilog2
  simp only
  split
  · next h => exact (cross_le_iff p q hq _).mp h
  · have h1 := bits_lower p hp
    have h2 := bits_upper q
    rw [le_div_iff₀ hq']
    have h3 : (2 : ℚ) ^ ((bits p : Int) - (bits q : Int) - 1) * (2 : ℚ) ^ (bits q : Int)
        = (2 : ℚ) ^ ((bits p : Int) - 1) := by
      rw [← zpow_add₀ (by norm_num : (2 : ℚ) ≠ 0)]
      congr 1
      ring
    have h4 := two_zpow_pos ((bits p : Int) - (bits q : Int) - 1)
    calc (2 : ℚ) ^ ((bits p : Int) - (bits q : Int) - 1) * q
        ≤ (2 : ℚ) ^ ((bits p : Int) - (bits q : Int) - 1) * (2 : ℚ) ^ (bits q : Int) := by
          apply mul_le_mul_of_nonneg_left (le_of_lt h2) (le_of_lt h4)
      _ = (2 : ℚ) ^ ((bits p : Int) - 1) := h3
      _ ≤ p := h1

theorem lt_ilog2 (p q : Nat) (hq : 0 < q) : (p : ℚ) / q < (2 : ℚ) ^ (ilog2 p q + 1) := by
  have hq' : (0 : ℚ) < q := by exact_mod_cast hq
  unfold ilog2
  simp only
  split
  · have h1 := bits_upper p
    have h2 := bits_lower q hq
    rw [div_lt_iff₀ hq']
    have h3 : (2 : ℚ) ^ ((bits p : Int) - (bits q : Int) + 1) * (2 : ℚ) ^ ((bits q : Int) - 1)
        = (2 : ℚ) ^ (bits p : Int) := by
      rw [← zpow_add₀ (by norm_num : (2 : ℚ) ≠ 0)]
      congr 1
      ring
    have h4 := two_zpow_pos ((bits p : Int) - (bits q : Int) + 1)
    calc (p : ℚ) < (2 : ℚ) ^ (bits p : Int) := h1
      _ = (2 : ℚ) ^ ((bits p : Int) - (bits q : Int) + 1) * (2 : ℚ) ^ ((bits q : Int) - 1) :=
          h3.symm
      _ ≤ (2 : ℚ) ^ ((bits p : Int) - (bits q : Int) + 1) * q :=
          mul_le_mul_of_nonneg_left h2 (le_of_lt h4)
  · next h =>
    have h5 := (cross_le_iff p q hq _).not.mp h
    rw [sub_add_cancel]
    exact not_le.mp h5

/-- An upper bound on the quotient bounds `ilog2`. -/
theorem ilog2_lt_of_lt (p q : Nat) (hq : 0 < q) (k : Int) (hk : 0 ≤ k)
    (h : (p : ℚ) / q < (2 : ℚ) ^ k) : ilog2 p q < k := by
  rcases Nat.eq_zero_or_pos p with hp | hp
  · subst hp
    have hb := bits_pos q hq
    have hb0 : bits 0 = 0 := rfl
    unfold ilog2
    rw [hb0]
    simp only
    split <;> omega
  · by_contra hcon
    have h1 := ilog2_le p q hp hq
    have h2 : (2 : ℚ) ^ k ≤ (2 : ℚ) ^ ilog2 p q :=
      zpow_le_zpow_right₀ (by norm_num) (by omega)
    linarith

theorem divRoundEven_le (p q n : Nat) (hq : 0 < q) (h : p ≤ n * q) : divRoundEven p q ≤ n := by
  unfold divRoundEven
  have h1 := Nat.div_add_mod p q
  have h2 : p / q ≤ n := Nat.div_le_of_le_mul (by rw [Nat.mul_comm]; exact h)
  simp only
  split
  · next hc =>
    by_contra hlt
    have h3 : p / q = n := by omega
    have h4 : 0 < p % q := by omega
    rw [h3] at h1
    have : q * n = n * q := Nat.mul_comm _ _
    omega
  · exact h2

theorem le_divRoundEven (p q n : Nat) (hq : 0 < q) (h : n * q ≤ p) : n ≤ divRoundEven p q := by
  unfold divRoundEven
  have h2 : n ≤ p / q := (Nat.le_div_iff_mul_le hq).mpr h
  simp only
  split <;> omega

/-- The quotient that `round` hands to `divRoundEven`, read over the rationals. -/
theorem scaled_quotient (p q : Nat) (t : Int) :
    ((p * 2 ^ (-t).toNat : Nat) : ℚ) / ((q * 2 ^ t.toNat : Nat) : ℚ)
      = (p : ℚ) / q * (2 : ℚ) ^ (-t) := by
  have h := zpow_split (-t)
  rw [neg_neg] at h
  rw [h]
  push_cast
  have h1 : (0 : ℚ) < (2 : ℚ) ^ t.toNat := by positivity
  rcases Nat.eq_zero_or_pos q with hq | hq
  · subst hq; simp
  · have hq' : (0 : ℚ) < q := by exact_mod_cast hq
    field_simp

/-- Rounding keeps a value between two points of a grid that is at least as coarse as the
one it rounds to: if `lo * 2^s ≤ p / q ≤ hi * 2^s` and the rounding exponent is at most `s`,
the rounded datum is finite, of the given sign, and lies between the same two points. -/
theorem round_bounds (f : Fmt) (hprec : 0 < f.prec) (neg : Bool) (p q : Nat) (hq : 0 < q)
    (s : Int) (lo hi : Nat) (ht : targetExp f p q ≤ s) (hs : s < f.emax)
    (hlo : (lo : ℚ) * (2 : ℚ) ^ s ≤ (p : ℚ) / q) (hhi : (p : ℚ) / q ≤ (hi : ℚ) * (2 : ℚ) ^ s) :
    ∃ m e, round f neg p q = fin neg m e ∧ (lo : ℚ) * (2 : ℚ) ^ s ≤ (m : ℚ) * (2 : ℚ) ^ e
      ∧ (m : ℚ) * (2 : ℚ) ^ e ≤ (hi : ℚ) * (2 : ℚ) ^ s := by
  have hq' : (0 : ℚ) < q := by exact_mod_cast hq
  have two_ne : (2 : ℚ) ≠ 0 := by norm_num
  set t := targetExp f p q with ht_def
  have hQ : 0 < q * 2 ^ t.toNat := Nat.mul_pos hq (by positivity)
  have hQ' : (0 : ℚ) < ((q * 2 ^ t.toNat : Nat) : ℚ) := by exact_mod_cast hQ
  have hquot := scaled_quotient p q t
  have htpos := two_zpow_pos t
  have hntpos := two_zpow_pos (-t)
  -- the grid of step `2^s` inside the grid of step `2^t`
  have hk : (2 : ℚ) ^ s = ((2 ^ (s - t).toNat : Nat) : ℚ) * (2 : ℚ) ^ t := by
    have h1 : s = ((s - t).toNat : Int) + t := by omega
    conv_lhs => rw [h1]
    rw [zpow_add₀ two_ne, zpow_natCast]
    push_cast
    rfl
  have hinv : (2 : ℚ) ^ t * (2 : ℚ) ^ (-t) = 1 := by
    rw [← zpow_add₀ two_ne]; simp
  -- bounds on the rounded significand
  have hm_lo : lo * 2 ^ (s - t).toNat ≤ divRoundEven (p * 2 ^ (-t).toNat) (q * 2 ^ t.toNat) := by
    apply le_divRoundEven _ _ _ hQ
    have h1 : ((lo * 2 ^ (s - t).toNat : Nat) : ℚ)
        ≤ ((p * 2 ^ (-t).toNat : Nat) : ℚ) / ((q * 2 ^ t.toNat : Nat) : ℚ) := by
      rw [hquot]
      have h2 := mul_le_mul_of_nonneg_right hlo (le_of_lt hntpos)
      rw [hk] at h2
      have h3 : (lo : ℚ) * (((2 ^ (s - t).toNat : Nat) : ℚ) * (2 : ℚ) ^ t) * (2 : ℚ) ^ (-t)
          = ((lo * 2 ^ (s - t).toNat : Nat) : ℚ) := by
        push_cast
        rw [mul_assoc, mul_assoc, hinv, mul_one]
      rw [h3] at h2
      exact h2
    rw [le_div_iff₀ hQ'] at h1
    exact_mod_cast h1
  have hm_hi : divRoundEven (p * 2 ^ (-t).toNat) (q * 2 ^ t.toNat) ≤ hi * 2 ^ (s - t).toNat := by
    apply divRoundEven_le _ _ _ hQ
    have h1 : ((p * 2 ^ (-t).toNat : Nat) : ℚ) / ((q * 2 ^ t.toNat : Nat) : ℚ)
        ≤ ((hi * 2 ^ (s - t).toNat : Nat) : ℚ) := by
      rw [hquot]
      have h2 := mul_le_mul_of_nonneg_right hhi (le_of_lt hntpos)
      rw [hk] at h2
      have h3 : (hi : ℚ) * (((2 ^ (s - t).toNat : Nat) : ℚ) * (2 : ℚ) ^ t) * (2 : ℚ) ^ (-t)
          = ((hi * 2 ^ (s - t).toNat : Nat) : ℚ) := by
        push_cast
        rw [mul_assoc, mul_assoc, hinv, mul_one]
      rw [h3] at h2
      exact h2
    rw [div_le_iff₀ hQ'] at h1
    exact_mod_cast h1
  have hm_cap : divRoundEven (p * 2 ^ (-t).toNat) (q * 2 ^ t.toNat) ≤ 2 ^ f.prec := by
    apply divRoundEven_le _ _ _ hQ
    have h1 : ((p * 2 ^ (-t).toNat : Nat) : ℚ) / ((q * 2 ^ t.toNat : Nat) : ℚ)
        ≤ ((2 ^ f.prec : Nat) : ℚ) := by
      rw [hquot]
      have h2 := lt_ilog2 p q hq
      have h3 : ilog2 p q + 1 ≤ (f.prec : Int) + t := by
        have := le_max_left (ilog2 p q - ((f.prec : Int) - 1)) f.emin
        rw [ht_def]
        unfold targetExp
        omega
      have h4 : (2 : ℚ) ^ (ilog2 p q + 1) ≤ (2 : ℚ) ^ ((f.prec : Int) + t) :=
        zpow_le_zpow_right₀ (by norm_num) h3
      have h5 : (p : ℚ) / q * (2 : ℚ) ^ (-t) ≤ (2 : ℚ) ^ ((f.prec : Int) + t) * (2 : ℚ) ^ (-t) :=
        mul_le_mul_of_nonneg_right (by linarith) (le_of_lt hntpos)
      rw [zpow_add₀ two_ne, mul_assoc, hinv, mul_one, zpow_natCast] at h5
      push_cast
      exact h5
    rw [div_le_iff₀ hQ'] at h1
    exact_mod_cast h1
  have hlo' : (lo : ℚ) * (2 : ℚ) ^ s ≤
      ((divRoundEven (p * 2 ^ (-t).toNat) (q * 2 ^ t.toNat) : Nat) : ℚ) * (2 : ℚ) ^ t := by
    rw [hk, ← mul_assoc]
    apply mul_le_mul_of_nonneg_right _ (le_of_lt htpos)
    exact_mod_cast hm_lo
  have hhi' : ((divRoundEven (p * 2 ^ (-t).toNat) (q * 2 ^ t.toNat) : Nat) : ℚ) * (2 : ℚ) ^ t
      ≤ (hi : ℚ) * (2 : ℚ) ^ s := by
    rw [hk, ← mul_assoc]
    apply mul_le_mul_of_nonneg_right _ (le_of_lt htpos)
    exact_mod_cast hm_hi
  unfold round
  simp only [← ht_def]
  have hc1 : ¬ (f.emax < t ∨ (t = f.emax ∧
      2 ^ f.prec ≤ divRoundEven (p * 2 ^ (-t).toNat) (q * 2 ^ t.toNat))) := by
    rintro (h | ⟨h, _⟩) <;> omega
  rw [if_neg hc1]
  by_cases hc2 : 2 ^ f.prec ≤ divRoundEven (p * 2 ^ (-t).toNat) (q * 2 ^ t.toNat)
  · rw [if_pos hc2]
    have hm : divRoundEven (p * 2 ^ (-t).toNat) (q * 2 ^ t.toNat) = 2 ^ f.prec :=
      le_antisymm hm_cap hc2
    have hval : ((2 ^ (f.prec - 1) : Nat) : ℚ) * (2 : ℚ) ^ (t + 1)
        = ((divRoundEven (p * 2 ^ (-t).toNat) (q * 2 ^ t.toNat) : Nat) : ℚ) * (2 : ℚ) ^ t := by
      rw [hm, zpow_add_one₀ two_ne]
      have h1 : f.prec = (f.prec - 1) + 1 := by omega
      conv_rhs => rw [h1, pow_succ]
      push_cast
      ring
    exact ⟨_, _, rfl, by rw [hval]; exact hlo', by rw [hval]; exact hhi'⟩
  · rw [if_neg hc2]
    exact ⟨_, _, rfl, hlo', hhi'⟩

/-- The quotient that `roundDyadic` rounds is the dyadic value itself. -/
theorem dyadic_quotient (M : Nat) (E : Int) :
    ((M * 2 ^ E.toNat : Nat) : ℚ) / ((2 ^ (-E).toNat : Nat) : ℚ) = (M : ℚ) * (2 : ℚ) ^ E := by
  rw [zpow_split E]
  push_cast
  ring

/-- Single-precision rounding of a value below `2^16` keeps it between two half-integers. -/
theorem round32_half_grid (neg : Bool) (M : Nat) (E : Int) (lo hi : Nat) (hhi2 : hi ≤ 65535)
    (hlo : (lo : ℚ) / 2 ≤ (M : ℚ) * (2 : ℚ) ^ E) (hhi : (M : ℚ) * (2 : ℚ) ^ E ≤ (hi : ℚ) / 2) :
    ∃ m e, roundDyadic binary32 neg M E = fin neg m e ∧ (lo : ℚ) / 2 ≤ (m : ℚ) * (2 : ℚ) ^ e
      ∧ (m : ℚ) * (2 : ℚ) ^ e ≤ (hi : ℚ) / 2 := by
  have hq : 0 < 2 ^ (-E).toNat := by positivity
  have hquot := dyadic_quotient M E
  have hhalf : (2 : ℚ) ^ (-1 : Int) = 1 / 2 := by norm_num
  have hlt : ((M * 2 ^ E.toNat : Nat) : ℚ) / ((2 ^ (-E).toNat : Nat) : ℚ) < (2 : ℚ) ^ (23 : Int) := by
    rw [hquot]
    have : (hi : ℚ) ≤ 65535 := by exact_mod_cast hhi2
    have h23 : (2 : ℚ) ^ (23 : Int) = 8388608 := by norm_num
    rw [h23]
    linarith
  have hil := ilog2_lt_of_lt _ _ hq 23 (by norm_num) hlt
  have ht : targetExp binary32 (M * 2 ^ E.toNat) (2 ^ (-E).toNat) ≤ -1 := by
    unfold targetExp binary32
    simp only
    apply max_le <;> omega
  have h := round_bounds binary32 (by decide) neg (M * 2 ^ E.toNat) (2 ^ (-E).toNat) hq (-1) lo hi
    ht (by decide) (by rw [hquot, hhalf]; linarith) (by rw [hquot, hhalf]; linarith)
  obtain ⟨m, e, h1, h2, h3⟩ := h
  rw [hhalf] at h2 h3
  exact ⟨m, e, h1, by linarith, by linarith⟩

end FP

namespace FP

theorem ilog2_lt_of_lt_pos (p q : Nat) (hp : 0 < p) (hq : 0 < q) (k : Int)
    (h : (p : ℚ) / q < (2 : ℚ) ^ k) : ilog2 p q < k := by
  by_contra hcon
  have h1 := ilog2_le p q hp hq
  have h2 : (2 : ℚ) ^ k ≤ (2 : ℚ) ^ ilog2 p q :=
    zpow_le_zpow_right₀ (by norm_num) (by omega)
  linarith

/-- Rounding does not change a value that the format represents: if `p / q = N * 2^s` with
`N` below `2^prec` and `s` an exponent of the format, the rounded datum has exactly this
value. -/
theorem round_exact (f : Fmt) (hprec : 0 < f.prec) (he : 0 ≤ f.emax) (neg : Bool) (p q : Nat)
    (hq : 0 < q) (N : Nat) (s : Int) (hN : N < 2 ^ f.prec) (hs1 : f.emin ≤ s) (hs2 : s < f.emax)
    (hv : (p : ℚ) / q = (N : ℚ) * (2 : ℚ) ^ s) :
    toRat (round f neg p q) = (if neg then -1 else 1) * ((p : ℚ) / q) := by
  have hq' : (0 : ℚ) < q := by exact_mod_cast hq
  rcases Nat.eq_zero_or_pos p with hp | hp
  · subst hp
    have hb := bits_pos q hq
    have hb0 : bits 0 = 0 := rfl
    have hil : ilog2 0 q < 0 := by
      unfold ilog2
      rw [hb0]
      simp only
      split <;> omega
    have ht : targetExp f 0 q < f.emax := by
      unfold targetExp
      apply max_lt <;> omega
    obtain ⟨m, e, hr, h1, h2⟩ := round_bounds f hprec neg 0 q hq (targetExp f 0 q) 0 0 le_rfl ht
      (by simp) (by simp)
    rw [hr]
    have hpos := two_zpow_pos e
    have hm : (m : ℚ) * (2 : ℚ) ^ e = 0 := by
      have h3 : (0 : ℚ) ≤ (m : ℚ) * (2 : ℚ) ^ e := by positivity
      simp only [Nat.cast_zero, zero_mul] at h2
      linarith
    simp only [toRat, Nat.cast_zero, zero_div, mul_zero]
    rw [mul_assoc, hm, mul_zero]
  · have hlt : (p : ℚ) / q < (2 : ℚ) ^ (s + (f.prec : Int)) := by
      rw [hv, zpow_add₀ (by norm_num : (2 : ℚ) ≠ 0), mul_comm, zpow_natCast]
      apply mul_lt_mul_of_pos_left _ (two_zpow_pos s)
      exact_mod_cast hN
    have hil := ilog2_lt_of_lt_pos p q hp hq _ hlt
    have ht : targetExp f p q ≤ s := by
      unfold targetExp
      apply max_le <;> omega
    obtain ⟨m, e, hr, h1, h2⟩ := round_bounds f hprec neg p q hq s N N ht hs2
      (le_of_eq hv.symm) (le_of_eq hv)
    rw [hr]
    have hm : (m : ℚ) * (2 : ℚ) ^ e = (p : ℚ) / q := by
      rw [hv]; exact le_antisymm h2 h1
    simp only [toRat]
    rw [mul_assoc, hm]

end FP

/-! ### The coordinate mapper -/

theorem ofNat_max_coord : FP.ofNat binary32 HID_ABS_MAX_COORD.toNat = FP.fin false 16776704 (-9) := by
  decide

/-- The conversion in `hid_map_normalized` on a finite non-negative argument whose exact
product with 32767 lies between the half-integers `lo / 2` and `hi / 2`: no undefined
conversion occurs, and the result lies between `(lo + 1) / 2` and `(hi + 1) / 2` rounded
down. -/
theorem map_core (u : Int) (n : Bool) (m : Nat) (e : Int) (hn : n = false ∨ m = 0)
    (lo hi : Nat) (hhi2 : hi ≤ 65534)
    (hlo : (lo : ℚ) / 2 ≤ (m : ℚ) * (2 : ℚ) ^ e * 32767)
    (hhi : (m : ℚ) * (2 : ℚ) ^ e * 32767 ≤ (hi : ℚ) / 2) :
    ∃ k : Nat, FP.toInt32 u (FP.add binary32
        (FP.mul binary32 (FP.fin n m e) (FP.ofNat binary32 HID_ABS_MAX_COORD.toNat)) fHalf) = k
      ∧ (lo + 1) / 2 ≤ k ∧ k ≤ (hi + 1) / 2 := by
  have two_ne : (2 : ℚ) ≠ 0 := by norm_num
  rw [ofNat_max_coord]
  -- the product
  have hprod : ((m * 16776704 : Nat) : ℚ) * (2 : ℚ) ^ (e + -9) = (m : ℚ) * (2 : ℚ) ^ e * 32767 := by
    rw [zpow_add₀ two_ne]
    have : (2 : ℚ) ^ (-9 : Int) = 1 / 512 := by norm_num
    rw [this]
    push_cast
    ring
  obtain ⟨m1, e1, hmul, hlo1, hhi1⟩ := FP.round32_half_grid (xor n false) (m * 16776704) (e + -9)
    lo hi (by omega) (by rw [hprod]; exact hlo) (by rw [hprod]; exact hhi)
  have hmul' : FP.mul binary32 (FP.fin n m e) (FP.fin false 16776704 (-9)) = FP.fin n m1 e1 := by
    have : FP.mul binary32 (FP.fin n m e) (FP.fin false 16776704 (-9))
        = FP.roundDyadic binary32 (xor n false) (m * 16776704) (e + -9) := rfl
    rw [this, hmul]
    simp
  -- a negative sign only comes with a zero significand
  have hn1 : n = false ∨ m1 = 0 := by
    rcases hn with h | h
    · exact Or.inl h
    · right
      have h0 : (m1 : ℚ) * (2 : ℚ) ^ e1 ≤ 0 := by
        obtain ⟨m1', e1', hmul2, _, hhi2'⟩ := FP.round32_half_grid (xor n false) (m * 16776704)
          (e + -9) 0 0 (by omega) (by rw [hprod, h]; simp) (by rw [hprod, h]; simp)
        rw [hmul] at hmul2
        injection hmul2 with _ hm he
        subst hm; subst he
        simpa using hhi2'
      have hpos := FP.two_zpow_pos e1
      have : (m1 : ℚ) ≤ 0 := by
        by_contra hcon
        push_neg at hcon
        have := mul_pos hcon hpos
        linarith
      have : (m1 : ℚ) = 0 := le_antisymm this (by positivity)
      exact_mod_cast this
  rw [hmul']
  -- the sum
  have hscaled : FP.scaled n m1 e1 (min e1 (-1)) = ((m1 * 2 ^ (e1 - min e1 (-1)).toNat : Nat) : Int) := by
    unfold FP.scaled
    rcases hn1 with h | h
    · subst h; simp
    · subst h; simp
  have hsum : FP.add binary32 (FP.fin n m1 e1) fHalf
      = FP.roundDyadic binary32 false
          (m1 * 2 ^ (e1 - min e1 (-1)).toNat + 2 ^ (-1 - min e1 (-1)).toNat) (min e1 (-1)) := by
    unfold fHalf FP.add
    simp only [hscaled]
    have hs2 : FP.scaled false 1 (-1) (min e1 (-1)) = ((2 ^ (-1 - min e1 (-1)).toNat : Nat) : Int) := by
      unfold FP.scaled
      simp
    rw [hs2]
    have hpos : 0 < 2 ^ (-1 - min e1 (-1)).toNat := by positivity
    have hne : ((m1 * 2 ^ (e1 - min e1 (-1)).toNat : Nat) : Int)
        + ((2 ^ (-1 - min e1 (-1)).toNat : Nat) : Int) ≠ 0 := by
      omega
    rw [if_neg hne]
    have hnn : ¬ (((m1 * 2 ^ (e1 - min e1 (-1)).toNat : Nat) : Int)
        + ((2 ^ (-1 - min e1 (-1)).toNat : Nat) : Int) < 0) := by omega
    have habs : (((m1 * 2 ^ (e1 - min e1 (-1)).toNat : Nat) : Int)
        + ((2 ^ (-1 - min e1 (-1)).toNat : Nat) : Int)).natAbs
        = m1 * 2 ^ (e1 - min e1 (-1)).toNat + 2 ^ (-1 - min e1 (-1)).toNat := by omega
    rw [habs, decide_eq_false hnn]
  have hsumval : ((m1 * 2 ^ (e1 - min e1 (-1)).toNat + 2 ^ (-1 - min e1 (-1)).toNat : Nat) : ℚ)
      * (2 : ℚ) ^ (min e1 (-1)) = (m1 : ℚ) * (2 : ℚ) ^ e1 + 1 / 2 := by
    push_cast
    rw [add_mul, mul_assoc, ← zpow_natCast, ← zpow_natCast, ← zpow_add₀ two_ne,
      ← zpow_add₀ two_ne]
    have h1 : (((e1 - min e1 (-1)).toNat : Int) + min e1 (-1)) = e1 := by omega
    have h2 : (((-1 - min e1 (-1)).toNat : Int) + min e1 (-1)) = -1 := by omega
    rw [h1, h2]
    norm_num
  obtain ⟨m2, e2, hadd, hlo2, hhi2'⟩ := FP.round32_half_grid false
    (m1 * 2 ^ (e1 - min e1 (-1)).toNat + 2 ^ (-1 - min e1 (-1)).toNat) (min e1 (-1))
    (lo + 1) (hi + 1) (by omega)
    (by rw [hsumval]; push_cast; linarith) (by rw [hsumval]; push_cast; linarith)
  rw [hsum, hadd]
  -- the truncation
  have hq : 0 < 2 ^ (-e2).toNat := by positivity
  have hq' : (0 : ℚ) < ((2 ^ (-e2).toNat : Nat) : ℚ) := by exact_mod_cast hq
  have hval := FP.dyadic_quotient m2 e2
  have hk_lo : (lo + 1) / 2 ≤ (m2 * 2 ^ e2.toNat) / 2 ^ (-e2).toNat := by
    rw [Nat.le_div_iff_mul_le hq]
    have h1 : (((lo + 1) / 2 : Nat) : ℚ) ≤ ((lo + 1 : Nat) : ℚ) / 2 := by
      rw [le_div_iff₀ (by norm_num)]
      have : (lo + 1) / 2 * 2 ≤ lo + 1 := Nat.div_mul_le_self _ _
      exact_mod_cast this
    have h2 : (((lo + 1) / 2 : Nat) : ℚ)
        ≤ ((m2 * 2 ^ e2.toNat : Nat) : ℚ) / ((2 ^ (-e2).toNat : Nat) : ℚ) := by
      rw [hval]; linarith
    rw [le_div_iff₀ hq'] at h2
    exact_mod_cast h2
  have hk_hi : (m2 * 2 ^ e2.toNat) / 2 ^ (-e2).toNat ≤ (hi + 1) / 2 := by
    rw [Nat.le_div_iff_mul_le (by norm_num)]
    have h1 : (((m2 * 2 ^ e2.toNat) / 2 ^ (-e2).toNat : Nat) : ℚ)
        ≤ ((m2 * 2 ^ e2.toNat : Nat) : ℚ) / ((2 ^ (-e2).toNat : Nat) : ℚ) := by
      rw [le_div_iff₀ hq']
      have : (m2 * 2 ^ e2.toNat) / 2 ^ (-e2).toNat * 2 ^ (-e2).toNat ≤ m2 * 2 ^ e2.toNat :=
        Nat.div_mul_le_self _ _
      exact_mod_cast this
    rw [hval] at h1
    have h2 : (((m2 * 2 ^ e2.toNat) / 2 ^ (-e2).toNat : Nat) : ℚ) * 2 ≤ ((hi + 1 : Nat) : ℚ) := by
      linarith
    exact_mod_cast h2
  refine ⟨(m2 * 2 ^ e2.toNat) / 2 ^ (-e2).toNat, ?_, hk_lo, hk_hi⟩
  unfold FP.toInt32
  simp only [Bool.false_eq_true, if_false]
  rw [if_pos]
  constructor <;> omega

theorem lt_f0_iff (n : Bool) (m : Nat) (e : Int) :
    FP.lt (FP.fin n m e) f0 = true ↔ (n = true ∧ m ≠ 0) := by
  unfold FP.lt f0 FP.scaled
  simp only [decide_eq_true_eq]
  cases n
  · simp
  · simp
    exact Nat.pos_iff_ne_zero

theorem gt_f1_iff (n : Bool) (m : Nat) (e : Int) :
    FP.gt (FP.fin n m e) f1 = true ↔ (n = false ∧ 1 < (m : ℚ) * (2 : ℚ) ^ e) := by
  have two_ne : (2 : ℚ) ≠ 0 := by norm_num
  unfold FP.gt FP.lt f1 FP.scaled
  simp only [decide_eq_true_eq, Bool.false_eq_true, if_false, one_mul]
  cases n
  · simp only [Bool.false_eq_true, if_false, true_and]
    have h1 : (1 : ℚ) = ((2 ^ (0 - min 0 e).toNat : Nat) : ℚ) * (2 : ℚ) ^ (min 0 e) := by
      push_cast
      rw [← zpow_natCast, ← zpow_add₀ two_ne]
      have : (((0 - min 0 e).toNat : Int) + min 0 e) = 0 := by omega
      rw [this, zpow_zero]
    have h2 : (m : ℚ) * (2 : ℚ) ^ e
        = ((m * 2 ^ (e - min 0 e).toNat : Nat) : ℚ) * (2 : ℚ) ^ (min 0 e) := by
      push_cast
      rw [mul_assoc, ← zpow_natCast, ← zpow_add₀ two_ne]
      have : (((e - min 0 e).toNat : Int) + min 0 e) = e := by omega
      rw [this]
    have hpos := FP.two_zpow_pos (min 0 e)
    rw [h2]
    conv_rhs => lhs; rw [h1]
    rw [mul_lt_mul_right hpos]
    constructor
    · intro h; exact_mod_cast h
    · intro h; exact_mod_cast h
  · have h1 : (0 : Int) ≤ ((m * 2 ^ (e - min 0 e).toNat : Nat) : Int) := by positivity
    have h2 : (0 : Int) ≤ ((2 ^ (0 - min 0 e).toNat : Nat) : Int) := by positivity
    simp only [if_true, Bool.true_eq_false, false_and, iff_false, not_lt]
    linarith

theorem clamp_of_range (k : Nat) (hk : k ≤ 32767) :
    hid_clamp_coord (k : Int) = k ∧ ((hid_clamp_coord (k : Int)) % 65536).toNat = k := by
  have h : hid_clamp_coord (k : Int) = k := by
    unfold hid_clamp_coord HID_ABS_MIN_COORD HID_ABS_MAX_COORD
    rw [if_neg (by omega), if_neg (by omega)]
  rw [h]
  exact ⟨rfl, by omega⟩

theorem map_scaled_f0 (u : Int) :
    FP.toInt32 u (FP.add binary32 (FP.mul binary32 f0 (FP.ofNat binary32 HID_ABS_MAX_COORD.toNat))
      fHalf) = 0 := by
  obtain ⟨k, hk, _, h2⟩ := map_core u false 0 0 (Or.inl rfl) 0 0 (by omega) (by simp) (by simp)
  have : k = 0 := by omega
  subst this
  exact hk

theorem map_scaled_f1 (u : Int) :
    FP.toInt32 u (FP.add binary32 (FP.mul binary32 f1 (FP.ofNat binary32 HID_ABS_MAX_COORD.toNat))
      fHalf) = 32767 := by
  obtain ⟨k, hk, h1, h2⟩ := map_core u false 1 0 (Or.inl rfl) 65534 65534 (by omega)
    (by norm_num) (by norm_num)
  have : k = 32767 := by omega
  subst this
  exact hk

/-- For every argument that is not a NaN the value converted in `hid_map_normalized` is a
defined integer between 0 and 32767, and it is the exactly rounded value of the
specification or exceeds it by one. -/
theorem map_sandwich (u : Int) (v : FP) (hv : v ≠ FP.nan) :
    ∃ k : Nat, map_scaled u v = k ∧ k ≤ 32767 ∧ map_spec v ≤ k ∧ (k : Int) ≤ map_spec v + 1 := by
  have hfloor0 : ⌊(0 : ℚ) * 32767 + 1 / 2⌋ = 0 := by
    rw [Int.floor_eq_iff]; norm_num
  have hfloor1 : ⌊(1 : ℚ) * 32767 + 1 / 2⌋ = 32767 := by
    rw [Int.floor_eq_iff]; norm_num
  cases v with
  | nan => exact absurd rfl hv
  | inf n =>
    cases n
    · refine ⟨32767, ?_, le_rfl, ?_, ?_⟩
      · exact map_scaled_f1 u
      · simp only [map_spec, sat01, Bool.false_eq_true, if_false, hfloor1]; norm_num
      · simp only [map_spec, sat01, Bool.false_eq_true, if_false, hfloor1]; norm_num
    · refine ⟨0, ?_, by omega, ?_, ?_⟩
      · exact map_scaled_f0 u
      · simp only [map_spec, sat01, if_true, hfloor0]; norm_num
      · simp only [map_spec, sat01, if_true, hfloor0]; norm_num
  | fin n m e =>
    have hpos := FP.two_zpow_pos e
    have hm0 : (0 : ℚ) ≤ (m : ℚ) * (2 : ℚ) ^ e := by positivity
    by_cases hlt : FP.lt (FP.fin n m e) f0 = true
    · -- negative: saturated to 0
      have hsat : sat01 (FP.fin n m e) = 0 := by
        obtain ⟨hn, _⟩ := (lt_f0_iff n m e).mp hlt
        subst hn
        simp only [sat01, FP.toRat, if_true]
        rw [max_eq_right (by linarith), min_eq_left (by norm_num)]
      refine ⟨0, ?_, by omega, ?_, ?_⟩
      · unfold map_scaled
        simp only [hlt, if_true]
        exact map_scaled_f0 u
      · simp only [map_spec, hsat, hfloor0]; norm_num
      · simp only [map_spec, hsat, hfloor0]; norm_num
    · by_cases hgt : FP.gt (FP.fin n m e) f1 = true
      · -- above one: saturated to 1
        have hsat : sat01 (FP.fin n m e) = 1 := by
          obtain ⟨hn, h1⟩ := (gt_f1_iff n m e).mp hgt
          subst hn
          simp only [sat01, FP.toRat, Bool.false_eq_true, if_false, one_mul]
          rw [max_eq_left (by linarith), min_eq_right (le_of_lt h1)]
        refine ⟨32767, ?_, le_rfl, ?_, ?_⟩
        · unfold map_scaled
          simp only [hlt, hgt, if_true, Bool.false_eq_true, if_false]
          exact map_scaled_f1 u
        · simp only [map_spec, hsat, hfloor1]; norm_num
        · simp only [map_spec, hsat, hfloor1]; norm_num
      · -- inside the unit interval
        have hn : n = false ∨ m = 0 := by
          by_contra hcon
          push_neg at hcon
          exact hlt ((lt_f0_iff n m e).mpr ⟨by simpa using hcon.1, hcon.2⟩)
        have hle1 : n = false → (m : ℚ) * (2 : ℚ) ^ e ≤ 1 := by
          intro hnf
          by_contra hcon
          push_neg at hcon
          exact hgt ((gt_f1_iff n m e).mpr ⟨hnf, hcon⟩)
        -- the exact product `x`
        obtain ⟨x, hx, hx0, hx1, hsat⟩ : ∃ x : ℚ, (m : ℚ) * (2 : ℚ) ^ e * 32767 = x ∧ 0 ≤ x
            ∧ x ≤ 32767 ∧ sat01 (FP.fin n m e) * 32767 = x := by
          rcases hn with h | h
          · subst h
            have h1 := hle1 rfl
            refine ⟨(m : ℚ) * (2 : ℚ) ^ e * 32767, rfl, by positivity, by linarith, ?_⟩
            simp only [sat01, FP.toRat, Bool.false_eq_true, if_false, one_mul]
            rw [max_eq_left hm0, min_eq_left h1]
          · subst h
            refine ⟨0, by simp, le_rfl, by norm_num, ?_⟩
            simp [sat01, FP.toRat]
        have hK0 : 0 ≤ ⌊x + 1 / 2⌋ := Int.floor_nonneg.mpr (by linarith)
        have hK1 : ⌊x + 1 / 2⌋ ≤ 32767 := by
          have : ⌊x + 1 / 2⌋ < 32767 + 1 := by
            rw [Int.floor_lt]; push_cast; linarith
          omega
        obtain ⟨K, hK⟩ := Int.eq_ofNat_of_zero_le hK0
        have hfl := Int.floor_le (x + 1 / 2)
        have hfu := Int.lt_floor_add_one (x + 1 / 2)
        rw [hK] at hfl hfu hK1
        push_cast at hfl hfu
        have hKle : K ≤ 32767 := by omega
        have hlo : ((2 * K - 1 : Nat) : ℚ) / 2 ≤ (m : ℚ) * (2 : ℚ) ^ e * 32767 := by
          rw [hx]
          rcases Nat.eq_zero_or_pos K with h0 | h0
          · subst h0; simpa using hx0
          · have : ((2 * K - 1 : Nat) : ℚ) = 2 * (K : ℚ) - 1 := by
              rw [Nat.cast_sub (by omega)]; push_cast; ring
            rw [this]; linarith
        have hhi : (m : ℚ) * (2 : ℚ) ^ e * 32767 ≤ ((min (2 * K + 1) 65534 : Nat) : ℚ) / 2 := by
          rw [hx]
          rcases le_or_lt (2 * K + 1) 65534 with h | h
          · rw [min_eq_left h]; push_cast; linarith
          · rw [min_eq_right (le_of_lt h)]; push_cast; linarith
        obtain ⟨k, hk, hk1, hk2⟩ := map_core u n m e hn (2 * K - 1) (min (2 * K + 1) 65534)
          (min_le_right _ _) hlo hhi
        have hmin : min (2 * K + 1) 65534 ≤ 2 * K + 1 := min_le_left _ _
        have hmin2 : min (2 * K + 1) 65534 ≤ 65534 := min_le_right _ _
        refine ⟨k, ?_, by omega, ?_, ?_⟩
        · unfold map_scaled
          simp only [hlt, hgt, Bool.false_eq_true, if_false]
          exact hk
        · simp only [map_spec, hsat, hK]
          have : K ≤ k := by omega
          exact_mod_cast this
        · simp only [map_spec, hsat, hK]
          have : k ≤ K + 1 := by omega
          exact_mod_cast this

/-! ### How far the single-precision result can exceed the exact rounding -/

namespace FP

/-- Single-precision rounding of a value below `2^15` does not pass a multiple of `1/512`
that lies above the value. -/
theorem round32_fine_grid (neg : Bool) (M : Nat) (E : Int) (hi : Nat) (hhi2 : hi < 16777216)
    (hhi : (M : ℚ) * (2 : ℚ) ^ E ≤ (hi : ℚ) / 512) :
    ∃ m e, roundDyadic binary32 neg M E = fin neg m e
      ∧ (m : ℚ) * (2 : ℚ) ^ e ≤ (hi : ℚ) / 512 := by
  have hq : 0 < 2 ^ (-E).toNat := by positivity
  have hquot := dyadic_quotient M E
  have h9 : (2 : ℚ) ^ (-9 : Int) = 1 / 512 := by norm_num
  have hlt : ((M * 2 ^ E.toNat : Nat) : ℚ) / ((2 ^ (-E).toNat : Nat) : ℚ) < (2 : ℚ) ^ (15 : Int) := by
    rw [hquot]
    have : (hi : ℚ) < 16777216 := by exact_mod_cast hhi2
    have h15 : (2 : ℚ) ^ (15 : Int) = 32768 := by norm_num
    rw [h15]
    linarith
  have hil := ilog2_lt_of_lt _ _ hq 15 (by norm_num) hlt
  have ht : targetExp binary32 (M * 2 ^ E.toNat) (2 ^ (-E).toNat) ≤ -9 := by
    unfold targetExp binary32
    simp only
    apply max_le <;> omega
  have hpos := two_zpow_pos E
  have h := round_bounds binary32 (by decide) neg (M * 2 ^ E.toNat) (2 ^ (-E).toNat) hq (-9) 0 hi
    ht (by decide)
    (by rw [hquot]; simp only [Nat.cast_zero, zero_mul]; positivity)
    (by rw [hquot, h9]; linarith)
  obtain ⟨m, e, h1, _, h3⟩ := h
  rw [h9] at h3
  exact ⟨m, e, h1, by linarith⟩

end FP

/-- The conversion in `hid_map_normalized` on a finite non-negative argument whose exact
product with 32767 is at most `hi / 512`: the result is at most `(hi + 256) / 512` rounded
down, that is, the two roundings never carry the value past a multiple of `1/512`. -/
theorem map_core_fine (u : Int) (n : Bool) (m : Nat) (e : Int) (hn : n = false ∨ m = 0)
    (hi : Nat) (hhi2 : hi + 256 < 16777216)
    (hhi : (m : ℚ) * (2 : ℚ) ^ e * 32767 ≤ (hi : ℚ) / 512) :
    ∃ k : Nat, FP.toInt32 u (FP.add binary32
        (FP.mul binary32 (FP.fin n m e) (FP.ofNat binary32 HID_ABS_MAX_COORD.toNat)) fHalf) = k
      ∧ k ≤ (hi + 256) / 512 := by
  have two_ne : (2 : ℚ) ≠ 0 := by norm_num
  rw [ofNat_max_coord]
  -- the product
  have hprod : ((m * 16776704 : Nat) : ℚ) * (2 : ℚ) ^ (e + -9) = (m : ℚ) * (2 : ℚ) ^ e * 32767 := by
    rw [zpow_add₀ two_ne]
    have : (2 : ℚ) ^ (-9 : Int) = 1 / 512 := by norm_num
    rw [this]
    push_cast
    ring
  obtain ⟨m1, e1, hmul, hhi1⟩ := FP.round32_fine_grid (xor n false) (m * 16776704) (e + -9)
    hi (by omega) (by rw [hprod]; exact hhi)
  have hmul' : FP.mul binary32 (FP.fin n m e) (FP.fin false 16776704 (-9)) = FP.fin n m1 e1 := by
    have : FP.mul binary32 (FP.fin n m e) (FP.fin false 16776704 (-9))
        = FP.roundDyadic binary32 (xor n false) (m * 16776704) (e + -9) := rfl
    rw [this, hmul]
    simp
  -- a negative sign only comes with a zero significand
  have hn1 : n = false ∨ m1 = 0 := by
    rcases hn with h | h
    · exact Or.inl h
    · right
      have h0 : (m1 : ℚ) * (2 : ℚ) ^ e1 ≤ 0 := by
        obtain ⟨m1', e1', hmul2, hhi2'⟩ := FP.round32_fine_grid (xor n false) (m * 16776704)
          (e + -9) 0 (by omega) (by rw [hprod, h]; simp)
        rw [hmul] at hmul2
        injection hmul2 with _ hm he
        subst hm; subst he
        simpa using hhi2'
      have hpos := FP.two_zpow_pos e1
      have : (m1 : ℚ) ≤ 0 := by
        by_contra hcon
        push_neg at hcon
        have := mul_pos hcon hpos
        linarith
      have : (m1 : ℚ) = 0 := le_antisymm this (by positivity)
      exact_mod_cast this
  rw [hmul']
  -- the sum
  have hscaled : FP.scaled n m1 e1 (min e1 (-1)) = ((m1 * 2 ^ (e1 - min e1 (-1)).toNat : Nat) : Int) := by
    unfold FP.scaled
    rcases hn1 with h | h
    · subst h; simp
    · subst h; simp
  have hsum : FP.add binary32 (FP.fin n m1 e1) fHalf
      = FP.roundDyadic binary32 false
          (m1 * 2 ^ (e1 - min e1 (-1)).toNat + 2 ^ (-1 - min e1 (-1)).toNat) (min e1 (-1)) := by
    unfold fHalf FP.add
    simp only [hscaled]
    have hs2 : FP.scaled false 1 (-1) (min e1 (-1)) = ((2 ^ (-1 - min e1 (-1)).toNat : Nat) : Int) := by
      unfold FP.scaled
      simp
    rw [hs2]
    have hpos : 0 < 2 ^ (-1 - min e1 (-1)).toNat := by positivity
    have hne : ((m1 * 2 ^ (e1 - min e1 (-1)).toNat : Nat) : Int)
        + ((2 ^ (-1 - min e1 (-1)).toNat : Nat) : Int) ≠ 0 := by
      omega
    rw [if_neg hne]
    have hnn : ¬ (((m1 * 2 ^ (e1 - min e1 (-1)).toNat : Nat) : Int)
        + ((2 ^ (-1 - min e1 (-1)).toNat : Nat) : Int) < 0) := by omega
    have habs : (((m1 * 2 ^ (e1 - min e1 (-1)).toNat : Nat) : Int)
        + ((2 ^ (-1 - min e1 (-1)).toNat : Nat) : Int)).natAbs
        = m1 * 2 ^ (e1 - min e1 (-1)).toNat + 2 ^ (-1 - min e1 (-1)).toNat := by omega
    rw [habs, decide_eq_false hnn]
  have hsumval : ((m1 * 2 ^ (e1 - min e1 (-1)).toNat + 2 ^ (-1 - min e1 (-1)).toNat : Nat) : ℚ)
      * (2 : ℚ) ^ (min e1 (-1)) = (m1 : ℚ) * (2 : ℚ) ^ e1 + 1 / 2 := by
    push_cast
    rw [add_mul, mul_assoc, ← zpow_natCast, ← zpow_natCast, ← zpow_add₀ two_ne,
      ← zpow_add₀ two_ne]
    have h1 : (((e1 - min e1 (-1)).toNat : Int) + min e1 (-1)) = e1 := by omega
    have h2 : (((-1 - min e1 (-1)).toNat : Int) + min e1 (-1)) = -1 := by omega
    rw [h1, h2]
    norm_num
  obtain ⟨m2, e2, hadd, hhi2'⟩ := FP.round32_fine_grid false
    (m1 * 2 ^ (e1 - min e1 (-1)).toNat + 2 ^ (-1 - min e1 (-1)).toNat) (min e1 (-1))
    (hi + 256) hhi2
    (by rw [hsumval]; push_cast; linarith)
  rw [hsum, hadd]
  -- the truncation
  have hq : 0 < 2 ^ (-e2).toNat := by positivity
  have hq' : (0 : ℚ) < ((2 ^ (-e2).toNat : Nat) : ℚ) := by exact_mod_cast hq
  have hval := FP.dyadic_quotient m2 e2
  have hk_hi : (m2 * 2 ^ e2.toNat) / 2 ^ (-e2).toNat ≤ (hi + 256) / 512 := by
    rw [Nat.le_div_iff_mul_le (by norm_num)]
    have h1 : (((m2 * 2 ^ e2.toNat) / 2 ^ (-e2).toNat : Nat) : ℚ)
        ≤ ((m2 * 2 ^ e2.toNat : Nat) : ℚ) / ((2 ^ (-e2).toNat : Nat) : ℚ) := by
      rw [le_div_iff₀ hq']
      have : (m2 * 2 ^ e2.toNat) / 2 ^ (-e2).toNat * 2 ^ (-e2).toNat ≤ m2 * 2 ^ e2.toNat :=
        Nat.div_mul_le_self _ _
      exact_mod_cast this
    rw [hval] at h1
    have h2 : (((m2 * 2 ^ e2.toNat) / 2 ^ (-e2).toNat : Nat) : ℚ) * 512
        ≤ ((hi + 256 : Nat) : ℚ) := by
      push_cast
      push_cast at hhi2'
      linarith
    exact_mod_cast h2
  refine ⟨(m2 * 2 ^ e2.toNat) / 2 ^ (-e2).toNat, ?_, hk_hi⟩
  unfold FP.toInt32
  simp only [Bool.false_eq_true, if_false]
  rw [if_pos]
  constructor
  · apply le_trans (by norm_num : (-2147483648 : Int) ≤ 0)
    positivity
  · omega

/-- For every argument that is not a NaN, the value converted in `hid_map_normalized` is
less than `s * 32767 + 1/2 + 1/512`, where `s` is the argument saturated to `[0, 1]`. -/
theorem map_fine (u : Int) (v : FP) (hv : v ≠ FP.nan) (k : Nat) (hk : map_scaled u v = k) :
    (k : ℚ) < sat01 v * 32767 + 1 / 2 + 1 / 512 := by
  have hk0 : map_scaled u f0 = 0 := by unfold map_scaled; exact map_scaled_f0 u
  have hk1 : map_scaled u f1 = 32767 := by unfold map_scaled; exact map_scaled_f1 u
  cases v with
  | nan => exact absurd rfl hv
  | inf n =>
    cases n
    · have h : map_scaled u (FP.inf false) = 32767 := map_scaled_f1 u
      rw [h] at hk
      have : k = 32767 := by omega
      subst this
      simp only [sat01, Bool.false_eq_true, if_false]
      norm_num
    · have h : map_scaled u (FP.inf true) = 0 := map_scaled_f0 u
      rw [h] at hk
      have : k = 0 := by omega
      subst this
      simp only [sat01, if_true]
      norm_num
  | fin n m e =>
    have hpos := FP.two_zpow_pos e
    have hm0 : (0 : ℚ) ≤ (m : ℚ) * (2 : ℚ) ^ e := by positivity
    by_cases hlt : FP.lt (FP.fin n m e) f0 = true
    · have hsat : sat01 (FP.fin n m e) = 0 := by
        obtain ⟨hn, _⟩ := (lt_f0_iff n m e).mp hlt
        subst hn
        simp only [sat01, FP.toRat, if_true]
        rw [max_eq_right (by linarith), min_eq_left (by norm_num)]
      have h : map_scaled u (FP.fin n m e) = 0 := by
        unfold map_scaled
        simp only [hlt, if_true]
        exact map_scaled_f0 u
      rw [h] at hk
      have : k = 0 := by omega
      subst this
      rw [hsat]
      norm_num
    · by_cases hgt : FP.gt (FP.fin n m e) f1 = true
      · have hsat : sat01 (FP.fin n m e) = 1 := by
          obtain ⟨hn, h1⟩ := (gt_f1_iff n m e).mp hgt
          subst hn
          simp only [sat01, FP.toRat, Bool.false_eq_true, if_false, one_mul]
          rw [max_eq_left (by linarith), min_eq_right (le_of_lt h1)]
        have h : map_scaled u (FP.fin n m e) = 32767 := by
          unfold map_scaled
          simp only [hlt, hgt, if_true, Bool.false_eq_true, if_false]
          exact map_scaled_f1 u
        rw [h] at hk
        have : k = 32767 := by omega
        subst this
        rw [hsat]
        norm_num
      · have hn : n = false ∨ m = 0 := by
          by_contra hcon
          push_neg at hcon
          exact hlt ((lt_f0_iff n m e).mpr ⟨by simpa using hcon.1, hcon.2⟩)
        have hle1 : n = false → (m : ℚ) * (2 : ℚ) ^ e ≤ 1 := by
          intro hnf
          by_contra hcon
          push_neg at hcon
          exact hgt ((gt_f1_iff n m e).mpr ⟨hnf, hcon⟩)
        obtain ⟨x, hx, hx0, hx1, hsat⟩ : ∃ x : ℚ, (m : ℚ) * (2 : ℚ) ^ e * 32767 = x ∧ 0 ≤ x
            ∧ x ≤ 32767 ∧ sat01 (FP.fin n m e) * 32767 = x := by
          rcases hn with h | h
          · subst h
            have h1 := hle1 rfl
            refine ⟨(m : ℚ) * (2 : ℚ) ^ e * 32767, rfl, by positivity, by linarith, ?_⟩
            simp only [sat01, FP.toRat, Bool.false_eq_true, if_false, one_mul]
            rw [max_eq_left hm0, min_eq_left h1]
          · subst h
            refine ⟨0, by simp, le_rfl, by norm_num, ?_⟩
            simp [sat01, FP.toRat]
        rw [hsat]
        by_contra hcon
        push_neg at hcon
        obtain ⟨k2, hk2, hle, _, _⟩ := map_sandwich u (FP.fin n m e) hv
        have hkk : k2 = k := by
          rw [hk2] at hk
          exact_mod_cast hk
        subst hkk
        have hkpos : 1 ≤ k2 := by
          by_contra h0
          have : k2 = 0 := by omega
          subst this
          norm_num at hcon
          linarith
        have hcast : ((512 * k2 - 257 : Nat) : ℚ) = 512 * (k2 : ℚ) - 257 := by
          rw [Nat.cast_sub (by omega)]
          push_cast
          ring
        obtain ⟨k3, hk3, hle3⟩ := map_core_fine u n m e hn (512 * k2 - 257) (by omega)
          (by rw [hx, hcast]; linarith)
        have hms : map_scaled u (FP.fin n m e) = k3 := by
          unfold map_scaled
          simp only [hlt, hgt, Bool.false_eq_true, if_false]
          exact hk3
        rw [hk2] at hms
        have : k2 = k3 := by exact_mod_cast hms
        omega

theorem map_of_scaled (u : Int) (v : FP) (k : Nat) (hk : map_scaled u v = k) (hle : k ≤ 32767) :
    hid_map_normalized u v = k := by
  unfold hid_map_normalized
  simp only [hk]
  exact (clamp_of_range k hle).2

theorem map_lt_zero (u : Int) (v : FP) (h : FP.lt v f0 = true) : hid_map_normalized u v = 0 := by
  apply map_of_scaled u v 0 _ (by omega)
  unfold map_scaled
  simp only [h, if_true]
  exact map_scaled_f0 u

theorem map_half (u : Int) : hid_map_normalized u fHalf = 16384 := by
  obtain ⟨k, hk, h1, h2⟩ := map_core u false 1 (-1) (Or.inl rfl) 32767 32767 (by omega)
    (by norm_num) (by norm_num)
  have h3 : k = 16384 := by omega
  subst h3
  apply map_of_scaled u fHalf 16384 _ (by omega)
  have h4 : map_scaled u fHalf = FP.toInt32 u (FP.add binary32
      (FP.mul binary32 (FP.fin false 1 (-1)) (FP.ofNat binary32 HID_ABS_MAX_COORD.toNat))
      fHalf) := rfl
  rw [h4, hk]

theorem map_spec_below_half : map_spec (FP.fin false 32769 (-31)) = 0 := by
  have hs : sat01 (FP.fin false 32769 (-31)) = 32769 / 2147483648 := by
    simp only [sat01, FP.toRat, Bool.false_eq_true, if_false]
    norm_num
  unfold map_spec
  rw [hs, Int.floor_eq_iff]
  norm_num

/-- C3, amended: for every float `v` that is not a NaN, the value converted in
`hid_map_normalized` already lies in `[0, 32767]`, so the final clamp returns it unchanged.
With `s = min (max v 0) 1`, the result `r` is `floor (s * 32767 + 1/2)` or exceeds it by one
(the product and the sum are each rounded to single precision before the truncation), and
always `r < s * 32767 + 1/2 + 1/512`; so it exceeds the exact rounding only when
`s * 32767` lies less than `1/512` below a half-integer.  The function maps 0 to 0, 1 to
32767 and 0.5 to 16384. -/
theorem C3_map_rounding (u : Int) (v : FP) (hv : v ≠ FP.nan) :
    hid_clamp_coord (map_scaled u v) = map_scaled u v
    ∧ map_spec v ≤ (hid_map_normalized u v : Int)
    ∧ (hid_map_normalized u v : Int) ≤ map_spec v + 1
    ∧ hid_map_normalized u f0 = 0
    ∧ hid_map_normalized u f1 = 32767
    ∧ hid_map_normalized u fHalf = 16384
    ∧ ((hid_map_normalized u v : Nat) : ℚ) < sat01 v * 32767 + 1 / 2 + 1 / 512
    ∧ ((hid_map_normalized u v : Int) = map_spec v + 1 →
        (map_spec v : ℚ) + 1 / 2 - 1 / 512 < sat01 v * 32767
        ∧ sat01 v * 32767 < (map_spec v : ℚ) + 1 / 2) := by
  obtain ⟨k, hk, hle, h1, h2⟩ := map_sandwich u v hv
  have hm := map_of_scaled u v k hk hle
  have hfine := map_fine u v hv k hk
  refine ⟨?_, ?_, ?_, ?_, ?_, map_half u, ?_, ?_⟩
  · rw [hk]; exact (clamp_of_range k hle).1
  · rw [hm]; exact h1
  · rw [hm]; exact h2
  · exact map_of_scaled u f0 0 (by unfold map_scaled; exact map_scaled_f0 u) (by omega)
  · exact map_of_scaled u f1 32767 (by unfold map_scaled; exact map_scaled_f1 u) (by omega)
  · rw [hm]; exact hfine
  · rw [hm]
    intro heq
    have hq : (k : ℚ) = (map_spec v : ℚ) + 1 := by exact_mod_cast heq
    have hfl : sat01 v * 32767 + 1 / 2 < (map_spec v : ℚ) + 1 := by
      unfold map_spec
      exact Int.lt_floor_add_one _
    constructor <;> linarith

/-- C3, witness: the theorem at the float `0.25`, and at the float `32769 * 2^-31`, where
the result 1 exceeds the exact rounding 0 and the product `1/2 - 2^-31` lies less than
`1/512` below one half. -/
theorem C3_map_rounding_witness :
    FP.fin false 1 (-2) ≠ FP.nan
    ∧ hid_clamp_coord (map_scaled 0 (FP.fin false 1 (-2))) = map_scaled 0 (FP.fin false 1 (-2))
    ∧ map_spec (FP.fin false 1 (-2)) ≤ (hid_map_normalized 0 (FP.fin false 1 (-2)) : Int)
    ∧ (hid_map_normalized 0 (FP.fin false 1 (-2)) : Int) ≤ map_spec (FP.fin false 1 (-2)) + 1
    ∧ FP.fin false 32769 (-31) ≠ FP.nan
    ∧ (hid_map_normalized 0 (FP.fin false 32769 (-31)) : Int)
        = map_spec (FP.fin false 32769 (-31)) + 1
    ∧ (map_spec (FP.fin false 32769 (-31)) : ℚ) + 1 / 2 - 1 / 512
        < sat01 (FP.fin false 32769 (-31)) * 32767
    ∧ sat01 (FP.fin false 32769 (-31)) * 32767
        < (map_spec (FP.fin false 32769 (-31)) : ℚ) + 1 / 2 :=
  ⟨by decide, (C3_map_rounding 0 _ (by decide)).1, (C3_map_rounding 0 _ (by decide)).2.1,
    (C3_map_rounding 0 _ (by decide)).2.2.1, by decide,
    by rw [map_spec_below_half]; decide,
    ((C3_map_rounding 0 (FP.fin false 32769 (-31)) (by decide)).2.2.2.2.2.2.2
      (by rw [map_spec_below_half]; decide)).1,
    ((C3_map_rounding 0 (FP.fin false 32769 (-31)) (by decide)).2.2.2.2.2.2.2
      (by rw [map_spec_below_half]; decide)).2⟩

/-- C3, counterexample: the float `v = 32769 * 2^-31` (about `1.5259e-5`) has
`v * 32767 = 1/2 - 2^-31`, which lies below one half, so rounding to nearest gives 0; the
single-precision product is `0.5` and `hid_map_normalized` returns 1. -/
theorem C3_rounding_counterexample :
    FP.InFmt binary32 (FP.fin false 32769 (-31))
    ∧ sat01 (FP.fin false 32769 (-31)) * 32767 = 1 / 2 - 1 / 2147483648
    ∧ map_spec (FP.fin false 32769 (-31)) = 0
    ∧ hid_map_normalized 0 (FP.fin false 32769 (-31)) = 1 := by
  have hs : sat01 (FP.fin false 32769 (-31)) = 32769 / 2147483648 := by
    simp only [sat01, FP.toRat, Bool.false_eq_true, if_false]
    norm_num
  refine ⟨by unfold FP.InFmt binary32; decide, ?_, ?_, by decide⟩
  · rw [hs]; norm_num
  · unfold map_spec
    rw [hs, Int.floor_eq_iff]
    norm_num

/-! ### The string functions -/

theorem isPrefixOf_iff (pat s : List Char) : pat.isPrefixOf s = true ↔ pat <+: s :=
  List.isPrefixOf_iff_prefix

/-- The function `strstr` passes over characters that differ from the first character of the needle. -/
theorem strstr_skip (a s : List Char) (c0 : Char) (pt : List Char) (h : ∀ c ∈ a, c ≠ c0) :
    strstr (a ++ s) (c0 :: pt) = strstr s (c0 :: pt) := by
  induction a with
  | nil => rfl
  | cons c a ih =>
    have hc : c ≠ c0 := h c (List.mem_cons_self _ _)
    have hp : (c0 :: pt).isPrefixOf (c :: (a ++ s)) = false := by
      simp [List.isPrefixOf, Ne.symm hc]
    rw [List.cons_append, strstr, hp]
    simp only [Bool.false_eq_true, if_false]
    exact ih (fun x hx => h x (List.mem_cons_of_mem _ hx))

theorem strstr_at (pat rest : List Char) (hne : pat ≠ []) :
    strstr (pat ++ rest) pat = some (pat ++ rest) := by
  cases pat with
  | nil => exact absurd rfl hne
  | cons c pt =>
    have hp : (c :: pt).isPrefixOf (c :: pt ++ rest) = true :=
      (isPrefixOf_iff _ _).mpr (List.prefix_append _ _)
    rw [List.cons_append] at hp ⊢
    rw [strstr, hp]
    simp

/-- The function `strstr` returns the first occurrence. -/
theorem strstr_first (pat pre rest : List Char) (hne : pat ≠ []) (h : FirstAt pat pre rest) :
    strstr (pre ++ pat ++ rest) pat = some (pat ++ rest) := by
  induction pre with
  | nil => exact strstr_at pat rest hne
  | cons c pre ih =>
    have hp : pat.isPrefixOf (c :: (pre ++ pat ++ rest)) = false := by
      by_contra hcon
      have hpre : pat <+: (c :: (pre ++ pat ++ rest)) :=
        (isPrefixOf_iff _ _).mp (by simpa using hcon)
      have := h [] (c :: (pre ++ pat ++ rest)) (by simp) hpre
      simp at this
    have ih2 : FirstAt pat pre rest := by
      intro pre2 r2 heq hpr
      have := h (c :: pre2) r2 (by simp only [List.cons_append, heq]) hpr
      simpa using this
    simp only [List.cons_append, List.append_assoc] at hp ⊢
    rw [strstr, hp]
    simp only [Bool.false_eq_true, if_false]
    have := ih ih2
    simpa [List.append_assoc] using this

/-- The function `strstr` fails exactly when the needle does not occur. -/
theorem strstr_none_iff (s pat : List Char) : strstr s pat = none ↔ ¬ pat <:+: s := by
  induction s with
  | nil =>
    by_cases hp : pat = []
    · subst hp; simp [strstr]
    · simp [strstr, hp]
  | cons c s ih =>
    by_cases hpre : pat.isPrefixOf (c :: s) = true
    · rw [strstr, if_pos hpre]
      simp only [reduceCtorEq, false_iff, not_not]
      exact ((isPrefixOf_iff _ _).mp hpre).isInfix
    · rw [strstr, if_neg hpre, ih]
      have hnp : ¬ pat <+: (c :: s) := fun h => hpre ((isPrefixOf_iff _ _).mpr h)
      rw [List.infix_cons_iff]
      tauto

/-- What `strstr` returns is the text from the first occurrence of the needle on. -/
theorem strstr_some (s pat r : List Char) (h : strstr s pat = some r) :
    ∃ pre rest, s = pre ++ pat ++ rest ∧ r = pat ++ rest ∧ FirstAt pat pre rest := by
  induction s with
  | nil =>
    by_cases hp : pat = []
    · subst hp
      simp [strstr] at h
      subst h
      exact ⟨[], [], rfl, rfl, fun pre2 r2 _ _ => Nat.zero_le _⟩
    · simp [strstr, hp] at h
  | cons c s ih =>
    by_cases hpre : pat.isPrefixOf (c :: s) = true
    · rw [strstr, if_pos hpre] at h
      injection h with h
      subst h
      obtain ⟨rest, hrest⟩ := (isPrefixOf_iff _ _).mp hpre
      exact ⟨[], rest, by simpa using hrest.symm, hrest.symm, fun pre2 r2 _ _ => Nat.zero_le _⟩
    · rw [strstr, if_neg hpre] at h
      obtain ⟨pre, rest, hs, hr, hf⟩ := ih h
      refine ⟨c :: pre, rest, by simp [hs], hr, ?_⟩
      intro pre2 r2 heq hpr
      cases pre2 with
      | nil =>
        simp only [List.nil_append] at heq
        rw [← heq] at hpr
        have : pat <+: (c :: s) := by
          rw [hs]; simpa [List.append_assoc] using hpr
        exact absurd ((isPrefixOf_iff _ _).mpr this) hpre
      | cons d pre2 =>
        simp only [List.cons_append, List.cons.injEq] at heq
        have := hf pre2 r2 heq.2 hpr
        simp only [List.length_cons]
        omega

theorem strchr_skip (a s : List Char) (x : Char) (h : ∀ c ∈ a, c ≠ x) :
    strchr (a ++ s) x = strchr s x := by
  induction a with
  | nil => rfl
  | cons c a ih =>
    have hc : c ≠ x := h c (List.mem_cons_self _ _)
    rw [List.cons_append, strchr, if_neg hc]
    exact ih (fun y hy => h y (List.mem_cons_of_mem _ hy))

theorem strchr_head (s : List Char) (x : Char) : strchr (x :: s) x = some (x :: s) := by
  simp [strchr]

theorem strchr_none (s : List Char) (x : Char) (h : ∀ c ∈ s, c ≠ x) : strchr s x = none := by
  have := strchr_skip s [] x h
  rw [List.append_nil] at this
  rw [this]
  rfl

/-- What `strchr` returns starts at the first occurrence of the character. -/
theorem strchr_some (s : List Char) (x : Char) (r : List Char) (h : strchr s x = some r) :
    ∃ mid rest, s = mid ++ x :: rest ∧ r = x :: rest ∧ ∀ c ∈ mid, c ≠ x := by
  induction s with
  | nil => simp [strchr] at h
  | cons c s ih =>
    by_cases hc : c = x
    · subst hc
      rw [strchr_head] at h
      injection h with h
      exact ⟨[], s, rfl, h.symm, by simp⟩
    · rw [strchr, if_neg hc] at h
      obtain ⟨mid, rest, hs, hr, hm⟩ := ih h
      refine ⟨c :: mid, rest, by simp [hs], hr, ?_⟩
      intro y hy
      rcases List.mem_cons.mp hy with h1 | h1
      · rw [h1]; exact hc
      · exact hm y h1

theorem dropWhile_append_all (p : Char → Bool) (a s : List Char) (h : ∀ c ∈ a, p c = true) :
    (a ++ s).dropWhile p = s.dropWhile p := by
  induction a with
  | nil => rfl
  | cons c a ih =>
    rw [List.cons_append, List.dropWhile_cons, if_pos (h c (List.mem_cons_self _ _))]
    exact ih (fun y hy => h y (List.mem_cons_of_mem _ hy))

theorem dropWhile_idem (p : Char → Bool) (s : List Char) :
    (s.dropWhile p).dropWhile p = s.dropWhile p := by
  induction s with
  | nil => rfl
  | cons c s ih =>
    by_cases hc : p c = true
    · rw [List.dropWhile_cons, if_pos hc]; exact ih
    · rw [List.dropWhile_cons, if_neg hc, List.dropWhile_cons, if_neg hc]

/-- The function `strtod` skips leading white space itself. -/
theorem strtod_dropWhile (s : List Char) : strtod (s.dropWhile isspace) = strtod s := by
  unfold strtod
  rw [dropWhile_idem]

theorem pattern_eq (field : List Char) (hlen : field.length ≤ 29) :
    ((('"' :: field) ++ ['"']).take 31) = quoted field := by
  unfold quoted
  apply List.take_of_length_le
  simp
  omega

theorem quoted_ne_nil (field : List Char) : quoted field ≠ [] := by
  simp [quoted]

/-- The scan of `parse_number_field`, step by step: the text after the first occurrence of
the quoted name, from its first colon on, decides the result. -/
theorem parse_number_field_at (field pre mid after : List Char) (hlen : field.length ≤ 29)
    (hfirst : FirstAt (quoted field) pre (mid ++ ':' :: after)) (hmid : ∀ c ∈ mid, c ≠ ':') :
    parse_number_field (pre ++ quoted field ++ (mid ++ ':' :: after)) field
      = (strtod after).map Prod.fst := by
  unfold parse_number_field
  simp only [pattern_eq field hlen]
  rw [strstr_first _ _ _ (quoted_ne_nil field) hfirst]
  simp only [List.drop_left]
  rw [strchr_skip _ _ _ hmid, strchr_head]
  simp only [List.drop_succ_cons, List.drop_zero]
  rw [strtod_dropWhile]
  cases strtod after with
  | none => rfl
  | some r => rfl

theorem parse_number_field_no_colon (field pre rest : List Char) (hlen : field.length ≤ 29)
    (hfirst : FirstAt (quoted field) pre rest) (hrest : ∀ c ∈ rest, c ≠ ':') :
    parse_number_field (pre ++ quoted field ++ rest) field = none := by
  unfold parse_number_field
  simp only [pattern_eq field hlen]
  rw [strstr_first _ _ _ (quoted_ne_nil field) hfirst]
  simp only [List.drop_left]
  rw [strchr_none _ _ hrest]

theorem parse_number_field_absent (json field : List Char) (hlen : field.length ≤ 29)
    (h : ¬ quoted field <:+: json) : parse_number_field json field = none := by
  unfold parse_number_field
  simp only [pattern_eq field hlen]
  rw [(strstr_none_iff _ _).mpr h]

/-! ### `strtod` on decimal literals -/

theorem takeWhile_append_stop (p : Char → Bool) (a b : List Char) (ha : ∀ c ∈ a, p c = true)
    (hb : ∀ c r, b = c :: r → p c = false) : (a ++ b).takeWhile p = a := by
  induction a with
  | nil =>
    cases b with
    | nil => rfl
    | cons c r => simp [List.takeWhile_cons, hb c r rfl]
  | cons c a ih =>
    rw [List.cons_append, List.takeWhile_cons, if_pos (ha c (List.mem_cons_self _ _))]
    rw [ih (fun y hy => ha y (List.mem_cons_of_mem _ hy))]

theorem dropWhile_append_stop (p : Char → Bool) (a b : List Char) (ha : ∀ c ∈ a, p c = true)
    (hb : ∀ c r, b = c :: r → p c = false) : (a ++ b).dropWhile p = b := by
  rw [dropWhile_append_all p a b ha]
  cases b with
  | nil => rfl
  | cons c r => simp [List.dropWhile_cons, hb c r rfl]

theorem stops_head (rest : List Char) (h : stops rest = true) (c : Char) (r : List Char)
    (hr : rest = c :: r) :
    isdigit c = false ∧ c ≠ '.' ∧ c ≠ 'e' ∧ c ≠ 'E' ∧ c ≠ 'x' ∧ c ≠ 'X' := by
  subst hr
  simp only [stops, Bool.and_eq_true, Bool.not_eq_true', bne_iff_ne, ne_eq] at h
  tauto

theorem digit_ne (c : Char) (h : isdigit c = true) :
    isspace c = false ∧ c ≠ '-' ∧ c ≠ '+' ∧ c ≠ '.' ∧ c ≠ 'x' ∧ c ≠ 'X' ∧ c ≠ 'e' ∧ c ≠ 'E' := by
  refine ⟨?_, ?_, ?_, ?_, ?_, ?_, ?_, ?_⟩
  · simp only [isdigit, decide_eq_true_eq] at h
    simp only [isspace, decide_eq_false_iff_not, not_or]
    refine ⟨?_, ?_, ?_, ?_, ?_, ?_⟩ <;> (rintro rfl; revert h; decide)
  all_goals (rintro rfl; revert h; decide)

theorem optSign_signText (sg : Option Bool) (s : List Char)
    (hs : sg = none → ∀ c r, s = c :: r → c ≠ '-' ∧ c ≠ '+') :
    optSign (signText sg ++ s) = (decide (sg = some true), s) := by
  cases sg with
  | some b => cases b <;> rfl
  | none =>
    simp only [signText, List.nil_append]
    cases s with
    | nil => rfl
    | cons c r =>
      obtain ⟨h1, h2⟩ := hs rfl c r rfl
      unfold optSign
      split
      · next heq => injection heq with h3; exact absurd h3 h1
      · next heq => injection heq with h3; exact absurd h3 h2
      · rfl

theorem hexBody_none (neg : Bool) (s : List Char)
    (h : ∀ a y r, s = a :: y :: r → y ≠ 'x' ∧ y ≠ 'X') : hexBody neg s = none := by
  unfold hexBody
  split
  · next x r =>
    obtain ⟨h1, h2⟩ := h _ x r rfl
    simp [h1, h2]
  · rfl

/-- The text of the exponent part of a literal. -/
theorem exponentPart_literal (ex : Option (Char × Option Bool × List Char)) (rest : List Char)
    (hex : ∀ c sg ds, ex = some (c, sg, ds) →
      (c = 'e' ∨ c = 'E') ∧ ds ≠ [] ∧ ∀ d ∈ ds, isdigit d = true)
    (hr : stops rest = true) :
    exponentPart (fun c => decide (c = 'e' ∨ c = 'E')) (expText ex ++ rest)
      = (expVal ex, rest) := by
  cases ex with
  | none =>
    simp only [expText, expVal, List.nil_append]
    cases rest with
    | nil => rfl
    | cons c r =>
      obtain ⟨_, _, h3, h4, _, _⟩ := stops_head _ hr c r rfl
      simp [exponentPart, h3, h4]
  | some t =>
    obtain ⟨c, sg, ds⟩ := t
    obtain ⟨hc, hds, hdig⟩ := hex c sg ds rfl
    have hstop : ∀ c r, rest = c :: r → isdigit c = false :=
      fun c r h => (stops_head _ hr c r h).1
    have hsign : optSign (signText sg ++ (ds ++ rest)) = (decide (sg = some true), ds ++ rest) := by
      apply optSign_signText
      intro _ c r hcr
      cases ds with
      | nil => exact absurd rfl hds
      | cons d ds =>
        simp only [List.cons_append, List.cons.injEq] at hcr
        have := digit_ne d (hdig d (List.mem_cons_self _ _))
        rw [← hcr.1]
        exact ⟨this.2.1, this.2.2.1⟩
    simp only [expText, expVal, List.cons_append, List.append_assoc, exponentPart]
    have hm : decide (c = 'e' ∨ c = 'E') = true := by simpa using hc
    simp only [hm, if_true, hsign, takeWhile_append_stop isdigit ds rest hdig hstop,
      dropWhile_append_stop isdigit ds rest hdig hstop, hds, if_false]
    cases sg with
    | none => simp
    | some b => cases b <;> simp

/-- The function `strtod` reads a decimal or exponential literal completely and returns its value, when
the text after the literal does not continue it. -/
theorem strtod_literal (l : DecLit) (hl : l.WF) (rest : List Char) (hr : stops rest = true) :
    strtod (l.text ++ rest) = some (l.value, rest) := by
  obtain ⟨hip, hfp, hdot, hne, hex⟩ := hl
  have hstop := stops_head rest hr
  have hstopd : ∀ c r, rest = c :: r → isdigit c = false := fun c r h => (hstop c r h).1
  -- the text of the exponent
  set X : List Char := expText l.exp with hX
  have hXhead : ∀ c r, X ++ rest = c :: r →
      isdigit c = false ∧ c ≠ '.' ∧ c ≠ 'x' ∧ c ≠ 'X' := by
    intro c r hcr
    cases hexp : l.exp with
    | none =>
      rw [hX, hexp] at hcr
      have := hstop c r hcr
      tauto
    | some t =>
      obtain ⟨c2, sg, ds⟩ := t
      rw [hX, hexp] at hcr
      simp only [expText, List.cons_append, List.cons.injEq] at hcr
      obtain ⟨hc, _, _⟩ := hex c2 sg ds hexp
      rw [← hcr.1]
      rcases hc with h | h <;> (subst h; decide)
  -- the text of the fraction
  set D : List Char := (if l.dot then '.' :: l.fp else []) with hD
  have hbody : l.body = l.ip ++ D ++ X := rfl
  have hDXhead : ∀ c r, D ++ (X ++ rest) = c :: r → isdigit c = false ∧ c ≠ 'x' ∧ c ≠ 'X' := by
    intro c r hcr
    cases hd : l.dot with
    | true =>
      rw [hD, hd] at hcr
      simp only [if_true, List.cons_append, List.cons.injEq] at hcr
      rw [← hcr.1]
      decide
    | false =>
      rw [hD, hd] at hcr
      simp only [Bool.false_eq_true, if_false, List.nil_append] at hcr
      have := hXhead c r hcr
      tauto
  -- the first character of the body
  have hbhead : ∀ c r, l.body ++ rest = c :: r →
      isspace c = false ∧ c ≠ '-' ∧ c ≠ '+' := by
    intro c r hcr
    rw [hbody] at hcr
    cases hipc : l.ip with
    | cons d ds =>
      rw [hipc] at hcr
      simp only [List.cons_append, List.cons.injEq] at hcr
      have := digit_ne d (hip d (by rw [hipc]; exact List.mem_cons_self _ _))
      rw [← hcr.1]
      tauto
    | nil =>
      have hfpne : l.fp ≠ [] := by
        rcases hne with h | h
        · exact absurd hipc h
        · exact h
      have hd : l.dot = true := by
        by_contra hcon
        exact hfpne (hdot (by simpa using hcon))
      rw [hipc, hD, hd] at hcr
      simp only [if_true, List.nil_append, List.cons_append, List.cons.injEq] at hcr
      rw [← hcr.1]
      decide
  have hbne : l.body ++ rest ≠ [] := by
    rw [hbody]
    rcases hne with h | h
    · cases hipc : l.ip with
      | nil => exact absurd hipc h
      | cons d ds => simp
    · have hd : l.dot = true := by
        by_contra hcon
        exact h (hdot (by simpa using hcon))
      simp [hD, hd]
  -- white space and sign
  have hsp : (l.text ++ rest).dropWhile isspace = l.text ++ rest := by
    unfold DecLit.text
    cases hs : l.sign with
    | some b => cases b <;> rfl
    | none =>
      simp only [signText, List.nil_append]
      cases hb : l.body ++ rest with
      | nil => rfl
      | cons c r =>
        rw [List.dropWhile_cons, if_neg (by rw [(hbhead c r hb).1]; simp)]
  have hsign : optSign (l.text ++ rest) = (decide (l.sign = some true), l.body ++ rest) := by
    unfold DecLit.text
    rw [List.append_assoc]
    apply optSign_signText
    intro _ c r hcr
    exact (hbhead c r hcr).2
  -- no hexadecimal prefix
  have hhex : hexBody (decide (l.sign = some true)) (l.body ++ rest) = none := by
    apply hexBody_none
    intro a y r hcr
    rw [hbody, List.append_assoc, List.append_assoc] at hcr
    cases hipc : l.ip with
    | nil =>
      rw [hipc, List.nil_append] at hcr
      cases hd : l.dot with
      | true =>
        rw [hD, hd] at hcr
        simp only [if_true, List.cons_append, List.cons.injEq] at hcr
        cases hfpc : l.fp with
        | nil =>
          rw [hfpc, List.nil_append] at hcr
          have := hXhead y r hcr.2
          tauto
        | cons d ds =>
          rw [hfpc] at hcr
          simp only [List.cons_append, List.cons.injEq] at hcr
          have := digit_ne d (hfp d (by rw [hfpc]; exact List.mem_cons_self _ _))
          rw [← hcr.2.1]
          tauto
      | false =>
        have hfpe : l.fp = [] := hdot hd
        rcases hne with h | h
        · exact absurd hipc h
        · exact absurd hfpe h
    | cons d ds =>
      rw [hipc] at hcr
      simp only [List.cons_append, List.cons.injEq] at hcr
      cases ds with
      | nil =>
        rw [List.nil_append] at hcr
        have := hDXhead y r hcr.2
        tauto
      | cons d2 ds2 =>
        simp only [List.cons_append, List.cons.injEq] at hcr
        have := digit_ne d2 (hip d2 (by rw [hipc]; simp))
        rw [← hcr.2.1]
        tauto
  -- the significand
  have hmant : mantissaPart isdigit (l.body ++ rest) = (l.ip, l.fp, X ++ rest) := by
    unfold mantissaPart
    rw [hbody, List.append_assoc, List.append_assoc,
      takeWhile_append_stop isdigit l.ip _ hip (fun c r h => (hDXhead c r h).1),
      dropWhile_append_stop isdigit l.ip _ hip (fun c r h => (hDXhead c r h).1)]
    cases hd : l.dot with
    | true =>
      rw [hD, hd]
      simp only [if_true, List.cons_append]
      rw [takeWhile_append_stop isdigit l.fp _ hfp (fun c r h => (hXhead c r h).1),
        dropWhile_append_stop isdigit l.fp _ hfp (fun c r h => (hXhead c r h).1)]
    | false =>
      rw [hD, hd, hdot hd]
      simp only [Bool.false_eq_true, if_false, List.nil_append]
      split
      · next r heq => exact absurd rfl (hXhead _ _ heq).2.1
      · rfl
  have hexp := exponentPart_literal l.exp rest hex hr
  have hnot : ¬ (l.ip = [] ∧ l.fp = []) := by
    rintro ⟨h1, h2⟩
    rcases hne with h | h
    · exact h h1
    · exact h h2
  unfold strtod
  simp only [hsp, hsign, hhex]
  unfold decimalBody
  simp only [hmant, hnot, if_false]
  rw [← hX] at hexp
  simp only [hexp]
  rfl

/-! ### The field scanner -/

theorem firstAt_of_strstr (pat pre rest : List Char)
    (h : strstr (pre ++ pat ++ rest) pat = some (pat ++ rest)) : FirstAt pat pre rest := by
  obtain ⟨pre2, rest2, hs, hr, hf⟩ := strstr_some _ _ _ h
  have h1 : rest = rest2 := List.append_cancel_left hr
  subst h1
  have h2 : pre = pre2 := by
    rw [List.append_assoc, List.append_assoc] at hs
    exact List.append_cancel_right hs
  subst h2
  exact hf

theorem strchr_none_iff (s : List Char) (x : Char) : strchr s x = none ↔ ∀ c ∈ s, c ≠ x := by
  constructor
  · intro h c hc
    induction s with
    | nil => simp at hc
    | cons d s ih =>
      by_cases hd : d = x
      · rw [strchr, if_pos hd] at h
        exact absurd h (by simp)
      · rw [strchr, if_neg hd] at h
        rcases List.mem_cons.mp hc with h1 | h1
        · rw [h1]; exact hd
        · exact ih h h1
  · exact strchr_none s x

theorem space_ne_colon (c : Char) (h : isspace c = true) : c ≠ ':' := by
  rintro rfl
  exact absurd h (by decide)

theorem strtod_skip_space (ws s : List Char) (h : ∀ c ∈ ws, isspace c = true) :
    strtod (ws ++ s) = strtod s := by
  unfold strtod
  rw [dropWhile_append_all isspace ws s h]

/-- A power of ten with an integer exponent, as a quotient of two natural powers. -/
theorem ten_zpow_split (k : Int) : (10 : ℚ) ^ k = (10 : ℚ) ^ k.toNat / (10 : ℚ) ^ (-k).toNat := by
  rcases le_or_lt 0 k with h | h
  · have h1 : (-k).toNat = 0 := by omega
    have h2 : k = (k.toNat : Int) := by omega
    rw [h1, pow_zero, div_one]
    conv_lhs => rw [h2]
    rw [zpow_natCast]
  · have h1 : k.toNat = 0 := by omega
    have h2 : k = -((-k).toNat : Int) := by omega
    rw [h1, pow_zero]
    conv_lhs => rw [h2]
    rw [zpow_neg, zpow_natCast, one_div]

/-- The value of a literal is the number it denotes whenever a `double` represents that
number: whenever its magnitude is `N * 2^s` with `N < 2^53` and `-1074 ≤ s ≤ 970`. -/
theorem value_exact (l : DecLit) (N : Nat) (s : Int) (hN : N < 2 ^ 53) (hs1 : -1074 ≤ s)
    (hs2 : s ≤ 970)
    (h : (numVal 10 (l.ip ++ l.fp) : ℚ) * (10 : ℚ) ^ (expVal l.exp - (l.fp.length : Int))
      = (N : ℚ) * (2 : ℚ) ^ s) :
    FP.toRat l.value = l.exact := by
  have hq : 0 < 10 ^ (-(expVal l.exp - (l.fp.length : Int))).toNat := by positivity
  have hv : ((numVal 10 (l.ip ++ l.fp) * 10 ^ (expVal l.exp - (l.fp.length : Int)).toNat : Nat) : ℚ)
      / ((10 ^ (-(expVal l.exp - (l.fp.length : Int))).toNat : Nat) : ℚ)
      = (numVal 10 (l.ip ++ l.fp) : ℚ) * (10 : ℚ) ^ (expVal l.exp - (l.fp.length : Int)) := by
    rw [ten_zpow_split]
    push_cast
    ring
  have hr := FP.round_exact binary64 (by decide) (by decide) (decide (l.sign = some true))
    _ _ hq N s hN hs1 (by show s < 971; omega) (by rw [hv]; exact h)
  unfold DecLit.value DecLit.exact
  simp only
  rw [hr, hv]
  by_cases hsg : l.sign = some true
  · simp [hsg]
  · simp [hsg]

/-- C7: when the first occurrence of the quoted field name (a name that fits the pattern
buffer) is followed by optional white space, a colon, optional white space and a decimal or
exponential literal that the following text does not continue, `parse_number_field`
succeeds and returns the value of that literal as a `double` (the number the literal
denotes, exactly, whenever a `double` represents it, and its rounding into `double`
otherwise), whatever precedes the name and whatever follows the literal; on `{"x": 0.25, "y": -1}` it returns 0.25 for `x` and -1 for
`y`, which `hid_map_normalized` sends to 0. -/
theorem C7_first_occurrence_parsed (field pre ws1 ws2 rest : List Char) (l : DecLit)
    (hlen : field.length ≤ 29)
    (hfirst : FirstAt (quoted field) pre (ws1 ++ ':' :: (ws2 ++ (l.text ++ rest))))
    (hws1 : ∀ c ∈ ws1, isspace c = true) (hws2 : ∀ c ∈ ws2, isspace c = true)
    (hl : l.WF) (hr : stops rest = true) :
    parse_number_field (pre ++ quoted field ++ (ws1 ++ ':' :: (ws2 ++ (l.text ++ rest)))) field
        = some l.value
    ∧ (∀ (N : Nat) (s : Int), N < 2 ^ 53 → -1074 ≤ s → s ≤ 970 →
        (numVal 10 (l.ip ++ l.fp) : ℚ) * (10 : ℚ) ^ (expVal l.exp - (l.fp.length : Int))
          = (N : ℚ) * (2 : ℚ) ^ s →
        FP.toRat l.value = l.exact)
    ∧ (∃ v, parse_number_field (lit "\x7b\"x\": 0.25, \"y\": -1\x7d") (lit "x") = some v
        ∧ FP.toRat v = 1 / 4)
    ∧ (∃ v, parse_number_field (lit "\x7b\"x\": 0.25, \"y\": -1\x7d") (lit "y") = some v
        ∧ FP.toRat v = -1 ∧ ∀ u, hid_map_normalized u (FP.cast binary32 v) = 0) := by
  refine ⟨?_, fun N s hN hs1 hs2 h => value_exact l N s hN hs1 hs2 h, ?_, ?_⟩
  · rw [parse_number_field_at field pre ws1 _ hlen hfirst (fun c hc => space_ne_colon c (hws1 c hc)),
      strtod_skip_space ws2 _ hws2, strtod_literal l hl rest hr]
    rfl
  · refine ⟨FP.fin false 4503599627370496 (-54), by decide, ?_⟩
    simp only [FP.toRat, Bool.false_eq_true, if_false]
    norm_num
  · refine ⟨FP.fin true 4503599627370496 (-52), by decide, ?_, ?_⟩
    · simp only [FP.toRat, if_true]
      norm_num
    · intro u
      exact map_lt_zero u _ (by decide)

/-- C7, witness: the field `x` of `{"x": 0.25, "y": -1}`. -/
theorem C7_first_occurrence_parsed_witness :
    parse_number_field
        (lit "\x7b" ++ quoted (lit "x") ++
          ([] ++ ':' :: (lit " " ++ ((DecLit.mk none (lit "0") true (lit "25") none).text
            ++ lit ", \"y\": -1\x7d"))))
        (lit "x")
      = some (DecLit.mk none (lit "0") true (lit "25") none).value :=
  (C7_first_occurrence_parsed (lit "x") (lit "\x7b") [] (lit " ") (lit ", \"y\": -1\x7d")
    (DecLit.mk none (lit "0") true (lit "25") none) (by decide)
    (firstAt_of_strstr _ _ _ (by decide)) (by simp) (by decide)
    (by
      refine ⟨by decide, by decide, by decide, by decide, ?_⟩
      intro c sg ds h
      exact absurd h (by simp))
    (by decide)).1

/-- C8, amended: `parse_number_field` (for a name that fits the pattern buffer) returns
"not found" exactly when the quoted field name does not occur, or no colon occurs anywhere
after its first occurrence, or the text after the first such colon (whatever stands between
the name and that colon) does not start, white space skipped, with a number that `strtod`
accepts; on `{"y": 3}` it returns "not found" for `x`. -/
theorem C8_not_found (json field : List Char) (hlen : field.length ≤ 29) :
    (parse_number_field json field = none ↔
      (¬ quoted field <:+: json) ∨
      ∃ pre rest, json = pre ++ quoted field ++ rest ∧ FirstAt (quoted field) pre rest ∧
        ((∀ c ∈ rest, c ≠ ':') ∨
          ∃ mid after, rest = mid ++ ':' :: after ∧ (∀ c ∈ mid, c ≠ ':') ∧ strtod after = none))
    ∧ parse_number_field (lit "\x7b\"y\": 3\x7d") (lit "x") = none := by
  refine ⟨⟨?_, ?_⟩, by decide⟩
  · intro h
    by_cases hin : quoted field <:+: json
    · right
      cases hs : strstr json (quoted field) with
      | none => exact absurd hin ((strstr_none_iff _ _).mp hs)
      | some r =>
        obtain ⟨pre, rest, hj, _, hf⟩ := strstr_some _ _ _ hs
        refine ⟨pre, rest, hj, hf, ?_⟩
        cases hc : strchr rest ':' with
        | none => exact Or.inl ((strchr_none_iff _ _).mp hc)
        | some q =>
          right
          obtain ⟨mid, after, hrest, _, hmid⟩ := strchr_some _ _ _ hc
          refine ⟨mid, after, hrest, hmid, ?_⟩
          subst hrest
          subst hj
          rw [parse_number_field_at field pre mid after hlen hf hmid] at h
          cases hst : strtod after with
          | none => rfl
          | some v => rw [hst] at h; exact absurd h (by simp)
    · exact Or.inl hin
  · rintro (h | ⟨pre, rest, hj, hf, h | ⟨mid, after, hrest, hmid, hst⟩⟩)
    · exact parse_number_field_absent json field hlen h
    · subst hj
      exact parse_number_field_no_colon field pre rest hlen hf h
    · subst hrest
      subst hj
      rw [parse_number_field_at field pre mid after hlen hf hmid, hst]
      rfl

/-- C8, witness: the field `x` is not found in `{"y": 3}`, where its quoted name does not
occur. -/
theorem C8_not_found_witness :
    (lit "x").length ≤ 29 ∧ ¬ quoted (lit "x") <:+: lit "\x7b\"y\": 3\x7d"
    ∧ parse_number_field (lit "\x7b\"y\": 3\x7d") (lit "x") = none :=
  ⟨by decide, (strstr_none_iff _ _).mp (by decide),
    ((C8_not_found (lit "\x7b\"y\": 3\x7d") (lit "x") (by decide)).1).mpr
      (Or.inl ((strstr_none_iff _ _).mp (by decide)))⟩

/-- C8, counterexample: in `{"tags":["x"],"y": 3}` the first occurrence of the quoted name
`"x"` is followed by `]`, which is neither white space nor a colon, yet the field `x` is
found, with the value 3 of the field `y`; and the tokens `inf` and `0x10`, which are not
decimal or exponential literals, are found as values of `x`. -/
theorem C8_found_counterexample :
    lit "\x7b\"tags\":[\"x\"],\"y\": 3\x7d"
        = lit "\x7b\"tags\":[" ++ quoted (lit "x") ++ lit "],\"y\": 3\x7d"
    ∧ FirstAt (quoted (lit "x")) (lit "\x7b\"tags\":[") (lit "],\"y\": 3\x7d")
    ∧ parse_number_field (lit "\x7b\"tags\":[\"x\"],\"y\": 3\x7d") (lit "x")
        = some (FP.fin false 6755399441055744 (-51))
    ∧ FP.toRat (FP.fin false 6755399441055744 (-51)) = 3
    ∧ parse_number_field (lit "\x7b\"x\": inf\x7d") (lit "x") = some (FP.inf false)
    ∧ parse_number_field (lit "\x7b\"x\": 0x10\x7d") (lit "x")
        = some (FP.fin false 4503599627370496 (-48)) := by
  refine ⟨by decide, firstAt_of_strstr _ _ _ (by decide), by decide, ?_, by decide, by decide⟩
  simp only [FP.toRat, Bool.false_eq_true, if_false]
  norm_num

/-! ### The point list -/

theorem body_chars (l : DecLit) (hl : l.WF) :
    ∀ c ∈ l.text, isdigit c = true ∨ c = '.' ∨ c = 'e' ∨ c = 'E' ∨ c = '+' ∨ c = '-' := by
  obtain ⟨hip, hfp, _, _, hex⟩ := hl
  intro c hc
  unfold DecLit.text DecLit.body at hc
  simp only [List.mem_append] at hc
  rcases hc with hc | (hc | hc) | hc
  · cases hs : l.sign with
    | none => rw [hs] at hc; simp [signText] at hc
    | some b =>
      rw [hs] at hc
      cases b <;> simp [signText] at hc <;> simp [hc]
  · exact Or.inl (hip c hc)
  · cases hd : l.dot with
    | false => rw [hd] at hc; simp at hc
    | true =>
      rw [hd] at hc
      simp only [if_true, List.mem_cons] at hc
      rcases hc with hc | hc
      · simp [hc]
      · exact Or.inl (hfp c hc)
  · cases he : l.exp with
    | none => rw [he] at hc; simp [expText] at hc
    | some t =>
      obtain ⟨c2, sg, ds⟩ := t
      obtain ⟨hc2, _, hds⟩ := hex c2 sg ds he
      rw [he] at hc
      simp only [expText, List.mem_cons, List.mem_append] at hc
      rcases hc with hc | hc | hc
      · rcases hc2 with h | h <;> simp [hc, h]
      · cases sg with
        | none => simp [signText] at hc
        | some b => cases b <;> simp [signText] at hc <;> simp [hc]
      · exact Or.inl (hds c hc)

theorem text_ne (l : DecLit) (hl : l.WF) (c : Char) (hc : c ∈ l.text) :
    c ≠ '"' ∧ c ≠ '\x7d' ∧ c ≠ ']' ∧ c ≠ ':' := by
  rcases body_chars l hl c hc with h | h | h | h | h | h
  · refine ⟨?_, ?_, ?_, ?_⟩ <;> (rintro rfl; revert h; decide)
  all_goals (subst h; decide)

theorem object_ne (o : DecLit × DecLit) (h1 : o.1.WF) (h2 : o.2.WF) (c : Char)
    (hc : c ∈ lit "\x7b\"x\":" ++ (o.1.text ++ (lit ",\"y\":" ++ o.2.text))) :
    c ≠ '\x7d' ∧ c ≠ ']' := by
  simp only [List.mem_append] at hc
  rcases hc with hc | hc | hc | hc
  · revert c; decide
  · exact ⟨(text_ne _ h1 c hc).2.1, (text_ne _ h1 c hc).2.2.1⟩
  · revert c; decide
  · exact ⟨(text_ne _ h2 c hc).2.1, (text_ne _ h2 c hc).2.2.1⟩

theorem firstAt_of_quote_free (pre t rest : List Char) (h : ∀ c ∈ pre, c ≠ '"') :
    FirstAt ('"' :: t) pre rest := by
  apply firstAt_of_strstr
  rw [List.append_assoc, strstr_skip pre _ '"' t h]
  exact strstr_at _ _ (by simp)

/-- The field `x` of the first object of a text. -/
theorem parse_x_object (pfx : List Char) (hp : ∀ c ∈ pfx, c ≠ '"') (o : DecLit × DecLit)
    (h1 : o.1.WF) (R : List Char) :
    parse_number_field (pfx ++ (point_object o ++ R)) (lit "x") = some o.1.value := by
  have hshape : pfx ++ (point_object o ++ R)
      = (pfx ++ lit "\x7b") ++ quoted (lit "x") ++
        ([] ++ ':' :: (o.1.text ++ (lit ",\"y\":" ++ (o.2.text ++ lit "\x7d") ++ R))) := by
    simp [point_object, quoted, lit]
  have hfirst : FirstAt (quoted (lit "x")) (pfx ++ lit "\x7b")
      ([] ++ ':' :: (o.1.text ++ (lit ",\"y\":" ++ (o.2.text ++ lit "\x7d") ++ R))) := by
    apply firstAt_of_quote_free
    intro c hc
    rcases List.mem_append.mp hc with h | h
    · exact hp c h
    · exact (by decide : ∀ c ∈ lit "\x7b", c ≠ '"') c h
  rw [hshape, parse_number_field_at (lit "x") _ [] _ (by decide) hfirst (by simp),
    strtod_literal o.1 h1 _ (by rfl)]
  rfl

/-- The field `y` of the first object of a text. -/
theorem parse_y_object (pfx : List Char) (hp : ∀ c ∈ pfx, c ≠ '"') (o : DecLit × DecLit)
    (h1 : o.1.WF) (h2 : o.2.WF) (R : List Char) :
    parse_number_field (pfx ++ (point_object o ++ R)) (lit "y") = some o.2.value := by
  have hshape : pfx ++ (point_object o ++ R)
      = (pfx ++ (lit "\x7b\"x\":" ++ (o.1.text ++ lit ","))) ++ quoted (lit "y") ++
        ([] ++ ':' :: (o.2.text ++ (lit "\x7d" ++ R))) := by
    simp [point_object, quoted, lit]
  have hfirst : FirstAt (quoted (lit "y")) (pfx ++ (lit "\x7b\"x\":" ++ (o.1.text ++ lit ",")))
      ([] ++ ':' :: (o.2.text ++ (lit "\x7d" ++ R))) := by
    apply firstAt_of_strstr
    have hq : quoted (lit "y") = '"' :: lit "y\"" := rfl
    rw [hq, List.append_assoc, List.append_assoc, strstr_skip pfx _ '"' _ hp]
    have h3 : lit "\x7b\"x\":" ++ (o.1.text ++ lit ",") ++
        ('"' :: lit "y\"" ++ ([] ++ ':' :: (o.2.text ++ (lit "\x7d" ++ R))))
        = '\x7b' :: '"' :: 'x' :: '"' :: ':' :: ((o.1.text ++ lit ",") ++
          ('"' :: lit "y\"" ++ ([] ++ ':' :: (o.2.text ++ (lit "\x7d" ++ R))))) := by
      simp [lit]
    rw [h3]
    have hstep1 : ∀ s : List Char, strstr ('\x7b' :: s) ('"' :: lit "y\"")
        = strstr s ('"' :: lit "y\"") := fun s => strstr_skip ['\x7b'] s '"' _ (by decide)
    have hstep2 : ∀ s : List Char, strstr ('"' :: 'x' :: s) ('"' :: lit "y\"")
        = strstr ('x' :: s) ('"' :: lit "y\"") := by
      intro s
      rw [strstr]
      simp [List.isPrefixOf, lit]
    have hstep3 : ∀ s : List Char, strstr ('x' :: s) ('"' :: lit "y\"")
        = strstr s ('"' :: lit "y\"") := fun s => strstr_skip ['x'] s '"' _ (by decide)
    have hstep4 : ∀ s : List Char, strstr ('"' :: ':' :: s) ('"' :: lit "y\"")
        = strstr s ('"' :: lit "y\"") := by
      intro s
      rw [strstr]
      simp only [List.isPrefixOf, lit]
      simp
      exact strstr_skip [':'] s '"' _ (by decide)
    rw [hstep1, hstep2, hstep3, hstep4]
    rw [strstr_skip (o.1.text ++ lit ",") _ '"' _
      (fun c hc => by
        rcases List.mem_append.mp hc with h | h
        · exact (text_ne _ h1 c h).1
        · exact (by decide : ∀ c ∈ lit ",", c ≠ '"') c h)]
    exact strstr_at _ _ (by simp)
  rw [hshape, parse_number_field_at (lit "y") _ [] _ (by decide) hfirst (by simp),
    strtod_literal o.2 h2 _ (by rfl)]
  rfl

/-- The closing brace of the first object of a text. -/
theorem strchr_object (pfx : List Char) (hp : ∀ c ∈ pfx, c ≠ '\x7d') (o : DecLit × DecLit)
    (h1 : o.1.WF) (h2 : o.2.WF) (R : List Char) :
    strchr (pfx ++ (point_object o ++ R)) '\x7d' = some ('\x7d' :: R) := by
  have hshape : pfx ++ (point_object o ++ R)
      = (pfx ++ (lit "\x7b\"x\":" ++ (o.1.text ++ (lit ",\"y\":" ++ o.2.text)))) ++ '\x7d' :: R := by
    simp [point_object, lit]
  rw [hshape, strchr_skip _ _ _ (fun c hc => by
    rcases List.mem_append.mp hc with h | h
    · exact hp c h
    · exact (object_ne o h1 h2 c h).1), strchr_head]

/-- One iteration of the extraction loop on a text that starts with an object. -/
theorem points_loop_step (pfx : List Char) (hp : ∀ c ∈ pfx, c ≠ '"' ∧ c ≠ '\x7d')
    (o : DecLit × DecLit) (h1 : o.1.WF) (h2 : o.2.WF) (R : List Char) (room : Nat) :
    points_loop (room + 1) (pfx ++ (point_object o ++ R)) 2
      = point_value o :: points_loop room R 2 := by
  have hlen : 2 < (pfx ++ (point_object o ++ R)).length := by
    simp [point_object, lit]
    omega
  rw [points_loop, if_pos hlen, parse_x_object pfx (fun c hc => (hp c hc).1) o h1 R,
    parse_y_object pfx (fun c hc => (hp c hc).1) o h1 h2 R,
    strchr_object pfx (fun c hc => (hp c hc).2) o h1 h2 R]
  rfl

theorem points_loop_more (os : List (DecLit × DecLit)) (hos : ∀ o ∈ os, o.1.WF ∧ o.2.WF)
    (room : Nat) :
    points_loop room (more_objects os ++ lit "]\x7d") 2 = (os.take room).map point_value := by
  induction os generalizing room with
  | nil =>
    cases room with
    | zero => rfl
    | succ n => rfl
  | cons o os ih =>
    cases room with
    | zero => rfl
    | succ n =>
      obtain ⟨h1, h2⟩ := hos o (List.mem_cons_self _ _)
      have hshape : more_objects (o :: os) ++ lit "]\x7d"
          = [','] ++ (point_object o ++ (more_objects os ++ lit "]\x7d")) := by
        simp [more_objects]
      rw [hshape, points_loop_step [','] (by decide) o h1 h2 _ n,
        ih (fun x hx => hos x (List.mem_cons_of_mem _ hx)) n]
      rfl

theorem more_objects_ne (os : List (DecLit × DecLit)) (hos : ∀ o ∈ os, o.1.WF ∧ o.2.WF) :
    ∀ c ∈ more_objects os, c ≠ ']' := by
  induction os with
  | nil => simp [more_objects]
  | cons o os ih =>
    obtain ⟨h1, h2⟩ := hos o (List.mem_cons_self _ _)
    intro c hc
    have hshape : more_objects (o :: os) = [','] ++ ((lit "\x7b\"x\":" ++ (o.1.text ++
        (lit ",\"y\":" ++ o.2.text))) ++ (lit "\x7d" ++ more_objects os)) := by
      simp [more_objects, point_object]
    rw [hshape] at hc
    simp only [List.mem_append] at hc
    rcases hc with hc | hc | hc | hc
    · revert c; decide
    · exact (object_ne o h1 h2 c (by simpa [List.mem_append] using hc)).2
    · revert c; decide
    · exact ih (fun x hx => hos x (List.mem_cons_of_mem _ hx)) c hc

theorem objects_text_ne (os : List (DecLit × DecLit)) (hos : ∀ o ∈ os, o.1.WF ∧ o.2.WF) :
    ∀ c ∈ objects_text os, c ≠ ']' := by
  cases os with
  | nil => simp [objects_text]
  | cons o os =>
    intro c hc
    have := more_objects_ne (o :: os) hos c
    apply this
    simp only [more_objects, List.mem_cons]
    exact Or.inr hc

/-- The extraction on a payload `{"points":[o1,...,on]}` of well-formed objects. -/
theorem extract_points_payload (os : List (DecLit × DecLit))
    (hos : ∀ o ∈ os, o.1.WF ∧ o.2.WF) :
    extract_points (points_payload os) = (os.take 5).map point_value := by
  have hshape : points_payload os
      = lit "\x7b\"" ++ (lit "points" ++ (lit "\":" ++ '[' :: (objects_text os ++ lit "]\x7d"))) := by
    simp [points_payload, lit]
  have hstr : strstr (points_payload os) (lit "points")
      = some (lit "points" ++ (lit "\":" ++ '[' :: (objects_text os ++ lit "]\x7d"))) := by
    rw [hshape]
    have hp : lit "points" = 'p' :: lit "oints" := rfl
    rw [hp, strstr_skip (lit "\x7b\"") _ 'p' _ (by decide)]
    exact strstr_at _ _ (by simp)
  have hopen : strchr (lit "points" ++ (lit "\":" ++ '[' :: (objects_text os ++ lit "]\x7d"))) '['
      = some ('[' :: (objects_text os ++ lit "]\x7d")) := by
    rw [← List.append_assoc, strchr_skip _ _ _ (by decide), strchr_head]
  have hclose : strchr (lit "points" ++ (lit "\":" ++ '[' :: (objects_text os ++ lit "]\x7d"))) ']'
      = some (lit "]\x7d") := by
    have h1 : lit "points" ++ (lit "\":" ++ '[' :: (objects_text os ++ lit "]\x7d"))
        = (lit "points\":[" ++ objects_text os) ++ ']' :: lit "\x7d" := by
      simp [lit]
    rw [h1, strchr_skip _ _ _ (fun c hc => by
      rcases List.mem_append.mp hc with h | h
      · exact (by decide : ∀ c ∈ lit "points\":[", c ≠ ']') c h
      · exact objects_text_ne os hos c h), strchr_head]
    rfl
  unfold extract_points
  rw [hstr]
  simp only [hopen, hclose]
  have hlen : (lit "]\x7d").length < ('[' :: (objects_text os ++ lit "]\x7d")).length := by
    simp [lit]
  rw [if_pos hlen]
  simp only [List.drop_succ_cons, List.drop_zero]
  cases os with
  | nil => rfl
  | cons o os =>
    obtain ⟨h1, h2⟩ := hos o (List.mem_cons_self _ _)
    have h3 : objects_text (o :: os) ++ lit "]\x7d"
        = [] ++ (point_object o ++ (more_objects os ++ lit "]\x7d")) := by
      simp [objects_text]
    have h4 : (lit "]\x7d").length = 2 := rfl
    rw [h3, h4, points_loop_step [] (by simp) o h1 h2 _ 4,
      points_loop_more os (fun x hx => hos x (List.mem_cons_of_mem _ hx)) 4]
    rfl

/-- A literal written as digits, a point and digits is well formed. -/
theorem wf_plain (ip fp : List Char) (h1 : ∀ c ∈ ip, isdigit c = true)
    (h2 : ∀ c ∈ fp, isdigit c = true) (h3 : ip ≠ []) :
    (DecLit.mk none ip true fp none).WF :=
  ⟨h1, h2, fun h => absurd h (by simp), Or.inl h3, fun _ _ _ h => absurd h (by simp)⟩

/-- C9: for every payload `{"points":[o1,...,on]}` whose objects are `{"x":a,"y":b}` with
decimal or exponential literals `a`, `b`, the extraction block of the multi-tap and
multi-long-press handlers yields the first `min n 5` points, in source order, each the
values of its two literals converted to `float`; the two-object example yields the points
`(0.1, 0.2)`, `(0.3, 0.4)`, which the multi-tap handler taps in that order, and
`{"points":[]}` yields no point, which both handlers answer with 400 "Invalid points" and no
event. -/
theorem C9_points_extracted (os : List (DecLit × DecLit)) (hos : ∀ o ∈ os, o.1.WF ∧ o.2.WF) :
    extract_points (points_payload os) = (os.take (min os.length 5)).map point_value
    ∧ (extract_points (points_payload os)).length = min os.length 5
    ∧ extract_points
        (lit "\x7b\"points\":[\x7b\"x\":0.1,\"y\":0.2\x7d,\x7b\"x\":0.3,\"y\":0.4\x7d]\x7d")
        = [(FP.round binary32 false 1 10, FP.round binary32 false 2 10),
           (FP.round binary32 false 3 10, FP.round binary32 false 4 10)]
    ∧ (∀ T conn, conn ≠ UINT16_MAX →
        handle_touch_multi_tap T conn
          ⟨lit "\x7b\"points\":[\x7b\"x\":0.1,\"y\":0.2\x7d,\x7b\"x\":0.3,\"y\":0.4\x7d]\x7d",
            false⟩
          = (Resp.ok,
              [Ev.touch conn true 3277 6553, Ev.delay 50, Ev.touch conn false 3277 6553,
               Ev.delay 100,
               Ev.touch conn true 9830 13107, Ev.delay 50, Ev.touch conn false 9830 13107,
               Ev.delay 100]))
    ∧ extract_points (lit "\x7b\"points\":[]\x7d") = []
    ∧ (∀ T conn, conn ≠ UINT16_MAX →
        handle_touch_multi_tap T conn ⟨lit "\x7b\"points\":[]\x7d", false⟩
          = (Resp.error 400 "Invalid points", [])
        ∧ handle_touch_multi_long_press T conn ⟨lit "\x7b\"points\":[]\x7d", false⟩
          = (Resp.error 400 "Invalid points", [])) := by
  have h := extract_points_payload os hos
  have htake : os.take (min os.length 5) = os.take 5 := by
    rcases le_or_lt os.length 5 with h5 | h5
    · rw [min_eq_left h5, List.take_of_length_le h5, List.take_of_length_le (le_refl _)]
    · rw [min_eq_right (le_of_lt h5)]
  refine ⟨by rw [h, htake], ?_, by decide, ?_, by decide, ?_⟩
  · rw [h]
    simp only [List.length_map, List.length_take]
    omega
  · intro T conn hconn
    have hready : ensure_hid_ready conn = none := by
      unfold ensure_hid_ready
      rw [if_neg hconn]
    have hbody : read_body
        ⟨lit "\x7b\"points\":[\x7b\"x\":0.1,\"y\":0.2\x7d,\x7b\"x\":0.3,\"y\":0.4\x7d]\x7d",
          false⟩
        = some (some
          (lit "\x7b\"points\":[\x7b\"x\":0.1,\"y\":0.2\x7d,\x7b\"x\":0.3,\"y\":0.4\x7d]\x7d")) := by
      decide
    have hpts : extract_points
        (lit "\x7b\"points\":[\x7b\"x\":0.1,\"y\":0.2\x7d,\x7b\"x\":0.3,\"y\":0.4\x7d]\x7d")
        = [(FP.round binary32 false 1 10, FP.round binary32 false 2 10),
           (FP.round binary32 false 3 10, FP.round binary32 false 4 10)] := by decide
    unfold handle_touch_multi_tap
    simp only [hready, hbody, hpts]
    rfl
  · intro T conn hconn
    have hready : ensure_hid_ready conn = none := by
      unfold ensure_hid_ready
      rw [if_neg hconn]
    have hbody : read_body ⟨lit "\x7b\"points\":[]\x7d", false⟩
        = some (some (lit "\x7b\"points\":[]\x7d")) := by decide
    have hpts : extract_points (lit "\x7b\"points\":[]\x7d") = [] := by decide
    constructor
    · unfold handle_touch_multi_tap
      simp only [hready, hbody, hpts]
      rfl
    · unfold handle_touch_multi_long_press
      simp only [hready, hbody, hpts]
      rfl

/-- C9, witness: the payload `{"points":[{"x":0.1,"y":0.2}]}`. -/
theorem C9_points_extracted_witness :
    extract_points (points_payload
        [(DecLit.mk none (lit "0") true (lit "1") none,
          DecLit.mk none (lit "0") true (lit "2") none)])
      = [point_value (DecLit.mk none (lit "0") true (lit "1") none,
          DecLit.mk none (lit "0") true (lit "2") none)] :=
  (C9_points_extracted
    [(DecLit.mk none (lit "0") true (lit "1") none, DecLit.mk none (lit "0") true (lit "2") none)]
    (by
      intro o ho
      rw [List.mem_singleton] at ho
      subst ho
      exact ⟨wf_plain _ _ (by decide) (by decide) (by decide),
        wf_plain _ _ (by decide) (by decide) (by decide)⟩)).1

/-- C10, the code at the failing inputs: in `{"points":[{"x":0.1},{"y":0.2}]}` the first
segment has no `y` and the second has no `x`, yet the extraction yields the point
`(0.1, 0.2)`, its `y` taken from the later segment, and the multi-tap handler (with the live
connection id 0) answers "ok" and taps it; and for `{"points":[ ],"x":0.3,"y":0.4}` the
extraction yields the point `(0.3, 0.4)`, both fields standing after the closing bracket. -/
theorem C10_fields_from_other_segments :
    extract_points (lit "\x7b\"points\":[\x7b\"x\":0.1\x7d,\x7b\"y\":0.2\x7d]\x7d")
      = [(FP.round binary32 false 1 10, FP.round binary32 false 2 10)]
    ∧ (∀ T, handle_touch_multi_tap T 0
          ⟨lit "\x7b\"points\":[\x7b\"x\":0.1\x7d,\x7b\"y\":0.2\x7d]\x7d", false⟩
        = (Resp.ok,
            [Ev.touch 0 true 3277 6553, Ev.delay 50, Ev.touch 0 false 3277 6553, Ev.delay 100]))
    ∧ extract_points (lit "\x7b\"points\":[ ],\"x\":0.3,\"y\":0.4\x7d")
      = [(FP.round binary32 false 3 10, FP.round binary32 false 4 10)] := by
  refine ⟨by decide, ?_, by decide⟩
  intro T
  have hbody : read_body
      ⟨lit "\x7b\"points\":[\x7b\"x\":0.1\x7d,\x7b\"y\":0.2\x7d]\x7d", false⟩
      = some (some (lit "\x7b\"points\":[\x7b\"x\":0.1\x7d,\x7b\"y\":0.2\x7d]\x7d")) := by
    decide
  have hpts : extract_points (lit "\x7b\"points\":[\x7b\"x\":0.1\x7d,\x7b\"y\":0.2\x7d]\x7d")
      = [(FP.round binary32 false 1 10, FP.round binary32 false 2 10)] := by decide
  have hready : ensure_hid_ready 0 = none := by decide
  unfold handle_touch_multi_tap
  simp only [hready, hbody, hpts]
  rfl

/-! ### Integer-typed fields -/

namespace FP

/-- The datum that `round` yields belongs to the format. -/
theorem round_inFmt (f : Fmt) (hprec : 0 < f.prec) (neg : Bool)
    (p q : Nat) : InFmt f (round f neg p q) := by
  unfold round
  simp only
  have hmin : f.emin ≤ targetExp f p q := le_max_right _ _
  split
  · trivial
  · next hc1 =>
    push_neg at hc1
    split
    · next hc2 =>
      refine ⟨Nat.pow_lt_pow_right (by norm_num) (by omega), by omega, ?_⟩
      have h1 := hc1.1
      have h2 := hc1.2
      by_contra hcon
      have : targetExp f p q = f.emax := by omega
      exact absurd hc2 (not_le.mpr (h2 this))
    · next hc2 =>
      exact ⟨not_le.mp hc2, hmin, hc1.1⟩

theorem le_ilog2 (p q : Nat) (hq : 0 < q) (k : Int) (h : (2 : ℚ) ^ k ≤ (p : ℚ) / q) :
    k ≤ ilog2 p q := by
  by_contra hcon
  have h1 := lt_ilog2 p q hq
  have h2 : (2 : ℚ) ^ (ilog2 p q + 1) ≤ (2 : ℚ) ^ k :=
    zpow_le_zpow_right₀ (by norm_num) (by omega)
  linarith

/-- The sum of a non-negative datum and one half, before rounding. -/
theorem add_nonneg_half (f : Fmt) (n : Bool) (m : Nat) (e : Int) (hn : n = false ∨ m = 0) :
    add f (fin n m e) (fin false 1 (-1))
      = roundDyadic f false
          (m * 2 ^ (e - min e (-1)).toNat + 2 ^ (-1 - min e (-1)).toNat) (min e (-1)) := by
  have hscaled : scaled n m e (min e (-1)) = ((m * 2 ^ (e - min e (-1)).toNat : Nat) : Int) := by
    unfold scaled
    rcases hn with h | h
    · subst h; simp
    · subst h; simp
  unfold add
  simp only [hscaled]
  have hs2 : scaled false 1 (-1) (min e (-1)) = ((2 ^ (-1 - min e (-1)).toNat : Nat) : Int) := by
    unfold scaled
    simp
  rw [hs2]
  have hpos : 0 < 2 ^ (-1 - min e (-1)).toNat := by positivity
  have hne : ((m * 2 ^ (e - min e (-1)).toNat : Nat) : Int)
      + ((2 ^ (-1 - min e (-1)).toNat : Nat) : Int) ≠ 0 := by
    omega
  rw [if_neg hne]
  have hnn : ¬ (((m * 2 ^ (e - min e (-1)).toNat : Nat) : Int)
      + ((2 ^ (-1 - min e (-1)).toNat : Nat) : Int) < 0) := by omega
  have habs : (((m * 2 ^ (e - min e (-1)).toNat : Nat) : Int)
      + ((2 ^ (-1 - min e (-1)).toNat : Nat) : Int)).natAbs
      = m * 2 ^ (e - min e (-1)).toNat + 2 ^ (-1 - min e (-1)).toNat := by omega
  rw [habs, decide_eq_false hnn]

theorem add_nonneg_half_value (m : Nat) (e : Int) :
    ((m * 2 ^ (e - min e (-1)).toNat + 2 ^ (-1 - min e (-1)).toNat : Nat) : ℚ)
      * (2 : ℚ) ^ (min e (-1)) = (m : ℚ) * (2 : ℚ) ^ e + 1 / 2 := by
  have two_ne : (2 : ℚ) ≠ 0 := by norm_num
  push_cast
  rw [add_mul, mul_assoc, ← zpow_natCast, ← zpow_natCast, ← zpow_add₀ two_ne,
    ← zpow_add₀ two_ne]
  have h1 : (((e - min e (-1)).toNat : Int) + min e (-1)) = e := by omega
  have h2 : (((-1 - min e (-1)).toNat : Int) + min e (-1)) = -1 := by omega
  rw [h1, h2]
  norm_num

/-- A power of two with a non-positive exponent times the matching natural power is one. -/
theorem zpow_mul_pow_neg (s : Int) (hs : s ≤ 0) :
    ((2 ^ (-s).toNat : Nat) : ℚ) * (2 : ℚ) ^ s = 1 := by
  have two_ne : (2 : ℚ) ≠ 0 := by norm_num
  push_cast
  rw [← zpow_natCast, ← zpow_add₀ two_ne]
  have : (((-s).toNat : Int) + s) = 0 := by omega
  rw [this, zpow_zero]

/-- The key bound for a sum `x = v + 1/2` of a `double` `v = m * 2^e` and one half, below
`2^32`: unless `v` is the largest `double` below one half, `x` stays at least one step of
the grid `2^s` below the next integer, where `s` is the larger of the rounding exponent
and of the exponent of the sum. -/
theorem sum_below_next (m : Nat) (e : Int) (hm : m < 2 ^ 53) (he : -1074 ≤ e) (K : Nat)
    (t : Int) (L : Int) (ht21 : t ≤ -21) (htL : t = max (L - 52) (-1074))
    (hL1 : (2 : ℚ) ^ L ≤ (m : ℚ) * (2 : ℚ) ^ e + 1 / 2)
    (hL2 : (m : ℚ) * (2 : ℚ) ^ e + 1 / 2 < (2 : ℚ) ^ (L + 1))
    (hK1 : (K : ℚ) ≤ (m : ℚ) * (2 : ℚ) ^ e + 1 / 2)
    (hK2 : (m : ℚ) * (2 : ℚ) ^ e + 1 / 2 < (K : ℚ) + 1)
    (hne : (m : ℚ) * (2 : ℚ) ^ e ≠ 1 / 2 - 1 / 2 ^ 54) :
    (m : ℚ) * (2 : ℚ) ^ e + 1 / 2 ≤ (K : ℚ) + 1 - (2 : ℚ) ^ (max t (min e (-1))) := by
  have two_ne : (2 : ℚ) ≠ 0 := by norm_num
  have hm' : (m : ℚ) < (2 : ℚ) ^ (53 : Int) := by
    rw [show (53 : Int) = ((53 : Nat) : Int) from rfl, zpow_natCast]
    exact_mod_cast hm
  rcases le_or_lt t (min e (-1)) with hcase | hcase
  · -- the sum is a multiple of the grid step, and so is the next integer
    rw [max_eq_right hcase]
    have hval := add_nonneg_half_value m e
    have hone := zpow_mul_pow_neg (min e (-1)) (by omega)
    have hpos := two_zpow_pos (min e (-1))
    have hJ : ((K : ℚ) + 1) = (((K + 1) * 2 ^ (-(min e (-1))).toNat : Nat) : ℚ)
        * (2 : ℚ) ^ (min e (-1)) := by
      push_cast
      push_cast at hone
      rw [mul_assoc, hone, mul_one]
    rw [← hval] at hK2 ⊢
    rw [hJ] at hK2 ⊢
    have hlt : m * 2 ^ (e - min e (-1)).toNat + 2 ^ (-1 - min e (-1)).toNat
        < (K + 1) * 2 ^ (-(min e (-1))).toNat := by
      have := lt_of_mul_lt_mul_right hK2 (le_of_lt hpos)
      exact_mod_cast this
    have hle : ((m * 2 ^ (e - min e (-1)).toNat + 2 ^ (-1 - min e (-1)).toNat + 1 : Nat) : ℚ)
        ≤ (((K + 1) * 2 ^ (-(min e (-1))).toNat : Nat) : ℚ) := by
      exact_mod_cast hlt
    have := mul_le_mul_of_nonneg_right hle (le_of_lt hpos)
    push_cast at this ⊢
    linarith
  · -- the sum is rounded more coarsely than it is written
    rw [max_eq_left (le_of_lt hcase)]
    have het : e < t := by
      rcases le_or_lt e (-1) with h | h
      · rw [min_eq_left h] at hcase; exact hcase
      · rw [min_eq_right (le_of_lt h)] at hcase; omega
    have htL2 : t = L - 52 := by
      rw [htL]
      apply max_eq_left
      by_contra hcon
      have : t = -1074 := by rw [htL]; exact max_eq_right (by omega)
      omega
    have hv : (m : ℚ) * (2 : ℚ) ^ e < (2 : ℚ) ^ L := by
      have h1 : (m : ℚ) * (2 : ℚ) ^ e < (2 : ℚ) ^ (53 : Int) * (2 : ℚ) ^ e :=
        mul_lt_mul_of_pos_right hm' (two_zpow_pos e)
      rw [← zpow_add₀ two_ne] at h1
      have h2 : (2 : ℚ) ^ (53 + e) ≤ (2 : ℚ) ^ L :=
        zpow_le_zpow_right₀ (by norm_num) (by omega)
      linarith
    have h2t : (2 : ℚ) ^ t ≤ 1 / 2 := by
      have h5 : (2 : ℚ) ^ t ≤ (2 : ℚ) ^ (-1 : Int) :=
        zpow_le_zpow_right₀ (by norm_num) (by omega)
      have h3 : (2 : ℚ) ^ (-1 : Int) = 1 / 2 := by norm_num
      rw [h3] at h5
      exact h5
    rcases le_or_lt 0 L with hL0 | hL0
    · -- the sum lies less than one half above the integer `2^L`
      have hP : (2 : ℚ) ^ L = ((2 ^ L.toNat : Nat) : ℚ) := by
        have : L = (L.toNat : Int) := by omega
        conv_lhs => rw [this]
        rw [zpow_natCast]
        push_cast
        rfl
      rw [hP] at hL1 hv
      have hPK : 2 ^ L.toNat ≤ K := by
        have : ((2 ^ L.toNat : Nat) : ℚ) < (K : ℚ) + 1 := by linarith
        have : 2 ^ L.toNat < K + 1 := by exact_mod_cast this
        omega
      have hPK' : ((2 ^ L.toNat : Nat) : ℚ) ≤ (K : ℚ) := by exact_mod_cast hPK
      linarith
    · -- the sum lies in `[1/2, 1)`
      have hL : L = -1 := by
        by_contra hcon
        have h1 : (2 : ℚ) ^ (L + 1) ≤ (2 : ℚ) ^ (-1 : Int) :=
          zpow_le_zpow_right₀ (by norm_num) (by omega)
        have h3 : (2 : ℚ) ^ (-1 : Int) = 1 / 2 := by norm_num
        rw [h3] at h1
        have h4 : (0 : ℚ) ≤ (m : ℚ) * (2 : ℚ) ^ e := by
          have := two_zpow_pos e
          positivity
        linarith
      subst hL
      have ht53 : t = -53 := by omega
      have hK0 : K = 0 := by
        have h1 : (2 : ℚ) ^ ((-1 : Int) + 1) = 1 := by norm_num
        rw [h1] at hL2
        have : (K : ℚ) < 1 := by linarith
        have : K < 1 := by exact_mod_cast this
        omega
      subst hK0
      rw [ht53]
      have h53 : (2 : ℚ) ^ (-53 : Int) = 1 / 2 ^ 53 := by
        rw [zpow_neg, show (53 : Int) = ((53 : Nat) : Int) from rfl, zpow_natCast, one_div]
      rw [h53]
      have hgoal : (m : ℚ) * (2 : ℚ) ^ e ≤ 1 / 2 - 1 / 2 ^ 53 := by
        rcases le_or_lt e (-55) with h55 | h55
        · have h1 : (2 : ℚ) ^ e ≤ (2 : ℚ) ^ (-55 : Int) :=
            zpow_le_zpow_right₀ (by norm_num) h55
          have h2 : (2 : ℚ) ^ (-55 : Int) = 1 / 2 ^ 55 := by
            rw [zpow_neg, show (55 : Int) = ((55 : Nat) : Int) from rfl, zpow_natCast, one_div]
          have h3 : (m : ℚ) * (2 : ℚ) ^ e ≤ (2 : ℚ) ^ (53 : Int) * (2 : ℚ) ^ (-55 : Int) :=
            mul_le_mul (le_of_lt hm') h1 (le_of_lt (two_zpow_pos e)) (by positivity)
          rw [h2] at h3
          norm_num at h3 ⊢
          linarith
        · have he54 : e = -54 := by omega
          subst he54
          have h54 : (2 : ℚ) ^ (-54 : Int) = 1 / 2 ^ 54 := by
            rw [zpow_neg, show (54 : Int) = ((54 : Nat) : Int) from rfl, zpow_natCast, one_div]
          rw [h54] at hne ⊢
          have hm2 : m ≠ 2 ^ 53 - 1 := by
            intro h
            apply hne
            rw [h]
            norm_num
          have hm3 : m ≤ 2 ^ 53 - 2 := by omega
          have hm4 : (m : ℚ) ≤ 2 ^ 53 - 2 := by
            have : ((m : Nat) : ℚ) ≤ ((2 ^ 53 - 2 : Nat) : ℚ) := by exact_mod_cast hm3
            norm_num at this ⊢
            exact this
          have : (m : ℚ) * (1 / 2 ^ 54) ≤ (2 ^ 53 - 2) * (1 / 2 ^ 54) :=
            mul_le_mul_of_nonneg_right hm4 (by positivity)
          norm_num at this ⊢
          linarith
      push_cast
      linarith

end FP

/-- The sum `v + 0.5` in `parse_uint32_field`, for a non-negative `double` `v` other than
the largest one below one half: the rounded sum is finite and has the same integer part
`K` as the exact sum. -/
theorem add_half_floor (n : Bool) (m : Nat) (e : Int) (hm : m < 2 ^ 53) (he : -1074 ≤ e)
    (hn : n = false ∨ m = 0) (K : Nat)
    (hK1 : (K : ℚ) ≤ (m : ℚ) * (2 : ℚ) ^ e + 1 / 2)
    (hK2 : (m : ℚ) * (2 : ℚ) ^ e + 1 / 2 < (K : ℚ) + 1) (hK32 : K + 1 ≤ 2 ^ 32)
    (hne : (m : ℚ) * (2 : ℚ) ^ e ≠ 1 / 2 - 1 / 2 ^ 54) :
    ∃ m2 e2, FP.add binary64 (FP.fin n m e) (FP.fin false 1 (-1)) = FP.fin false m2 e2
      ∧ (K : ℚ) ≤ (m2 : ℚ) * (2 : ℚ) ^ e2 ∧ (m2 : ℚ) * (2 : ℚ) ^ e2 < (K : ℚ) + 1 := by
  rw [FP.add_nonneg_half binary64 n m e hn]
  have hval := FP.add_nonneg_half_value m e
  have hquot := FP.dyadic_quotient
    (m * 2 ^ (e - min e (-1)).toNat + 2 ^ (-1 - min e (-1)).toNat) (min e (-1))
  rw [hval] at hquot
  have hq : 0 < 2 ^ (-(min e (-1))).toNat := by positivity
  have hp : 0 < (m * 2 ^ (e - min e (-1)).toNat + 2 ^ (-1 - min e (-1)).toNat)
      * 2 ^ (min e (-1)).toNat := by positivity
  have hL1 := FP.ilog2_le _ _ hp hq
  have hL2 := FP.lt_ilog2 ((m * 2 ^ (e - min e (-1)).toNat + 2 ^ (-1 - min e (-1)).toNat)
      * 2 ^ (min e (-1)).toNat) _ hq
  rw [hquot] at hL1 hL2
  have h32 : (m : ℚ) * (2 : ℚ) ^ e + 1 / 2 < (2 : ℚ) ^ (32 : Int) := by
    have h1 : ((K + 1 : Nat) : ℚ) ≤ ((2 ^ 32 : Nat) : ℚ) := by exact_mod_cast hK32
    have h2 : (2 : ℚ) ^ (32 : Int) = ((2 ^ 32 : Nat) : ℚ) := by norm_num
    rw [h2]
    push_cast at h1 ⊢
    linarith
  have hL32 := FP.ilog2_lt_of_lt_pos _ _ hp hq 32 (by rw [hquot]; exact h32)
  have htL : FP.targetExp binary64
      ((m * 2 ^ (e - min e (-1)).toNat + 2 ^ (-1 - min e (-1)).toNat) * 2 ^ (min e (-1)).toNat)
      (2 ^ (-(min e (-1))).toNat)
      = max (FP.ilog2 ((m * 2 ^ (e - min e (-1)).toNat + 2 ^ (-1 - min e (-1)).toNat)
          * 2 ^ (min e (-1)).toNat) (2 ^ (-(min e (-1))).toNat) - 52) (-1074) := by
    unfold FP.targetExp binary64
    simp only
    congr 1
  have ht21 : FP.targetExp binary64
      ((m * 2 ^ (e - min e (-1)).toNat + 2 ^ (-1 - min e (-1)).toNat) * 2 ^ (min e (-1)).toNat)
      (2 ^ (-(min e (-1))).toNat) ≤ -21 := by
    rw [htL]
    apply max_le <;> omega
  have hkey := FP.sum_below_next m e hm he K _ _ ht21 htL hL1 hL2 hK1 hK2 hne
  set t := FP.targetExp binary64
      ((m * 2 ^ (e - min e (-1)).toNat + 2 ^ (-1 - min e (-1)).toNat) * 2 ^ (min e (-1)).toNat)
      (2 ^ (-(min e (-1))).toNat) with ht_def
  have hs0 : max t (min e (-1)) ≤ 0 := by
    apply max_le <;> omega
  have hone := FP.zpow_mul_pow_neg (max t (min e (-1))) hs0
  have hspos := FP.two_zpow_pos (max t (min e (-1)))
  have hJ : 1 ≤ (K + 1) * 2 ^ (-(max t (min e (-1)))).toNat :=
    Nat.mul_pos (by omega) (by positivity)
  have hlo : ((K * 2 ^ (-(max t (min e (-1)))).toNat : Nat) : ℚ) * (2 : ℚ) ^ (max t (min e (-1)))
      = (K : ℚ) := by
    push_cast
    push_cast at hone
    rw [mul_assoc, hone, mul_one]
  have hhi : (((K + 1) * 2 ^ (-(max t (min e (-1)))).toNat - 1 : Nat) : ℚ)
      * (2 : ℚ) ^ (max t (min e (-1))) = (K : ℚ) + 1 - (2 : ℚ) ^ (max t (min e (-1))) := by
    rw [Nat.cast_sub hJ]
    push_cast
    push_cast at hone
    rw [sub_mul, mul_assoc, hone]
    ring
  obtain ⟨m2, e2, hr, h1, h2⟩ := FP.round_bounds binary64 (by decide) false
    ((m * 2 ^ (e - min e (-1)).toNat + 2 ^ (-1 - min e (-1)).toNat) * 2 ^ (min e (-1)).toNat)
    (2 ^ (-(min e (-1))).toNat) hq (max t (min e (-1)))
    (K * 2 ^ (-(max t (min e (-1)))).toNat)
    ((K + 1) * 2 ^ (-(max t (min e (-1)))).toNat - 1)
    (le_max_left _ _) (by show max t (min e (-1)) < 971; omega)
    (by rw [hlo, hquot]; exact hK1) (by rw [hhi, hquot]; exact hkey)
  refine ⟨m2, e2, hr, ?_, ?_⟩
  · rw [hlo] at h1; exact h1
  · rw [hhi] at h2; linarith

/-- The conversion to `uint32_t` of a non-negative finite datum with integer part `K`. -/
theorem toUInt32_floor (u : Nat) (m2 : Nat) (e2 : Int) (K : Nat)
    (h1 : (K : ℚ) ≤ (m2 : ℚ) * (2 : ℚ) ^ e2) (h2 : (m2 : ℚ) * (2 : ℚ) ^ e2 < (K : ℚ) + 1)
    (hK : K ≤ 4294967295) : FP.toUInt32 u (FP.fin false m2 e2) = K := by
  have hq : 0 < 2 ^ (-e2).toNat := by positivity
  have hq' : (0 : ℚ) < ((2 ^ (-e2).toNat : Nat) : ℚ) := by exact_mod_cast hq
  have hval := FP.dyadic_quotient m2 e2
  rw [← hval] at h1 h2
  have hk : (m2 * 2 ^ e2.toNat) / 2 ^ (-e2).toNat = K := by
    apply Nat.div_eq_of_lt_le
    · rw [le_div_iff₀ hq'] at h1
      exact_mod_cast h1
    · rw [div_lt_iff₀ hq'] at h2
      have : ((m2 * 2 ^ e2.toNat : Nat) : ℚ) < (((K + 1) * 2 ^ (-e2).toNat : Nat) : ℚ) := by
        push_cast
        push_cast at h2
        exact h2
      exact_mod_cast this
  unfold FP.toUInt32
  simp only [hk]
  split
  · next h => exact h.symm
  · rw [if_pos ⟨trivial, hK⟩]

/-- Every number that `strtod` returns is a `double`. -/
theorem strtod_inFmt (s : List Char) (v : FP) (r : List Char) (h : strtod s = some (v, r)) :
    FP.InFmt binary64 v := by
  unfold strtod at h
  simp only at h
  split at h
  · next res hhex =>
    injection h with h
    subst h
    unfold hexBody at hhex
    split at hhex
    · split at hhex
      · simp only at hhex
        split at hhex
        · exact absurd hhex (by simp)
        · injection hhex with hhex
          rw [Prod.mk.injEq] at hhex
          rw [← hhex.1]
          exact FP.round_inFmt binary64 (by decide) _ _ _
      · exact absurd hhex (by simp)
    · exact absurd hhex (by simp)
  · split at h
    · next res hdec =>
      injection h with h
      subst h
      unfold decimalBody at hdec
      simp only at hdec
      split at hdec
      · exact absurd hdec (by simp)
      · injection hdec with hdec
        rw [Prod.mk.injEq] at hdec
        rw [← hdec.1]
        exact FP.round_inFmt binary64 (by decide) _ _ _
    · unfold specialBody at h
      split at h
      · injection h with h
        rw [Prod.mk.injEq] at h
        rw [← h.1]
        trivial
      · split at h
        · injection h with h
          rw [Prod.mk.injEq] at h
          rw [← h.1]
          trivial
        · split at h
          · split at h
            · split at h
              all_goals
                injection h with h
                rw [Prod.mk.injEq] at h
                rw [← h.1]
                trivial
            · injection h with h
              rw [Prod.mk.injEq] at h
              rw [← h.1]
              trivial
          · exact absurd h (by simp)

/-- Every number that `parse_number_field` returns is a `double`. -/
theorem parse_number_field_inFmt (json field : List Char) (v : FP)
    (h : parse_number_field json field = some v) : FP.InFmt binary64 v := by
  unfold parse_number_field at h
  simp only at h
  split at h
  · exact absurd h (by simp)
  · split at h
    · exact absurd h (by simp)
    · split at h
      · exact absurd h (by simp)
      · next value endp hst =>
        injection h with h
        subst h
        exact strtod_inFmt _ _ _ hst

theorem toRat_nonneg_fin (n : Bool) (m : Nat) (e : Int) (hn : n = false ∨ m = 0) :
    FP.toRat (FP.fin n m e) = (m : ℚ) * (2 : ℚ) ^ e := by
  rcases hn with h | h
  · subst h; simp [FP.toRat]
  · subst h; simp [FP.toRat]

theorem parse_uint32_none_iff (T : Target) (json field : List Char) :
    parse_uint32_field T json field = none ↔ parse_number_field json field = none := by
  unfold parse_uint32_field
  cases parse_number_field json field with
  | none => simp
  | some v => simp

theorem parse_uint32_negative (T : Target) (json field : List Char) (v : FP)
    (h : parse_number_field json field = some v) (hlt : FP.lt v (FP.fin false 0 0) = true) :
    parse_uint32_field T json field = some 0 := by
  unfold parse_uint32_field
  simp only [h, hlt, if_true]
  rfl

theorem parse_uint32_rounds (T : Target) (json field : List Char) (n : Bool) (m : Nat) (e : Int)
    (h : parse_number_field json field = some (FP.fin n m e))
    (hlt : FP.lt (FP.fin n m e) (FP.fin false 0 0) = false)
    (h32 : FP.toRat (FP.fin n m e) + 1 / 2 < 2 ^ 32)
    (hne : FP.toRat (FP.fin n m e) ≠ 1 / 2 - 1 / 2 ^ 54) :
    parse_uint32_field T json field = some ⌊FP.toRat (FP.fin n m e) + 1 / 2⌋.toNat := by
  obtain ⟨hm, he, _⟩ := parse_number_field_inFmt json field _ h
  have hn : n = false ∨ m = 0 := by
    by_contra hcon
    push_neg at hcon
    have := (lt_f0_iff n m e).mpr ⟨by simpa using hcon.1, hcon.2⟩
    rw [show f0 = FP.fin false 0 0 from rfl, hlt] at this
    exact absurd this (by decide)
  rw [toRat_nonneg_fin n m e hn] at h32 hne ⊢
  have hpos := FP.two_zpow_pos e
  have hx0 : (0 : ℚ) ≤ (m : ℚ) * (2 : ℚ) ^ e + 1 / 2 := by positivity
  have hK0 : 0 ≤ ⌊(m : ℚ) * (2 : ℚ) ^ e + 1 / 2⌋ := Int.floor_nonneg.mpr hx0
  obtain ⟨K, hK⟩ := Int.eq_ofNat_of_zero_le hK0
  have hfl := Int.floor_le ((m : ℚ) * (2 : ℚ) ^ e + 1 / 2)
  have hfu := Int.lt_floor_add_one ((m : ℚ) * (2 : ℚ) ^ e + 1 / 2)
  rw [hK] at hfl hfu
  push_cast at hfl hfu
  have hK32 : K + 1 ≤ 2 ^ 32 := by
    have h1 : (K : ℚ) < ((2 ^ 32 : Nat) : ℚ) := by
      push_cast
      linarith
    have : K < 2 ^ 32 := by exact_mod_cast h1
    omega
  obtain ⟨m2, e2, hadd, h1, h2⟩ := add_half_floor n m e hm (by exact he) hn K hfl hfu hK32 hne
  have hres := toUInt32_floor T.undefCastU m2 e2 K h1 h2 (by omega)
  unfold parse_uint32_field
  simp only [h, hlt, Bool.false_eq_true, if_false, hadd, hres, hK]
  rfl

/-- C12, amended: `parse_uint32_field` reports "not found" exactly when
`parse_number_field` does; a found negative value gives 0; and a found value `v` that is not
negative, with `v + 0.5 < 2^32`, gives `floor (v + 0.5)`, except that for `v` the largest
`double` below one half, `0.49999999999999994`, the `double` sum `v + 0.5` rounds to `1.0`
and the result is 1. -/
theorem C12_parse_uint32 (T : Target) (json field : List Char) :
    (parse_uint32_field T json field = none ↔ parse_number_field json field = none)
    ∧ (∀ v, parse_number_field json field = some v → FP.lt v (FP.fin false 0 0) = true →
        parse_uint32_field T json field = some 0)
    ∧ (∀ n m e, parse_number_field json field = some (FP.fin n m e) →
        FP.lt (FP.fin n m e) (FP.fin false 0 0) = false →
        FP.toRat (FP.fin n m e) + 1 / 2 < 2 ^ 32 →
        FP.toRat (FP.fin n m e) ≠ 1 / 2 - 1 / 2 ^ 54 →
        parse_uint32_field T json field = some ⌊FP.toRat (FP.fin n m e) + 1 / 2⌋.toNat)
    ∧ parse_uint32_field T (lit "\x7b\"duration_ms\": 0.49999999999999994\x7d")
        (lit "duration_ms") = some 1 := by
  refine ⟨parse_uint32_none_iff T json field, parse_uint32_negative T json field,
    parse_uint32_rounds T json field, ?_⟩
  have h : parse_number_field (lit "\x7b\"duration_ms\": 0.49999999999999994\x7d")
      (lit "duration_ms") = some (FP.fin false 9007199254740991 (-54)) := by decide
  unfold parse_uint32_field
  simp only [h]
  rfl

/-- C12, witness: the field `duration_ms` of `{"duration_ms": 250.5}` is rounded to 251. -/
theorem C12_parse_uint32_witness :
    parse_number_field (lit "\x7b\"duration_ms\": 250.5\x7d") (lit "duration_ms")
      = some (FP.fin false 8813685208252416 (-45))
    ∧ parse_uint32_field sampleTarget (lit "\x7b\"duration_ms\": 250.5\x7d") (lit "duration_ms")
      = some ⌊FP.toRat (FP.fin false 8813685208252416 (-45)) + 1 / 2⌋.toNat
    ∧ ⌊FP.toRat (FP.fin false 8813685208252416 (-45)) + 1 / 2⌋ = 251 := by
  have hv : FP.toRat (FP.fin false 8813685208252416 (-45)) = 501 / 2 := by
    simp only [FP.toRat, Bool.false_eq_true, if_false]
    norm_num
  refine ⟨by decide, ?_, ?_⟩
  · exact (C12_parse_uint32 sampleTarget (lit "\x7b\"duration_ms\": 250.5\x7d")
      (lit "duration_ms")).2.2.1 false 8813685208252416 (-45) (by decide) (by decide)
      (by rw [hv]; norm_num) (by rw [hv]; norm_num)
  · rw [hv, Int.floor_eq_iff]
    norm_num

/-- C12, counterexample: the field `duration_ms` of `{"duration_ms": 0.49999999999999994}`
has the value `1/2 - 2^-54`, so `v + 0.5` is below 1 and `floor (v + 0.5)` is 0, the nearest
integer to `v`; `parse_uint32_field` returns 1. -/
theorem C12_half_counterexample :
    parse_number_field (lit "\x7b\"duration_ms\": 0.49999999999999994\x7d") (lit "duration_ms")
      = some (FP.fin false 9007199254740991 (-54))
    ∧ FP.toRat (FP.fin false 9007199254740991 (-54)) + 1 / 2 = 1 - 1 / 2 ^ 54
    ∧ ⌊FP.toRat (FP.fin false 9007199254740991 (-54)) + 1 / 2⌋ = 0
    ∧ parse_uint32_field sampleTarget (lit "\x7b\"duration_ms\": 0.49999999999999994\x7d")
        (lit "duration_ms") = some 1 := by
  have hv : FP.toRat (FP.fin false 9007199254740991 (-54)) = 9007199254740991 / 2 ^ 54 := by
    simp only [FP.toRat, Bool.false_eq_true, if_false]
    norm_num
  refine ⟨by decide, ?_, ?_, by decide⟩
  · rw [hv]; norm_num
  · rw [hv, Int.floor_eq_iff]
    norm_num

/-! ### Malformed requests -/

theorem ready_of_connected (conn : Nat) (h : conn ≠ UINT16_MAX) : ensure_hid_ready conn = none := by
  unfold ensure_hid_ready
  rw [if_neg h]

theorem read_body_present (req : Req) (h1 : req.content ≠ []) (h2 : req.readFails = false) :
    read_body req = some (some (body_text req)) := by
  unfold read_body body_text
  have : ¬ req.content.length = 0 := by
    intro h
    exact h1 (List.length_eq_zero.mp h)
  simp [this, h2]

theorem read_body_absent (req : Req) (h1 : req.content = []) : read_body req = some none := by
  unfold read_body
  simp [h1]

/-- The function `parse_number_field` (for a name that fits the pattern buffer) finds no
number exactly in the texts that hold none for the field. -/
theorem parse_number_field_none_iff (json field : List Char) (hlen : field.length ≤ 29) :
    parse_number_field json field = none ↔ NoNumber json field := by
  unfold NoNumber
  constructor
  · intro h
    by_cases hin : quoted field <:+: json
    · right
      cases hs : strstr json (quoted field) with
      | none => exact absurd hin ((strstr_none_iff _ _).mp hs)
      | some r =>
        obtain ⟨pre, rest, hj, _, hf⟩ := strstr_some _ _ _ hs
        refine ⟨pre, rest, hj, hf, ?_⟩
        cases hc : strchr rest ':' with
        | none => exact Or.inl ((strchr_none_iff _ _).mp hc)
        | some q =>
          right
          obtain ⟨mid, after, hrest, _, hmid⟩ := strchr_some _ _ _ hc
          refine ⟨mid, after, hrest, hmid, ?_⟩
          subst hrest
          subst hj
          rw [parse_number_field_at field pre mid after hlen hf hmid] at h
          cases hst : strtod after with
          | none => rfl
          | some v => rw [hst] at h; exact absurd h (by simp)
    · exact Or.inl hin
  · rintro (h | ⟨pre, rest, hj, hf, h | ⟨mid, after, hrest, hmid, hst⟩⟩)
    · exact parse_number_field_absent json field hlen h
    · subst hj
      exact parse_number_field_no_colon field pre rest hlen hf h
    · subst hrest
      subst hj
      rw [parse_number_field_at field pre mid after hlen hf hmid, hst]
      rfl

theorem parse_float_none_iff (json field : List Char) (hlen : field.length ≤ 29) :
    parse_float_field json field = none ↔ NoNumber json field := by
  rw [← parse_number_field_none_iff json field hlen]
  unfold parse_float_field
  cases parse_number_field json field <;> simp

theorem parse_uint32_noNumber_iff (T : Target) (json field : List Char)
    (hlen : field.length ≤ 29) :
    parse_uint32_field T json field = none ↔ NoNumber json field := by
  rw [← parse_number_field_none_iff json field hlen]
  exact parse_uint32_none_iff T json field

/-- The word `points` does not occur: nothing is extracted. -/
theorem extract_points_absent (body : List Char) (h : ¬ lit "points" <:+: body) :
    extract_points body = [] := by
  unfold extract_points
  rw [(strstr_none_iff _ _).mpr h]

theorem tap_present (T : Target) (conn : Nat) (req : Req) (hconn : conn ≠ UINT16_MAX)
    (hc : req.content ≠ []) (hread : req.readFails = false) :
    handle_touch_tap T conn req =
      match parse_float_field (body_text req) (lit "x"),
          parse_float_field (body_text req) (lit "y") with
      | some x, some y => (Resp.ok, hid_touch_tap T conn x y)
      | _, _ => (Resp.error 400 "Missing x/y", []) := by
  unfold handle_touch_tap
  simp only [ready_of_connected conn hconn, read_body_present req hc hread]
  rfl

theorem long_press_present (T : Target) (conn : Nat) (req : Req) (hconn : conn ≠ UINT16_MAX)
    (hc : req.content ≠ []) (hread : req.readFails = false) :
    handle_touch_long_press T conn req =
      match parse_float_field (body_text req) (lit "x"),
          parse_float_field (body_text req) (lit "y"),
          parse_uint32_field T (body_text req) (lit "duration_ms") with
      | some x, some y, some duration => (Resp.ok, hid_touch_long_press T conn x y duration)
      | _, _, _ => (Resp.error 400 "Missing fields", []) := by
  unfold handle_touch_long_press
  simp only [ready_of_connected conn hconn, read_body_present req hc hread]
  rfl

theorem swipe_present (T : Target) (conn : Nat) (req : Req) (hconn : conn ≠ UINT16_MAX)
    (hc : req.content ≠ []) (hread : req.readFails = false) :
    handle_touch_swipe T conn req =
      match parse_float_field (body_text req) (lit "start_x"),
          parse_float_field (body_text req) (lit "start_y"),
          parse_float_field (body_text req) (lit "end_x"),
          parse_float_field (body_text req) (lit "end_y") with
      | some sx, some sy, some ex, some ey =>
        (Resp.ok, hid_touch_swipe T conn sx sy ex ey
          ((parse_uint32_field T (body_text req) (lit "duration_ms")).getD 0))
      | _, _, _, _ => (Resp.error 400 "Missing fields", []) := by
  unfold handle_touch_swipe
  simp only [ready_of_connected conn hconn, read_body_present req hc hread]
  rfl

theorem multi_tap_present (T : Target) (conn : Nat) (req : Req) (hconn : conn ≠ UINT16_MAX)
    (hc : req.content ≠ []) (hread : req.readFails = false) :
    handle_touch_multi_tap T conn req =
      if (extract_points (body_text req)).length = 0 then (Resp.error 400 "Invalid points", [])
      else (Resp.ok, hid_touch_multi_tap T conn
        (if (extract_points (body_text req)).length > 5 then 5
          else (extract_points (body_text req)).length)
        (some (xs_of (extract_points (body_text req))))
        (some (ys_of (extract_points (body_text req))))) := by
  unfold handle_touch_multi_tap
  simp only [ready_of_connected conn hconn, read_body_present req hc hread]
  rfl

theorem multi_long_press_present (T : Target) (conn : Nat) (req : Req)
    (hconn : conn ≠ UINT16_MAX) (hc : req.content ≠ []) (hread : req.readFails = false) :
    handle_touch_multi_long_press T conn req =
      if (extract_points (body_text req)).length = 0 then (Resp.error 400 "Invalid points", [])
      else (Resp.ok, hid_touch_multi_long_press T conn
        (if (extract_points (body_text req)).length > 5 then 5
          else (extract_points (body_text req)).length)
        (some (xs_of (extract_points (body_text req))))
        (some (ys_of (extract_points (body_text req))))
        ((parse_uint32_field T (body_text req) (lit "duration_ms")).getD 0)) := by
  unfold handle_touch_multi_long_press
  simp only [ready_of_connected conn hconn, read_body_present req hc hread]
  rfl

theorem ok_ne_error (evs : List Ev) (status : Nat) (message : String) :
    ((Resp.ok, evs) : Resp × List Ev) ≠ (Resp.error status message, []) := by
  intro h
  injection h with h1 _
  exact Resp.noConfusion h1


/-! ### Texts that hold no point -/

/-- The first `]` of a text that has its first `[` earlier stands in the part after that
`[`. -/
theorem split_brackets (a list a2 tail : List Char) (h : a ++ '[' :: list = a2 ++ ']' :: tail)
    (ha : ']' ∉ a) (ha2 : ∀ c ∈ a2, c ≠ ']') :
    ∃ b, list = b ++ ']' :: tail ∧ ∀ c ∈ b, c ≠ ']' := by
  rcases List.append_eq_append_iff.mp h with ⟨a1, h1, h2⟩ | ⟨c1, h1, h2⟩
  · cases a1 with
    | nil =>
      simp only [List.nil_append] at h2
      injection h2 with h3 _
      exact absurd h3 (by decide)
    | cons d b =>
      simp only [List.cons_append] at h2
      injection h2 with h3 h4
      refine ⟨b, h4, ?_⟩
      intro c hc
      apply ha2 c
      rw [h1]
      simp [hc]
  · cases c1 with
    | nil =>
      simp only [List.nil_append] at h2
      injection h2 with h3 _
      exact absurd h3 (by decide)
    | cons d c2 =>
      simp only [List.cons_append] at h2
      injection h2 with h3 _
      exfalso
      apply ha
      rw [h1, ← h3]
      simp

/-- The first step of the extraction loop on a text that reaches the closing bracket
`]` after `b`. -/
theorem points_loop_nil_iff (b tail : List Char) :
    points_loop 5 (b ++ ']' :: tail) (tail.length + 1) = [] ↔
      b = [] ∨ parse_number_field (b ++ ']' :: tail) (lit "x") = none
        ∨ parse_number_field (b ++ ']' :: tail) (lit "y") = none := by
  rw [points_loop]
  by_cases hb : b = []
  · subst hb
    simp
  · have hlen : tail.length + 1 < (b ++ ']' :: tail).length := by
      have : 0 < b.length := List.length_pos.mpr hb
      simp only [List.length_append, List.length_cons]
      omega
    rw [if_pos hlen]
    cases parse_number_field (b ++ ']' :: tail) (lit "x") <;>
      cases parse_number_field (b ++ ']' :: tail) (lit "y") <;> simp [hb]

/-- The extraction block yields no point exactly on the texts that hold none. -/
theorem extract_points_nil_iff (body : List Char) : extract_points body = [] ↔ NoPoint body := by
  unfold NoPoint
  have hpts1 : ∀ c ∈ lit "points", c ≠ '[' := by decide
  have hpts2 : ∀ c ∈ lit "points", c ≠ ']' := by decide
  by_cases hin : lit "points" <:+: body
  · cases hs : strstr body (lit "points") with
    | none => exact absurd hin ((strstr_none_iff _ _).mp hs)
    | some ptr =>
      obtain ⟨pre, rest, hj, hptr, hf⟩ := strstr_some _ _ _ hs
      have hval : extract_points body =
          match strchr rest '[', strchr rest ']' with
          | some p, some e =>
            if e.length < p.length then points_loop 5 (p.drop 1) e.length else []
          | _, _ => [] := by
        unfold extract_points
        rw [hs]
        simp only
        rw [hptr, strchr_skip _ _ _ hpts1, strchr_skip _ _ _ hpts2]
      rw [hval]
      have hfirst : ∀ pre2 rest2, body = pre2 ++ lit "points" ++ rest2 →
          FirstAt (lit "points") pre2 rest2 → pre2 = pre ∧ rest2 = rest := by
        intro pre2 rest2 hj2 hf2
        have h1 : pre.length ≤ pre2.length := by
          apply hf pre2 (lit "points" ++ rest2)
          · rw [← hj, hj2, List.append_assoc]
          · exact List.prefix_append _ _
        have h2 : pre2.length ≤ pre.length := by
          apply hf2 pre (lit "points" ++ rest)
          · rw [← hj2, hj, List.append_assoc]
          · exact List.prefix_append _ _
        have hlen : pre2.length = pre.length := le_antisymm h2 h1
        have heq : pre2 ++ (lit "points" ++ rest2) = pre ++ (lit "points" ++ rest) := by
          rw [← List.append_assoc, ← List.append_assoc, ← hj, ← hj2]
        have h3 := List.append_inj heq hlen
        exact ⟨h3.1, List.append_cancel_left h3.2⟩
      constructor
      · intro h
        right
        refine ⟨pre, rest, hj, hf, ?_⟩
        cases hp : strchr rest '[' with
        | none => exact Or.inl ((strchr_none_iff _ _).mp hp)
        | some p =>
          cases he : strchr rest ']' with
          | none => exact Or.inr (Or.inl ((strchr_none_iff _ _).mp he))
          | some e =>
            right; right
            obtain ⟨a, list, hrest, hpv, ha⟩ := strchr_some _ _ _ hp
            obtain ⟨a2, tail, hrest2, hev, ha2⟩ := strchr_some _ _ _ he
            refine ⟨a, list, hrest, ha, ?_⟩
            by_cases hmem : ']' ∈ a
            · exact Or.inl hmem
            · right
              obtain ⟨b, hb, _⟩ := split_brackets a list a2 tail (by rw [← hrest, ← hrest2])
                hmem ha2
              rw [hp, he] at h
              simp only at h
              subst hpv
              subst hev
              have hlt : (']' :: tail).length < ('[' :: list).length := by
                rw [hb]
                simp only [List.length_cons, List.length_append]
                omega
              rw [if_pos hlt] at h
              simp only [List.drop_succ_cons, List.drop_zero, List.length_cons] at h
              rw [hb] at h
              rcases (points_loop_nil_iff b tail).mp h with h1 | h1 | h1
              · left
                rw [hb, h1]
                rfl
              · right; left
                rw [hb]
                exact (parse_number_field_none_iff _ _ (by decide)).mp h1
              · right; right
                rw [hb]
                exact (parse_number_field_none_iff _ _ (by decide)).mp h1
      · rintro (h | ⟨pre2, rest2, hj2, hf2, h⟩)
        · exact absurd hin h
        · obtain ⟨_, hr⟩ := hfirst pre2 rest2 hj2 hf2
          subst hr
          rcases h with h | h | ⟨a, list, hrest, ha, h⟩
          · rw [strchr_none _ _ h]
          · rw [strchr_none _ _ h]
            cases strchr rest2 '[' <;> rfl
          · have hp : strchr rest2 '[' = some ('[' :: list) := by
              rw [hrest, strchr_skip _ _ _ ha, strchr_head]
            rw [hp]
            cases he : strchr rest2 ']' with
            | none => rfl
            | some e =>
              obtain ⟨a2, tail, hrest2, hev, ha2⟩ := strchr_some _ _ _ he
              subst hev
              simp only
              by_cases hmem : ']' ∈ a
              · -- the closing bracket comes first
                have hnot : ¬ (']' :: tail).length < ('[' :: list).length := by
                  obtain ⟨a3, a4, ha34⟩ := List.append_of_mem hmem
                  have h5 : a2 ++ ']' :: tail = a3 ++ ']' :: (a4 ++ '[' :: list) := by
                    rw [← hrest2, hrest, ha34]
                    simp
                  have hlen : a2.length ≤ a3.length := by
                    by_contra hcon
                    push_neg at hcon
                    have h7 := congrArg (fun l => l[a3.length]?) h5
                    simp only at h7
                    rw [List.getElem?_append_left (by omega)] at h7
                    rw [List.getElem?_append_right (le_refl _)] at h7
                    simp only [Nat.sub_self, List.getElem?_cons_zero] at h7
                    have h8 : ']' ∈ a2 := by
                      first
                        | exact List.mem_of_getElem? h7
                        | exact List.getElem?_mem h7
                    exact ha2 _ h8 rfl
                  have h9 := congrArg List.length h5
                  simp only [List.length_append, List.length_cons] at h9
                  simp only [List.length_cons]
                  omega
                rw [if_neg hnot]
              · obtain ⟨b, hb, _⟩ := split_brackets a list a2 tail
                  (by rw [← hrest, ← hrest2]) hmem ha2
                have hlt : (']' :: tail).length < ('[' :: list).length := by
                  rw [hb]
                  simp only [List.length_cons, List.length_append]
                  omega
                rw [if_pos hlt]
                simp only [List.drop_succ_cons, List.drop_zero, List.length_cons]
                rw [hb]
                apply (points_loop_nil_iff b tail).mpr
                rcases h with h | h | h | h
                · exact absurd h hmem
                · left
                  rw [hb] at h
                  cases b with
                  | nil => rfl
                  | cons d b2 =>
                    simp only [List.cons_append, List.head?_cons, Option.some.injEq] at h
                    exfalso
                    have := ‹∀ c ∈ d :: b2, c ≠ ']'› d (List.mem_cons_self _ _)
                    exact this h
                · right; left
                  rw [hb] at h
                  exact (parse_number_field_none_iff _ _ (by decide)).mpr h
                · right; right
                  rw [hb] at h
                  exact (parse_number_field_none_iff _ _ (by decide)).mpr h
  · constructor
    · intro _
      exact Or.inl hin
    · intro _
      exact extract_points_absent body hin

/-- C11, amended: with a live connection and a body that can be read, a request is answered
with status 400 and no event exactly when the text holds no number for a required field,
in the way the field scanner reads a text (`NoNumber`: the quoted name does not occur, or no
colon follows its first occurrence, or no number starts the text after that colon): a tap
with a body and no number for `x` or `y`; a long press without body, or with no number for
`x`, `y` or `duration_ms`; a swipe without body, or with no number for `start_x`, `start_y`,
`end_x` or `end_y`; a multi-tap or multi-long-press without body, or whose extracted points
are none, which is so exactly on the texts of `NoPoint`.  No such answer equals the 503
answer given without a connection. -/
theorem C11_malformed_input (T : Target) (conn : Nat) (req : Req) (hconn : conn ≠ UINT16_MAX)
    (hread : req.readFails = false) :
    (req.content ≠ [] →
        (handle_touch_tap T conn req = (Resp.error 400 "Missing x/y", [])
          ↔ NoNumber (body_text req) (lit "x") ∨ NoNumber (body_text req) (lit "y")))
    ∧ (req.content = [] →
        handle_touch_long_press T conn req = (Resp.error 400 "Missing body", []))
    ∧ (req.content ≠ [] →
        (handle_touch_long_press T conn req = (Resp.error 400 "Missing fields", [])
          ↔ NoNumber (body_text req) (lit "x") ∨ NoNumber (body_text req) (lit "y")
            ∨ NoNumber (body_text req) (lit "duration_ms")))
    ∧ (req.content = [] →
        handle_touch_swipe T conn req = (Resp.error 400 "Missing body", []))
    ∧ (req.content ≠ [] →
        (handle_touch_swipe T conn req = (Resp.error 400 "Missing fields", [])
          ↔ NoNumber (body_text req) (lit "start_x") ∨ NoNumber (body_text req) (lit "start_y")
            ∨ NoNumber (body_text req) (lit "end_x") ∨ NoNumber (body_text req) (lit "end_y")))
    ∧ (req.content = [] →
        handle_touch_multi_tap T conn req = (Resp.error 400 "Missing body", [])
        ∧ handle_touch_multi_long_press T conn req = (Resp.error 400 "Missing body", []))
    ∧ (req.content ≠ [] →
        (handle_touch_multi_tap T conn req = (Resp.error 400 "Invalid points", [])
          ↔ extract_points (body_text req) = [])
        ∧ (handle_touch_multi_long_press T conn req = (Resp.error 400 "Invalid points", [])
          ↔ extract_points (body_text req) = []))
    ∧ (extract_points (body_text req) = [] ↔ NoPoint (body_text req))
    ∧ (∀ message, Resp.error 400 message ≠ Resp.error 503 "HID not connected") := by
  have hready := ready_of_connected conn hconn
  have hmulti : req.content ≠ [] →
      (handle_touch_multi_tap T conn req = (Resp.error 400 "Invalid points", [])
        ↔ extract_points (body_text req) = [])
      ∧ (handle_touch_multi_long_press T conn req = (Resp.error 400 "Invalid points", [])
        ↔ extract_points (body_text req) = []) := by
    intro hc
    rw [multi_tap_present T conn req hconn hc hread,
      multi_long_press_present T conn req hconn hc hread]
    by_cases h : extract_points (body_text req) = []
    · simp [h]
    · have hl : ¬ (extract_points (body_text req)).length = 0 := by
        intro h0
        exact h (List.length_eq_zero.mp h0)
      simp only [hl, if_false, h, iff_false]
      exact ⟨ok_ne_error _ _ _, ok_ne_error _ _ _⟩
  refine ⟨?_, ?_, ?_, ?_, ?_, ?_, hmulti, ?_, ?_⟩
  · intro hc
    rw [tap_present T conn req hconn hc hread,
      ← parse_float_none_iff _ (lit "x") (by decide),
      ← parse_float_none_iff _ (lit "y") (by decide)]
    cases parse_float_field (body_text req) (lit "x") <;>
      cases parse_float_field (body_text req) (lit "y") <;> simp
  · intro hc
    unfold handle_touch_long_press
    simp only [hready, read_body_absent req hc, respond_error]
  · intro hc
    rw [long_press_present T conn req hconn hc hread,
      ← parse_float_none_iff _ (lit "x") (by decide),
      ← parse_float_none_iff _ (lit "y") (by decide),
      ← parse_uint32_noNumber_iff T _ (lit "duration_ms") (by decide)]
    cases parse_float_field (body_text req) (lit "x") <;>
      cases parse_float_field (body_text req) (lit "y") <;>
      cases parse_uint32_field T (body_text req) (lit "duration_ms") <;> simp
  · intro hc
    unfold handle_touch_swipe
    simp only [hready, read_body_absent req hc, respond_error]
  · intro hc
    rw [swipe_present T conn req hconn hc hread,
      ← parse_float_none_iff _ (lit "start_x") (by decide),
      ← parse_float_none_iff _ (lit "start_y") (by decide),
      ← parse_float_none_iff _ (lit "end_x") (by decide),
      ← parse_float_none_iff _ (lit "end_y") (by decide)]
    cases parse_float_field (body_text req) (lit "start_x") <;>
      cases parse_float_field (body_text req) (lit "start_y") <;>
      cases parse_float_field (body_text req) (lit "end_x") <;>
      cases parse_float_field (body_text req) (lit "end_y") <;> simp
  · intro hc
    constructor
    · unfold handle_touch_multi_tap
      simp only [hready, read_body_absent req hc, respond_error]
    · unfold handle_touch_multi_long_press
      simp only [hready, read_body_absent req hc, respond_error]
  · exact extract_points_nil_iff _
  · intro message h
    injection h with h1 _
    exact absurd h1 (by decide)

/-- C11, witness: with the live connection id 0, the quoted name of `x` does not occur in
the body `{"y": 3}`, and the tap is answered with 400 "Missing x/y" and produces no event. -/
theorem C11_malformed_input_witness :
    (0 : Nat) ≠ UINT16_MAX
    ∧ (⟨lit "\x7b\"y\": 3\x7d", false⟩ : Req).content ≠ []
    ∧ NoNumber (body_text ⟨lit "\x7b\"y\": 3\x7d", false⟩) (lit "x")
    ∧ handle_touch_tap sampleTarget 0 ⟨lit "\x7b\"y\": 3\x7d", false⟩
        = (Resp.error 400 "Missing x/y", []) :=
  ⟨by decide, by decide, Or.inl ((strstr_none_iff _ _).mp (by decide)),
    ((C11_malformed_input sampleTarget 0 ⟨lit "\x7b\"y\": 3\x7d", false⟩ (by decide) rfl).1
      (by decide)).mpr (Or.inl (Or.inl ((strstr_none_iff _ _).mp (by decide))))⟩

/-- C11, counterexample: the tap body `{"label":"x","y":0.5}` has the fields `label` and `y`
and lacks a field `x`, yet with the live connection id 0 the request is answered with
success and a tap is sent at (0.5, 0.5): the quoted name `"x"` occurs as the value of
`label`, and the number after the next colon is taken for `x`. -/
theorem C11_lacking_counterexample :
    (0 : Nat) ≠ UINT16_MAX
    ∧ body_text ⟨lit "\x7b\"label\":\"x\",\"y\":0.5\x7d", false⟩
        = lit "\x7b\"label\":\"x\",\"y\":0.5\x7d"
    ∧ parse_float_field (lit "\x7b\"label\":\"x\",\"y\":0.5\x7d") (lit "x")
        = some (FP.fin false 8388608 (-24))
    ∧ FP.toRat (FP.fin false 8388608 (-24)) = 1 / 2
    ∧ handle_touch_tap sampleTarget 0 ⟨lit "\x7b\"label\":\"x\",\"y\":0.5\x7d", false⟩
        = (Resp.ok, [Ev.touch 0 true 16384 16384, Ev.delay 50, Ev.touch 0 false 16384 16384])
    ∧ handle_touch_tap sampleTarget 0 ⟨lit "\x7b\"label\":\"x\",\"y\":0.5\x7d", false⟩
        ≠ (Resp.error 400 "Missing x/y", []) := by
  refine ⟨by decide, by decide, by decide, ?_, by decide, by decide⟩
  simp only [FP.toRat, Bool.false_eq_true, if_false]
  norm_num

/-! ### The end of a swipe -/

theorem swipe_eq_iter (T : Target) (c : Nat) (sx sy ex ey : FP) (d : Nat) :
    hid_touch_swipe T c sx sy ex ey d =
      hid_touch_update T c true sx sy
        ++ ((List.range (swipe_steps d)).map (fun k => swipe_iter T c sx sy ex ey d (k + 1))).flatten
        ++ hid_touch_update T c false ex ey := rfl

theorem swipe_iter_eq (T : Target) (c : Nat) (sx sy ex ey : FP) (d i : Nat) :
    ∃ x y, swipe_iter T c sx sy ex ey d i = [Ev.delay 16, Ev.touch c true x y] :=
  ⟨_, _, rfl⟩

theorem loop_touches_length (c : Nat) (g : Nat → List Ev)
    (hg : ∀ k, ∃ x y, g k = [Ev.delay 16, Ev.touch c true x y]) (l : List Nat) :
    (((l.map g).flatten).filter Ev.isTouch).length = l.length := by
  induction l with
  | nil => rfl
  | cons k l ih =>
    obtain ⟨x, y, hk⟩ := hg k
    rw [List.map_cons, List.flatten_cons, List.filter_append, List.length_append, ih, hk]
    simp [Ev.isTouch, Nat.add_comm]

theorem five_le_swipe_steps (d : Nat) : 5 ≤ swipe_steps d := by
  simp only [swipe_steps, HID_TOUCH_INTERVAL_MS]
  split_ifs <;> omega

/-- C13, amended: after the `steps` interpolated move events `hid_touch_swipe` emits only the
release at the mapped literal end point, and no further press.  The trace is the press at
the start point, the `steps` loop iterations (each a 16 ms delay and one pressed=true
report), and the release; it holds `steps + 2` contact events; and its two last contact
events are the pressed=true report of the last loop iteration, `i = steps`, followed by
(false, map(end_x), map(end_y)). -/
theorem C13_swipe_end (T : Target) (conn_id : Nat) (start_x start_y end_x end_y : FP)
    (d : Nat) :
    hid_touch_swipe T conn_id start_x start_y end_x end_y d
      = hid_touch_update T conn_id true start_x start_y
        ++ ((List.range (swipe_steps d)).map
              (fun k => swipe_iter T conn_id start_x start_y end_x end_y d (k + 1))).flatten
        ++ hid_touch_update T conn_id false end_x end_y
    ∧ (∀ i, ∃ x y, swipe_iter T conn_id start_x start_y end_x end_y d i
          = [Ev.delay 16, Ev.touch conn_id true x y])
    ∧ ((hid_touch_swipe T conn_id start_x start_y end_x end_y d).filter Ev.isTouch).length
        = swipe_steps d + 2
    ∧ (∃ x y, swipe_iter T conn_id start_x start_y end_x end_y d (swipe_steps d)
          = [Ev.delay 16, Ev.touch conn_id true x y]
        ∧ ((hid_touch_swipe T conn_id start_x start_y end_x end_y d).filter Ev.isTouch).drop
            (swipe_steps d)
          = [Ev.touch conn_id true x y,
             Ev.touch conn_id false (hid_map_normalized T.undefCast end_x)
               (hid_map_normalized T.undefCast end_y)]) := by
  have hiter := swipe_iter_eq T conn_id start_x start_y end_x end_y d
  have hlen := loop_touches_length conn_id
    (fun k => swipe_iter T conn_id start_x start_y end_x end_y d (k + 1))
    (fun k => hiter (k + 1))
  refine ⟨rfl, hiter, ?_, ?_⟩
  · rw [swipe_eq_iter, List.filter_append, List.filter_append, List.length_append,
      List.length_append, hlen, touch_update_eq, touch_update_eq, List.length_range]
    simp [Ev.isTouch]
    omega
  · obtain ⟨m, hm⟩ : ∃ m, swipe_steps d = m + 1 :=
      ⟨swipe_steps d - 1, by have := five_le_swipe_steps d; omega⟩
    obtain ⟨x, y, hxy⟩ := hiter (swipe_steps d)
    refine ⟨x, y, hxy, ?_⟩
    have hl := hlen (List.range m)
    rw [List.length_range] at hl
    rw [swipe_eq_iter, hm, List.range_succ, List.map_append, List.flatten_append,
      List.filter_append, List.filter_append, List.filter_append, touch_update_eq,
      touch_update_eq, List.map_singleton, List.flatten_singleton]
    rw [hm] at hxy
    simp only [hxy]
    have h1 : List.filter Ev.isTouch
        [Ev.touch conn_id true (hid_map_normalized T.undefCast start_x)
          (hid_map_normalized T.undefCast start_y)]
        = [Ev.touch conn_id true (hid_map_normalized T.undefCast start_x)
          (hid_map_normalized T.undefCast start_y)] := rfl
    have h2 : List.filter Ev.isTouch [Ev.delay 16, Ev.touch conn_id true x y]
        = [Ev.touch conn_id true x y] := rfl
    have h3 : List.filter Ev.isTouch
        [Ev.touch conn_id false (hid_map_normalized T.undefCast end_x)
          (hid_map_normalized T.undefCast end_y)]
        = [Ev.touch conn_id false (hid_map_normalized T.undefCast end_x)
          (hid_map_normalized T.undefCast end_y)] := rfl
    rw [h1, h2, h3, List.append_assoc, List.append_assoc, ← List.append_assoc]
    rw [List.drop_left' (by rw [List.length_append, hl]; simp; omega)]
    rfl

/-- C13, counterexample: on the sample target the swipe from (0.5, 0) to (0.5, 1) asked to
last 80 ms runs 5 loop iterations and sends 7 contact events, not 8; the end point maps to
(16384, 32767), the last event is the release there, and the event before it is the report
of the fifth iteration at (16383, 32767), which is not the mapped end point. -/
theorem C13_end_counterexample :
    swipe_steps 80 = 5
    ∧ hid_map_normalized sampleTarget.undefCast fHalf = 16384
    ∧ hid_map_normalized sampleTarget.undefCast f1 = 32767
    ∧ (hid_touch_swipe sampleTarget 0 fHalf f0 fHalf f1 80).filter Ev.isTouch
      = [Ev.touch 0 true 16384 0, Ev.touch 0 true 13963 3129, Ev.touch 0 true 9138 11321,
         Ev.touch 0 true 9138 21446, Ev.touch 0 true 13963 29638, Ev.touch 0 true 16383 32767,
         Ev.touch 0 false 16384 32767] := by
  refine ⟨by decide, by decide, by decide, ?_⟩
  decide!

end NateBox
